import Mathlib

/-!
# DecodeCSVSelectedColumns

A shallow embedding of `src/CPPModules/decode_csv_selected_columns.cc`: the quote-aware
scanner `ExtractFields` and the kernel method `Compute` (schema resolution, field-count
check, typed conversion with default substitution), followed by theorems about them.

Conventions of the embedding.

* A C++ `char` is a Lean `Char`, a `string`/`StringPiece` is a `List Char`. The scanner only
  compares characters for equality with the quote, CR, LF and the delimiter.
* `while` loops carry a fuel argument and an index `current_idx`, exactly as the source does;
  every `input[...]` read is an explicit lookup, and a lookup past the end is reported as
  `outOfBounds` instead of being given a value.
* `for (int i = 0; i < n; ++i)` loops are `forLoop body n 0`.
* `OP_REQUIRES(ctx, cond, status)` hands `status` to the context and returns from the
  enclosing function when `cond` is false. The context keeps every status it was handed, in
  order (`Context.failures`).
* `int` values are mathematical integers wrapped to 32 bits where the source adds
  (`wrapInt32`), and converted as C++ does when compared with a `size_t` (`toSizeT`).
-/

namespace DecodeCSV

/-! ## Data model -/

/-- Statuses handed to the context by the checks of the kernel, one constructor per
`errors::InvalidArgument` call of the source, with the values its message carries. -/
inductive Err where
  | outTypeTooLarge
  | delimNotOneChar
  | tooManyDefaults (i : Nat) (n : Nat)
  | fieldIndicesSize
  | fieldIndexNegative (i : Nat) (idx : Int)
  | fieldCount (expected : Int) (got : Nat) (record : Nat)
  | requiredMissing (f : Nat) (record : Nat)
  | notValidInt32 (f : Nat) (record : Nat) (text : List Char)
  | notValidInt64 (f : Nat) (record : Nat) (text : List Char)
  | notValidFloat (f : Nat) (record : Nat) (text : List Char)
  | unsupportedType (dtype : Nat) (f : Nat)
  | unquotedHasQuoteOrCRLF
  | quoteNotEscaped
  | quotedFieldBadEnd
  deriving DecidableEq, Repr

/-- Result of one of the two field-body loops of `ExtractFields`: the loop ran to its exit
(`done`, with the position and the field text), a check failed (`failed`), a read was past
the end of the input, or the fuel ran out. -/
inductive Body where
  | done (current_idx : Nat) (field : List Char)
  | failed (e : Err)
  | outOfBounds
  | outOfFuel
  deriving DecidableEq, Repr

/-- Result of the main scan loop and of `ExtractFields`. Both `done` and `failed` carry the
contents of `*result` at the moment the function is left. -/
inductive Scanned where
  | done (current_idx : Nat) (result : List (List Char))
  | failed (e : Err) (result : List (List Char))
  | outOfBounds
  | outOfFuel
  deriving DecidableEq, Repr

/-- The element types of the op (`OUT_TYPE: list({float,int32,int64,string})`); `other`
stands for every remaining value of the framework enumeration, by its numeric code. -/
inductive DataType where
  | DT_FLOAT
  | DT_INT32
  | DT_INT64
  | DT_STRING
  | other (code : Nat)
  deriving DecidableEq, Repr

/-- One tensor element. A float is kept as its bit pattern: no arithmetic is done on it. -/
inductive Scalar where
  | int32 (v : Int)
  | int64 (v : Int)
  | float (bits : Nat)
  | string (s : List Char)
  deriving DecidableEq, Repr

/-- The three conversion routines of `tensorflow/core/lib/strings/numbers.h`, which are not
part of this repository and are taken as parameters. -/
structure Numbers where
  safe_strto32 : List Char → Option Int
  safe_strto64 : List Char → Option Int
  safe_strtof : List Char → Option Nat

/-- The private members of `DecodeCSVSelectedColumnsOp`. -/
structure Kernel where
  out_type_ : List DataType
  delim_ : Char
  field_indices_vec_ : List Int
  num_first_n_columns_to_extract_ : Int
  deriving DecidableEq, Repr

/-- What `Compute` leaves in the `OpKernelContext`: the statuses handed to `CtxFailure`, in
order, and the output list, `output[f][i]`, where `none` is a slot never assigned. -/
structure Context where
  failures : List Err
  output : List (List (Option Scalar))
  deriving DecidableEq, Repr

/-- How a block of `Compute` ends: control continues after it (`next`), a failed
`OP_REQUIRES` returned from `Compute` (`ret`), or execution left defined behaviour (`undefined`:
an access out of range, or a scan that did not return). -/
inductive Flow (σ : Type) where
  | next (s : σ)
  | ret (s : σ)
  | undefined
  deriving DecidableEq, Repr

/-- Locals and context of the schema resolution block of `Compute`. -/
structure Resolving where
  field_indices_vec_ : List Int
  maxColIndex : Int
  ctx : Context
  deriving DecidableEq, Repr

/-! ## Machine integers and small helpers -/

/-- A value brought back into the range of a 32-bit `int` (two's complement). -/
def wrapInt32 (x : Int) : Int := (x + 2 ^ 31) % 2 ^ 32 - 2 ^ 31

/-- Conversion of an `int` to `size_t`, as in `fields.size() == num_first_n_columns_to_extract_`. -/
def toSizeT (x : Int) : Nat := (x % 2 ^ 64).toNat

/-- The call `std::vector<int>::resize(n)`: truncate, or pad with zeros. -/
def resize (v : List Int) (n : Nat) : List Int :=
  v.take n ++ List.replicate (n - v.length) 0

/-- The call `std::string::c_str()` as seen by a reader of C strings: the text up to the
first NUL. -/
def c_str (s : List Char) : List Char := s.takeWhile (fun c => c ≠ Char.ofNat 0)

/-- The loop `for (int i = start; i < start + n; ++i) body`, stopping at the first
iteration that does not fall through. -/
def forLoop {σ : Type} (body : Nat → σ → Flow σ) : Nat → Nat → σ → Flow σ
  | 0, _, s => .next s
  | n + 1, i, s =>
    match body i s with
    | .next s' => forLoop body n (i + 1) s'
    | .ret s' => .ret s'
    | .undefined => .undefined

/-- The call `ctx->CtxFailure(status)` made by a failed `OP_REQUIRES`. -/
def CtxFailure (ctx : Context) (e : Err) : Context :=
  { ctx with failures := ctx.failures ++ [e] }

/-! ## ExtractFields (lines 251-323) -/

/-- Lines 271-281, the body loop of an unquoted field. -/
def unquotedLoop (input : List Char) (delim_ : Char) :
    Nat → Nat → List Char → Body
  | fuel, current_idx, field =>
    if current_idx < input.length then
      match input[current_idx]? with
      | none => .outOfBounds
      | some c =>
        if c ≠ delim_ then
          match fuel with
          | 0 => .outOfFuel
          | fuel + 1 =>
            if c ≠ '"' ∧ c ≠ '\n' ∧ c ≠ '\r' then
              unquotedLoop input delim_ fuel (current_idx + 1) (field ++ [c])
            else .failed .unquotedHasQuoteOrCRLF
        else .done current_idx field
    else .done current_idx field

/-- Lines 287-301, the body loop of a quoted field. `input.length - 1` is the source's
`input.size() - 1`, evaluated only for a non-empty input. Under the loop guard both
`input[current_idx]` and `input[current_idx + 1]` are read here up front. -/
def quotedLoop (input : List Char) (delim_ : Char) :
    Nat → Nat → List Char → Body
  | fuel, current_idx, field =>
    if current_idx < input.length - 1 then
      match input[current_idx]?, input[current_idx + 1]? with
      | some c, some d =>
        if c ≠ '"' ∨ d ≠ delim_ then
          match fuel with
          | 0 => .outOfFuel
          | fuel + 1 =>
            if c ≠ '"' then
              quotedLoop input delim_ fuel (current_idx + 1) (field ++ [c])
            else if d = '"' then
              quotedLoop input delim_ fuel (current_idx + 2) (field ++ ['"'])
            else .failed .quoteNotEscaped
        else .done current_idx field
      | _, _ => .outOfBounds
    else .done current_idx field

/-- Lines 303-311, the condition checked after the quoted loop, with the short-circuit
order of the source. `none` is a read past the end of the input. -/
def closingQuote (input : List Char) (delim_ : Char) (current_idx : Nat) : Option Bool :=
  if current_idx < input.length then
    match input[current_idx]? with
    | none => none
    | some c =>
      if c = '"' then
        if current_idx = input.length - 1 then some true
        else
          match input[current_idx + 1]? with
          | none => none
          | some d => some (decide (d = delim_))
      else some false
  else some false

/-- Lines 255-317, the main scan loop. `bound` is `num_first_n_columns_to_extract_` as the
`size_t` it is converted to in the loop guard. Each body loop is given `input.length`
iterations of fuel. -/
def mainLoop (input : List Char) (delim_ : Char) (bound : Nat) :
    Nat → Nat → List (List Char) → Scanned
  | fuel, current_idx, result =>
    if current_idx < input.length ∧ result.length < bound then
      match fuel with
      | 0 => .outOfFuel
      | fuel + 1 =>
        match input[current_idx]? with
        | none => .outOfBounds
        | some c =>
          if c = '\n' ∨ c = '\r' then
            mainLoop input delim_ bound fuel (current_idx + 1) result
          else if c ≠ '"' then
            match unquotedLoop input delim_ input.length current_idx [] with
            | .done idx field =>
              mainLoop input delim_ bound fuel (idx + 1) (result ++ [field])
            | .failed e => .failed e result
            | .outOfBounds => .outOfBounds
            | .outOfFuel => .outOfFuel
          else
            match quotedLoop input delim_ input.length (current_idx + 1) [] with
            | .done idx field =>
              match closingQuote input delim_ idx with
              | none => .outOfBounds
              | some true =>
                mainLoop input delim_ bound fuel (idx + 2) (result ++ [field])
              | some false => .failed .quotedFieldBadEnd result
            | .failed e => .failed e result
            | .outOfBounds => .outOfBounds
            | .outOfFuel => .outOfFuel
    else .done current_idx result

/-- Lines 251-323. The caller passes an empty `*result`. The main loop is given
`input.length` iterations of fuel. -/
def ExtractFields (input : List Char) (delim_ : Char) (bound : Nat) : Scanned :=
  if input ≠ [] then
    match mainLoop input delim_ bound input.length 0 [] with
    | .done idx result =>
      match input[input.length - 1]? with
      | none => .outOfBounds
      | some c =>
        if c = delim_ then .done idx (result ++ [[]]) else .done idx result
    | other => other
  else .done 0 []

/-! ## The constructor and Compute (lines 59-243) -/

/-- Lines 59-72. -/
def construct (OUT_TYPE : List DataType) (field_delim : List Char) : Except Err Kernel :=
  if OUT_TYPE.length < 2 ^ 31 - 1 then
    match field_delim with
    | [c] => .ok { out_type_ := OUT_TYPE, delim_ := c, field_indices_vec_ := [],
                   num_first_n_columns_to_extract_ := -1 }
    | _ => .error .delimNotOneChar
  else .error .outTypeTooLarge

/-- Lines 85-88, one iteration of the loop over the defaults. -/
def checkDefault (record_defaults : List (List Scalar)) (i : Nat) (ctx : Context) :
    Flow Context :=
  match record_defaults[i]? with
  | none => .undefined
  | some d =>
    if d.length < 2 then .next ctx
    else .ret (CtxFailure ctx (.tooManyDefaults i d.length))

/-- Lines 103-110, one iteration of the loop over the requested indices. -/
def setRequested (field_indices : List Int) (i : Nat) (r : Resolving) : Flow Resolving :=
  match field_indices[i]? with
  | none => .undefined
  | some idx =>
    if idx ≥ 0 then
      .next { r with
        field_indices_vec_ := r.field_indices_vec_.set i idx
        maxColIndex := if idx > r.maxColIndex then idx else r.maxColIndex }
    else .ret { r with ctx := CtxFailure r.ctx (.fieldIndexNegative i idx) }

/-- Lines 114-117, one iteration of the loop that installs the indices 0, 1, 2, ... -/
def setDefault (i : Nat) (r : Resolving) : Flow Resolving :=
  let idx : Int := i
  .next { r with
    field_indices_vec_ := r.field_indices_vec_.set i idx
    maxColIndex := if idx > r.maxColIndex then idx else r.maxColIndex }

/-- Line 120 after a loop that fell through; after a failed check the members written so
far stay and the bound is not assigned. -/
def finishResolve (k : Kernel) : Flow Resolving → Flow (Kernel × Context)
  | .next r =>
    .next ({ k with
      field_indices_vec_ := r.field_indices_vec_
      num_first_n_columns_to_extract_ := wrapInt32 (r.maxColIndex + 1) }, r.ctx)
  | .ret r => .ret ({ k with field_indices_vec_ := r.field_indices_vec_ }, r.ctx)
  | .undefined => .undefined

/-- Lines 82-121, the block guarded by `num_first_n_columns_to_extract_ < 0`. -/
def resolve (k : Kernel) (ctx : Context) (record_defaults : List (List Scalar))
    (field_indices : List Int) : Flow (Kernel × Context) :=
  if k.num_first_n_columns_to_extract_ < 0 then
    match forLoop (checkDefault record_defaults) record_defaults.length 0 ctx with
    | .next ctx =>
      let vec := resize k.field_indices_vec_ record_defaults.length
      if field_indices.length ≠ 0 then
        if field_indices.length = record_defaults.length then
          finishResolve k (forLoop (setRequested field_indices) vec.length 0 ⟨vec, -1, ctx⟩)
        else .ret ({ k with field_indices_vec_ := vec }, CtxFailure ctx .fieldIndicesSize)
      else finishResolve k (forLoop setDefault vec.length 0 ⟨vec, -1, ctx⟩)
    | .ret ctx => .ret (k, ctx)
    | .undefined => .undefined
  else .next (k, ctx)

/-- The assignment `output[f]->flat<T>()(i) = v`. -/
def writeOutput (ctx : Context) (f i : Nat) (v : Scalar) : Flow Context :=
  match ctx.output[f]? with
  | none => .undefined
  | some col =>
    if i < col.length then
      .next { ctx with output := ctx.output.set f (col.set i (some v)) }
    else .undefined

/-- The branch taken for an empty field, the same text in all four cases of the switch
(lines 155-162, 178-185, 201-207, 224-230): the default tensor must hold one element, which
is copied. The framework gives `record_defaults[f]` the element type `out_type_[f]`. -/
def useDefault (record_defaults : List (List Scalar)) (f i : Nat) (ctx : Context) :
    Flow Context :=
  match record_defaults[f]? with
  | none => .undefined
  | some d =>
    if d.length = 1 then
      match d[0]? with
      | none => .undefined
      | some v => writeOutput ctx f i v
    else .ret (CtxFailure ctx (.requiredMissing f i))

/-- Lines 151-240, the switch on the element type of column `f` for record `i`. -/
def convertField (P : Numbers) (record_defaults : List (List Scalar)) (dtype : DataType)
    (column_value_str : List Char) (f i : Nat) (ctx : Context) : Flow Context :=
  match dtype with
  | .DT_INT32 =>
    if column_value_str = [] then useDefault record_defaults f i ctx
    else
      match P.safe_strto32 column_value_str with
      | some value => writeOutput ctx f i (.int32 value)
      | none => .ret (CtxFailure ctx (.notValidInt32 f i column_value_str))
  | .DT_INT64 =>
    if column_value_str = [] then useDefault record_defaults f i ctx
    else
      match P.safe_strto64 column_value_str with
      | some value => writeOutput ctx f i (.int64 value)
      | none => .ret (CtxFailure ctx (.notValidInt64 f i column_value_str))
  | .DT_FLOAT =>
    if column_value_str = [] then useDefault record_defaults f i ctx
    else
      match P.safe_strtof (c_str column_value_str) with
      | some value => writeOutput ctx f i (.float value)
      | none => .ret (CtxFailure ctx (.notValidFloat f i column_value_str))
  | .DT_STRING =>
    if column_value_str = [] then useDefault record_defaults f i ctx
    else writeOutput ctx f i (.string column_value_str)
  | .other code => .ret (CtxFailure ctx (.unsupportedType code f))

/-- Lines 147-240, one iteration of the loop over the output columns. -/
def fieldBody (P : Numbers) (k : Kernel) (record_defaults : List (List Scalar))
    (fields : List (List Char)) (i f : Nat) (ctx : Context) : Flow Context :=
  match k.out_type_[f]? with
  | none => .undefined
  | some dtype =>
    match k.field_indices_vec_[f]? with
    | none => .undefined
    | some src =>
      match fields[toSizeT src]? with
      | none => .undefined
      | some column_value_str => convertField P record_defaults dtype column_value_str f i ctx

/-- Lines 139-241: the field-count check and the loop over the output columns. -/
def checkAndConvert (P : Numbers) (k : Kernel) (record_defaults : List (List Scalar))
    (fields : List (List Char)) (i : Nat) (ctx : Context) : Flow Context :=
  if fields.length = toSizeT k.num_first_n_columns_to_extract_ then
    forLoop (fieldBody P k record_defaults fields i) k.out_type_.length 0 ctx
  else .ret (CtxFailure ctx (.fieldCount k.num_first_n_columns_to_extract_ fields.length i))

/-- Lines 136-241, one iteration of the loop over the records. A failed check inside
`ExtractFields` returns from `ExtractFields` only: its status is handed to the context and
`Compute` goes on with the field-count check. -/
def recordBody (P : Numbers) (k : Kernel) (records : List (List Char))
    (record_defaults : List (List Scalar)) (i : Nat) (ctx : Context) : Flow Context :=
  match records[i]? with
  | none => .undefined
  | some record =>
    match ExtractFields record k.delim_ (toSizeT k.num_first_n_columns_to_extract_) with
    | .done _ fields => checkAndConvert P k record_defaults fields i ctx
    | .failed e fields => checkAndConvert P k record_defaults fields i (CtxFailure ctx e)
    | .outOfBounds => .undefined
    | .outOfFuel => .undefined

/-- Lines 130-133: one output per element of `out_type_`, shaped like `records`. -/
def allocate (k : Kernel) (records : List (List Char)) (ctx : Context) : Context :=
  { ctx with output := List.replicate k.out_type_.length (List.replicate records.length none) }

/-- Lines 74-243. The result holds the members of the kernel and the context after the
call. -/
def Compute (P : Numbers) (k : Kernel) (records : List (List Char))
    (record_defaults : List (List Scalar)) (field_indices : List Int) :
    Flow (Kernel × Context) :=
  match resolve k ⟨[], []⟩ record_defaults field_indices with
  | .next (k', ctx) =>
    match forLoop (recordBody P k' records record_defaults) records.length 0
        (allocate k' records ctx) with
    | .next ctx' => .next (k', ctx')
    | .ret ctx' => .ret (k', ctx')
    | .undefined => .undefined
  | other => other

/-! ## Writing records, for the round-trip properties -/

/-- A field body with every quote doubled. -/
def escapeQuotes : List Char → List Char
  | [] => []
  | c :: s => if c = '"' then '"' :: '"' :: escapeQuotes s else c :: escapeQuotes s

/-- A field written in quoted form. -/
def quoteField (s : List Char) : List Char := '"' :: (escapeQuotes s ++ ['"'])

/-- Fields joined with the delimiter. -/
def joinFields (delim : Char) : List (List Char) → List Char
  | [] => []
  | [f] => f
  | f :: g :: fs => f ++ delim :: joinFields delim (g :: fs)

/-- The fields of a record without quoting: its maximal delimiter-free pieces. -/
def splitFields (delim : Char) : List Char → List (List Char)
  | [] => [[]]
  | c :: rest =>
    if c = delim then [] :: splitFields delim rest
    else
      match splitFields delim rest with
      | [] => [[c]]
      | f :: fs => (c :: f) :: fs

/-! ## Running examples -/

/-- Conversion routines for running examples: a text of one decimal digit is read as that
digit, every other text is rejected. -/
def digitNumbers : Numbers where
  safe_strto32 := fun s =>
    match s with
    | [c] => if c.isDigit then some (Int.ofNat (c.toNat - 48)) else none
    | _ => none
  safe_strto64 := fun s =>
    match s with
    | [c] => if c.isDigit then some (Int.ofNat (c.toNat - 48)) else none
    | _ => none
  safe_strtof := fun s =>
    match s with
    | [c] => if c.isDigit then some (c.toNat - 48) else none
    | _ => none

/-- The requested indices 0, 1, ..., M-1. -/
def identityIndices (M : Nat) : List Int := (List.range M).map Int.ofNat

/-- The slot `output[f][i]` of the context: `none` when there is no such slot, `some none`
for a slot never assigned. -/
def cell (ctx : Context) (f i : Nat) : Option (Option Scalar) :=
  (ctx.output[f]?).bind (fun col => col[i]?)

/-- What the caller of ExtractFields sees of a scan: the result and the failure, without
the final value of the local `current_idx`. -/
def outcome : Scanned → Scanned
  | .done _ result => .done 0 result
  | s => s

/-- A field-body result with its position moved right by `n`. -/
def shiftBody (n : Nat) : Body → Body
  | .done i f => .done (n + i) f
  | b => b

/-- A scan result with its position moved right by `n`. -/
def shiftScanned (n : Nat) : Scanned → Scanned
  | .done i r => .done (n + i) r
  | s => s

/-! ## Decoding one record, as a function -/

/-- The default of column `f` when its default tensor holds exactly one element. -/
def defaultOf (record_defaults : List (List Scalar)) (f : Nat) : Option Scalar :=
  match record_defaults[f]? with
  | some [v] => some v
  | _ => none

/-- The value the switch of lines 151-240 assigns for a field text, `none` when it assigns
nothing. -/
def assigned (P : Numbers) (record_defaults : List (List Scalar)) (dtype : DataType)
    (str : List Char) (f : Nat) : Option Scalar :=
  match dtype with
  | .DT_INT32 =>
    if str = [] then defaultOf record_defaults f else (P.safe_strto32 str).map .int32
  | .DT_INT64 =>
    if str = [] then defaultOf record_defaults f else (P.safe_strto64 str).map .int64
  | .DT_FLOAT =>
    if str = [] then defaultOf record_defaults f else (P.safe_strtof (c_str str)).map .float
  | .DT_STRING =>
    if str = [] then defaultOf record_defaults f else some (.string str)
  | .other _ => none

/-- The value assigned to column `f` from the fields of a record. -/
def rowCell (P : Numbers) (k : Kernel) (record_defaults : List (List Scalar))
    (fields : List (List Char)) (f : Nat) : Option Scalar :=
  match k.out_type_[f]?, k.field_indices_vec_[f]? with
  | some dtype, some src =>
    match fields[toSizeT src]? with
    | some str => assigned P record_defaults dtype str f
    | none => none
  | _, _ => none

/-- The fields of a record that is scanned without failure and passes the field-count
check of line 139. -/
def passingFields (k : Kernel) (record : List Char) : Option (List (List Char)) :=
  match ExtractFields record k.delim_ (toSizeT k.num_first_n_columns_to_extract_) with
  | .done _ fields =>
    if fields.length = toSizeT k.num_first_n_columns_to_extract_ then some fields else none
  | _ => none

/-- Column `f` of the decoding of one record. -/
def decodedCell (P : Numbers) (k : Kernel) (record_defaults : List (List Scalar))
    (record : List Char) (f : Nat) : Option Scalar :=
  (passingFields k record).bind (fun fields => rowCell P k record_defaults fields f)

/-- The record decodes: it passes the scan and the field-count check, and every column
is assigned a value. -/
def Decodes (P : Numbers) (k : Kernel) (record_defaults : List (List Scalar))
    (record : List Char) : Prop :=
  ∃ fields, passingFields k record = some fields ∧
    ∀ f, f < k.out_type_.length → rowCell P k record_defaults fields f ≠ none

/-- The output list holds `M` columns of `N` slots each. -/
def Shape (ctx : Context) (M N : Nat) : Prop :=
  ctx.output.length = M ∧ ∀ col ∈ ctx.output, col.length = N

/-! ## Integer texts -/

/-- The text is an optional leading sign followed by decimal digits only. -/
def isStrictInteger (s : List Char) : Bool :=
  match s with
  | [] => false
  | c :: ds =>
    if c = '+' ∨ c = '-' then !ds.isEmpty && ds.all Char.isDigit
    else (c :: ds).all Char.isDigit

/-- The number written by a text of decimal digits, after the digits read so far. -/
def digitsValue : List Char → Nat → Option Nat
  | [], acc => some acc
  | c :: s, acc => if c.isDigit then digitsValue s (acc * 10 + (c.toNat - 48)) else none

/-- The number that a text of decimal digits denotes. -/
def decimalValue (s : List Char) : Nat :=
  s.foldl (fun acc c => acc * 10 + (c.toNat - 48)) 0

/-- The integer that an optional leading sign followed by decimal digits denotes. -/
def signedValue (s : List Char) : Int :=
  match s with
  | [] => 0
  | c :: ds =>
    if c = '-' then -(decimalValue ds : Int)
    else if c = '+' then (decimalValue ds : Int)
    else (decimalValue (c :: ds) : Int)

/-- Modelled from the spec: `strings::safe_strto32` and `strings::safe_strto64` are routines
of the framework library, declared in tensorflow/core/lib/strings/numbers.h and not under
src. The routine is the strict integer parse of section 4.3 of the spec: an optional
leading sign, then decimal digits only, and the value within the type `lo..hi`; every
other text is a parse failure. -/
def parseInteger (lo hi : Int) (s : List Char) : Option Int :=
  match s with
  | [] => none
  | c :: ds =>
    if c = '-' then
      if ds.isEmpty then none
      else
        match digitsValue ds 0 with
        | none => none
        | some n => if lo ≤ -(n : Int) ∧ -(n : Int) ≤ hi then some (-(n : Int)) else none
    else if c = '+' then
      if ds.isEmpty then none
      else
        match digitsValue ds 0 with
        | none => none
        | some n => if lo ≤ (n : Int) ∧ (n : Int) ≤ hi then some (n : Int) else none
    else
      match digitsValue (c :: ds) 0 with
      | none => none
      | some n => if lo ≤ (n : Int) ∧ (n : Int) ≤ hi then some (n : Int) else none

/-- Modelled from the spec: the two integer routines of the framework library, which are
not under src, as section 4.3 of the spec describes them (`parseInteger` with the range of
int32 and of int64). The float routine is not modelled: it stays the one of the
parameter. -/
def integerNumbers (P : Numbers) : Numbers where
  safe_strto32 := parseInteger (-2147483648) 2147483647
  safe_strto64 := parseInteger (-9223372036854775808) 9223372036854775807
  safe_strtof := P.safe_strtof

/-- The record index a status names in its message, if it names one. -/
def recordIndex : Err → Option Nat
  | .fieldCount _ _ record => some record
  | .requiredMissing _ record => some record
  | .notValidInt32 _ record _ => some record
  | .notValidInt64 _ record _ => some record
  | .notValidFloat _ record _ => some record
  | _ => none

/-- The status of the context after the call: `OpKernelContext::SetStatus` keeps a status
only while the current one is OK, so the first status handed to the context stays. This
is behaviour of the framework, outside src. -/
def status (ctx : Context) : Option Err := ctx.failures.head?

/-! # Theorems -/

/-! ## Reading a list at the end of a known prefix -/

theorem joinFields_eq_intercalate (delim : Char) (fs : List (List Char)) :
    joinFields delim fs = List.intercalate [delim] fs := by
  induction fs with
  | nil => rfl
  | cons f fs ih =>
    cases fs with
    | nil => simp [joinFields, List.intercalate]
    | cons g gs =>
      simp only [joinFields, ih]
      simp [List.intercalate, List.intersperse]

theorem read_here {α : Type} (pre rest : List α) (c : α) :
    (pre ++ c :: rest)[pre.length]? = some c := by
  rw [List.getElem?_append_right (Nat.le_refl _)]
  simp

theorem read_next {α : Type} (pre rest : List α) (c d : α) :
    (pre ++ c :: d :: rest)[pre.length + 1]? = some d := by
  rw [List.getElem?_append_right (Nat.le_succ _)]
  simp

/-! ## Quoted fields -/

theorem quotedLoop_escaped (delim : Char) (hd : delim ≠ '"') (s : List Char) :
    ∀ (pre tail field : List Char) (fuel : Nat),
      (tail = [] ∨ ∃ t, tail = delim :: t) → s.length ≤ fuel →
      quotedLoop (pre ++ (escapeQuotes s ++ '"' :: tail)) delim fuel pre.length field
        = .done (pre.length + (escapeQuotes s).length) (field ++ s) := by
  induction s with
  | nil =>
    intro pre tail field fuel htail _
    rcases htail with rfl | ⟨t, rfl⟩
    · unfold quotedLoop
      simp [escapeQuotes]
    · unfold quotedLoop
      simp only [escapeQuotes, List.nil_append, read_here, read_next]
      simp
  | cons a s ih =>
    intro pre tail field fuel htail hfuel
    obtain ⟨fuel, rfl⟩ : ∃ n, fuel = n + 1 := ⟨fuel - 1, by simp at hfuel; omega⟩
    have hfuel' : s.length ≤ fuel := by simpa using hfuel
    by_cases ha : a = '"'
    · subst ha
      have h := ih (pre ++ ['"', '"']) tail (field ++ ['"']) fuel htail hfuel'
      unfold quotedLoop
      simp only [escapeQuotes, if_true, List.cons_append, read_here, read_next]
      simp only [List.append_assoc, List.cons_append, List.nil_append, List.length_append,
        List.length_cons, List.length_nil] at h
      simp [hd.symm, h]
      omega
    · have h := ih (pre ++ [a]) tail (field ++ [a]) fuel htail hfuel'
      obtain ⟨d, rest, hrest⟩ : ∃ d rest, escapeQuotes s ++ '"' :: tail = d :: rest := by
        cases hs : escapeQuotes s with
        | nil => exact ⟨_, _, rfl⟩
        | cons x xs => exact ⟨_, _, rfl⟩
      unfold quotedLoop
      simp only [escapeQuotes, ha, if_false, List.cons_append, hrest, read_here, read_next]
      simp only [List.append_assoc, List.cons_append, List.nil_append, List.length_append,
        List.length_cons, List.length_nil, hrest] at h
      simp [ha, h]
      omega

theorem quotedLoop_escaped_at (delim : Char) (hd : delim ≠ '"') (s pre tail field : List Char)
    (fuel : Nat) (input : List Char) (idx : Nat)
    (hin : input = pre ++ (escapeQuotes s ++ '"' :: tail)) (hidx : idx = pre.length)
    (htail : tail = [] ∨ ∃ t, tail = delim :: t) (hfuel : s.length ≤ fuel) :
    quotedLoop input delim fuel idx field
      = .done (pre.length + (escapeQuotes s).length) (field ++ s) := by
  subst hin hidx
  exact quotedLoop_escaped delim hd s pre tail field fuel htail hfuel

theorem length_le_escapeQuotes (s : List Char) : s.length ≤ (escapeQuotes s).length := by
  induction s with
  | nil => simp [escapeQuotes]
  | cons a s ih =>
    by_cases ha : a = '"' <;> simp [escapeQuotes, ha] <;> omega

theorem closingQuote_at_end (delim : Char) (pre input : List Char) (idx : Nat)
    (hin : input = pre ++ ['"']) (hidx : idx = pre.length) :
    closingQuote input delim idx = some true := by
  subst hin hidx
  unfold closingQuote
  simp only [read_here]
  simp

theorem closingQuote_at_delim (delim : Char) (pre t input : List Char) (idx : Nat)
    (hin : input = pre ++ '"' :: delim :: t) (hidx : idx = pre.length) :
    closingQuote input delim idx = some true := by
  subst hin hidx
  unfold closingQuote
  simp only [read_here, read_next]
  simp

theorem mainLoop_exit (input : List Char) (delim : Char) (bound fuel idx : Nat)
    (result : List (List Char)) (h : ¬ (idx < input.length ∧ result.length < bound)) :
    mainLoop input delim bound fuel idx result = .done idx result := by
  unfold mainLoop
  rw [if_neg h]

theorem mainLoop_quoted (delim : Char) (hd : delim ≠ '"') (bound : Nat) :
    ∀ (ss : List (List Char)), ss ≠ [] →
    ∀ (pre : List Char) (result : List (List Char)) (fuel : Nat) (input : List Char),
      input = pre ++ joinFields delim (ss.map quoteField) →
      result.length + ss.length ≤ bound → ss.length ≤ fuel →
      mainLoop input delim bound fuel pre.length result
        = .done (input.length + 1) (result ++ ss) := by
  intro ss
  induction ss with
  | nil => intro h; exact absurd rfl h
  | cons s rest ih =>
    intro _ pre result fuel input hin hb hfuel
    obtain ⟨fuel, rfl⟩ : ∃ n, fuel = n + 1 := ⟨fuel - 1, by simp at hfuel; omega⟩
    have hlen := length_le_escapeQuotes s
    cases rest with
    | nil =>
      have hin' : input = pre ++ '"' :: (escapeQuotes s ++ ['"']) := by
        simpa [joinFields, quoteField] using hin
      have hq := quotedLoop_escaped_at delim hd s (pre ++ ['"']) [] [] input.length input
        (pre.length + 1) (by simp [hin']) (by simp) (Or.inl rfl)
        (by simp [hin']; omega)
      have hc := closingQuote_at_end delim (pre ++ '"' :: escapeQuotes s) input
        (pre.length + 1 + (escapeQuotes s).length) (by simp [hin']) (by simp; omega)
      have hread : input[pre.length]? = some '"' := by rw [hin']; exact read_here _ _ _
      have hcond : pre.length < input.length ∧ result.length < bound := by
        constructor
        · simp [hin']
        · simp at hb; omega
      unfold mainLoop
      rw [if_pos hcond]
      simp only [hread]
      simp only [List.length_append, List.length_cons, List.length_nil] at hq
      simp [hq, hc]
      rw [mainLoop_exit _ _ _ _ _ _ (by
        intro h
        have h1 := h.1
        simp [hin'] at h1
        omega)]
      simp [hin']
      omega
    | cons s2 rest =>
      have hin' : input = pre ++ '"' :: (escapeQuotes s ++ '"' :: delim ::
          joinFields delim ((s2 :: rest).map quoteField)) := by
        simpa [joinFields, quoteField] using hin
      have hq := quotedLoop_escaped_at delim hd s (pre ++ ['"'])
        (delim :: joinFields delim ((s2 :: rest).map quoteField)) [] input.length input
        (pre.length + 1) (by simp [hin']) (by simp) (Or.inr ⟨_, rfl⟩)
        (by simp [hin']; omega)
      have hc := closingQuote_at_delim delim (pre ++ '"' :: escapeQuotes s)
        (joinFields delim ((s2 :: rest).map quoteField)) input
        (pre.length + 1 + (escapeQuotes s).length) (by simp [hin']) (by simp; omega)
      have hread : input[pre.length]? = some '"' := by rw [hin']; exact read_here _ _ _
      have hcond : pre.length < input.length ∧ result.length < bound := by
        constructor
        · simp [hin']
        · simp at hb; omega
      have hrec := ih (by simp) (pre ++ '"' :: (escapeQuotes s ++ ['"', delim]))
        (result ++ [s]) fuel input (by simp [hin'])
        (by simp at hb ⊢; omega) (by simp at hfuel ⊢; omega)
      unfold mainLoop
      rw [if_pos hcond]
      simp only [hread]
      simp only [List.length_append, List.length_cons, List.length_nil] at hq hrec
      simp [hq, hc]
      have e : pre.length + 1 + (escapeQuotes s).length + 2
          = pre.length + ((escapeQuotes s).length + (0 + 1 + 1) + 1) := by omega
      rw [e, hrec]
      simp

theorem joinFields_quoted_last (delim : Char) :
    ∀ (ss : List (List Char)), ss ≠ [] →
      ∃ body, joinFields delim (ss.map quoteField) = body ++ ['"'] := by
  intro ss
  induction ss with
  | nil => intro h; exact absurd rfl h
  | cons s rest ih =>
    intro _
    cases rest with
    | nil => exact ⟨'"' :: escapeQuotes s, by simp [joinFields, quoteField]⟩
    | cons s2 rest =>
      obtain ⟨body, hbody⟩ := ih (by simp)
      exact ⟨quoteField s ++ delim :: body, by
        simp only [List.map_cons] at hbody
        simp [joinFields, hbody]⟩

theorem length_joinFields_quoted (delim : Char) (ss : List (List Char)) :
    ss.length ≤ (joinFields delim (ss.map quoteField)).length := by
  induction ss with
  | nil => simp
  | cons s rest ih =>
    cases rest with
    | nil => simp [joinFields, quoteField]
    | cons s2 rest =>
      simp only [List.map_cons] at ih
      simp only [List.map_cons, joinFields, List.length_append, List.length_cons] at ih ⊢
      omega

theorem ExtractFields_quoted (delim : Char) (hd : delim ≠ '"') (ss : List (List Char))
    (hne : ss ≠ []) :
    ∃ idx, ExtractFields (joinFields delim (ss.map quoteField)) delim ss.length
      = .done idx ss := by
  obtain ⟨body, hbody⟩ := joinFields_quoted_last delim ss hne
  have hlen := length_joinFields_quoted delim ss
  have hm := mainLoop_quoted delim hd ss.length ss hne [] [] _ _ rfl (by simp) hlen
  have hlast : (joinFields delim (ss.map quoteField))[
      (joinFields delim (ss.map quoteField)).length - 1]? = some '"' := by
    rw [hbody]
    simp
  refine ⟨(joinFields delim (ss.map quoteField)).length + 1, ?_⟩
  unfold ExtractFields
  have hne' : joinFields delim (ss.map quoteField) ≠ [] := by
    rw [hbody]; simp
  rw [if_pos hne']
  simp only [List.length_nil, List.nil_append] at hm
  rw [hm]
  simp only [hlast]
  rw [if_neg (Ne.symm hd)]

/-- C1: for every delimiter other than the quote and every non-empty list of strings, the
record made of the strings written in quoted form (quotes doubled) and joined with the
delimiter is scanned by ExtractFields, with the number of strings as bound, without error
into exactly those strings; the record "a""b" in quotes yields a"b, and the delimiter inside
"a,b" stays in its field. -/
theorem quoted_round_trip :
    (∀ (delim : Char) (ss : List (List Char)), delim ≠ '"' → ss ≠ [] →
      ∃ idx, ExtractFields (List.intercalate [delim] (ss.map quoteField)) delim ss.length
        = .done idx ss) ∧
    ExtractFields "\"a\"\"b\"".data ',' 1 = .done 7 ["a\"b".data] ∧
    ExtractFields "\"a,b\",c".data ',' 2 = .done 8 ["a,b".data, "c".data] := by
  refine ⟨?_, by decide, by decide⟩
  intro delim ss hd hne
  rw [← joinFields_eq_intercalate]
  exact ExtractFields_quoted delim hd ss hne

theorem quoted_round_trip_witness :
    ∃ idx, ExtractFields
      (List.intercalate [';'] (["a\"b".data, "x;y\n".data, []].map quoteField)) ';' 3
        = .done idx ["a\"b".data, "x;y\n".data, []] :=
  quoted_round_trip.1 ';' ["a\"b".data, "x;y\n".data, []] (by decide) (by decide)

/-! ## Unquoted fields -/

theorem splitFields_ne_nil (delim : Char) (r : List Char) : splitFields delim r ≠ [] := by
  cases r with
  | nil => simp [splitFields]
  | cons c rest =>
    unfold splitFields
    split
    · simp
    · split <;> simp

theorem joinFields_cons_cons (delim : Char) (f : List Char) (fs : List (List Char))
    (h : fs ≠ []) : joinFields delim (f :: fs) = f ++ delim :: joinFields delim fs := by
  cases fs with
  | nil => exact absurd rfl h
  | cons g gs => rfl

theorem joinFields_splitFields (delim : Char) (r : List Char) :
    joinFields delim (splitFields delim r) = r := by
  induction r with
  | nil => simp [splitFields, joinFields]
  | cons c rest ih =>
    unfold splitFields
    split
    · rename_i hc
      rw [joinFields_cons_cons _ _ _ (splitFields_ne_nil delim rest), ih, hc]
      simp
    · cases hs : splitFields delim rest with
      | nil => exact absurd hs (splitFields_ne_nil delim rest)
      | cons f fs =>
        rw [hs] at ih
        cases fs with
        | nil =>
          simp only [joinFields] at ih ⊢
          rw [ih]
        | cons g gs =>
          simp only [joinFields] at ih ⊢
          rw [← ih]
          simp

theorem splitFields_free (delim : Char) (r : List Char) :
    ∀ f ∈ splitFields delim r, delim ∉ f := by
  induction r with
  | nil => simp [splitFields]
  | cons c rest ih =>
    unfold splitFields
    split
    · intro f hf
      rcases List.mem_cons.1 hf with rfl | hf
      · simp
      · exact ih f hf
    · rename_i hc
      cases hs : splitFields delim rest with
      | nil => exact absurd hs (splitFields_ne_nil delim rest)
      | cons g gs =>
        rw [hs] at ih
        intro f hf
        rcases List.mem_cons.1 hf with rfl | hf
        · intro hmem
          rcases List.mem_cons.1 hmem with h | h
          · exact hc h.symm
          · exact ih g (List.mem_cons_self _ _) h
        · exact ih f (List.mem_cons_of_mem _ hf)

theorem splitFields_mem (delim : Char) (r : List Char) :
    ∀ f ∈ splitFields delim r, ∀ c ∈ f, c ∈ r := by
  induction r with
  | nil => simp [splitFields]
  | cons a rest ih =>
    unfold splitFields
    split
    · intro f hf c hcf
      rcases List.mem_cons.1 hf with rfl | hf
      · simp at hcf
      · exact List.mem_cons_of_mem _ (ih f hf c hcf)
    · cases hs : splitFields delim rest with
      | nil => exact absurd hs (splitFields_ne_nil delim rest)
      | cons g gs =>
        rw [hs] at ih
        intro f hf c hcf
        rcases List.mem_cons.1 hf with rfl | hf
        · rcases List.mem_cons.1 hcf with rfl | h
          · exact List.mem_cons_self _ _
          · exact List.mem_cons_of_mem _ (ih g (List.mem_cons_self _ _) c h)
        · exact List.mem_cons_of_mem _ (ih f (List.mem_cons_of_mem _ hf) c hcf)

theorem length_splitFields (delim : Char) (r : List Char) :
    (splitFields delim r).length = r.count delim + 1 := by
  induction r with
  | nil => simp [splitFields]
  | cons a rest ih =>
    unfold splitFields
    split
    · rename_i hc
      simp [ih, hc]
    · rename_i hc
      cases hs : splitFields delim rest with
      | nil => exact absurd hs (splitFields_ne_nil delim rest)
      | cons g gs =>
        rw [hs] at ih
        simp only [List.length_cons] at ih ⊢
        rw [ih, List.count_cons_of_ne (Ne.symm hc)]

theorem unquotedLoop_clean (delim : Char) (seg : List Char) :
    ∀ (pre tail field : List Char) (fuel : Nat),
      (∀ c ∈ seg, c ≠ delim ∧ c ≠ '"' ∧ c ≠ '\n' ∧ c ≠ '\r') →
      (tail = [] ∨ ∃ t, tail = delim :: t) → seg.length ≤ fuel →
      unquotedLoop (pre ++ (seg ++ tail)) delim fuel pre.length field
        = .done (pre.length + seg.length) (field ++ seg) := by
  induction seg with
  | nil =>
    intro pre tail field fuel _ htail _
    rcases htail with rfl | ⟨t, rfl⟩
    · unfold unquotedLoop
      simp
    · unfold unquotedLoop
      simp only [List.nil_append, read_here]
      simp
  | cons a seg ih =>
    intro pre tail field fuel hclean htail hfuel
    obtain ⟨fuel, rfl⟩ : ∃ n, fuel = n + 1 := ⟨fuel - 1, by simp at hfuel; omega⟩
    have ha := hclean a (List.mem_cons_self _ _)
    have h := ih (pre ++ [a]) tail (field ++ [a]) fuel
      (fun c hc => hclean c (List.mem_cons_of_mem _ hc)) htail (by simpa using hfuel)
    simp only [List.append_assoc, List.cons_append, List.nil_append, List.length_append,
      List.length_cons, List.length_nil] at h
    unfold unquotedLoop
    simp only [List.cons_append, read_here]
    simp [ha.1, ha.2.1, ha.2.2.1, ha.2.2.2, h]
    omega

theorem unquotedLoop_clean_at (delim : Char) (seg pre tail field : List Char) (fuel : Nat)
    (input : List Char) (idx : Nat)
    (hin : input = pre ++ (seg ++ tail)) (hidx : idx = pre.length)
    (hclean : ∀ c ∈ seg, c ≠ delim ∧ c ≠ '"' ∧ c ≠ '\n' ∧ c ≠ '\r')
    (htail : tail = [] ∨ ∃ t, tail = delim :: t) (hfuel : seg.length ≤ fuel) :
    unquotedLoop input delim fuel idx field
      = .done (pre.length + seg.length) (field ++ seg) := by
  subst hin hidx
  exact unquotedLoop_clean delim seg pre tail field fuel hclean htail hfuel

/-- The fields the main loop collects from a record made of clean pieces: all of them,
except a final empty piece. -/
theorem mainLoop_unquoted (delim : Char) (bound : Nat) :
    ∀ (fs : List (List Char)), fs ≠ [] →
      (∀ f ∈ fs, ∀ c ∈ f, c ≠ delim ∧ c ≠ '"' ∧ c ≠ '\n' ∧ c ≠ '\r') →
      (2 ≤ fs.length → delim ≠ '"' ∧ delim ≠ '\n' ∧ delim ≠ '\r') →
    ∀ (pre : List Char) (result : List (List Char)) (fuel : Nat) (input : List Char),
      input = pre ++ joinFields delim fs →
      result.length + fs.length ≤ bound → (joinFields delim fs).length ≤ fuel →
      ∃ idx, mainLoop input delim bound fuel pre.length result
        = .done idx (result ++ (if fs.getLast? = some [] then fs.dropLast else fs)) := by
  intro fs
  induction fs with
  | nil => intro h; exact absurd rfl h
  | cons f rest ih =>
    intro _ hclean hdelim pre result fuel input hin hb hfuel
    cases rest with
    | nil =>
      cases f with
      | nil =>
        refine ⟨pre.length, ?_⟩
        rw [mainLoop_exit _ _ _ _ _ _ (by simp [hin, joinFields])]
        simp
      | cons a f =>
        have hin' : input = pre ++ a :: f := by simpa [joinFields] using hin
        obtain ⟨fuel, rfl⟩ : ∃ n, fuel = n + 1 :=
          ⟨fuel - 1, by simp [joinFields] at hfuel; omega⟩
        have ha := hclean (a :: f) (List.mem_cons_self _ _) a (List.mem_cons_self _ _)
        have hu := unquotedLoop_clean_at delim (a :: f) pre [] [] input.length input
          pre.length (by simp [hin']) rfl (hclean (a :: f) (List.mem_cons_self _ _))
          (Or.inl rfl) (by simp [hin'])
        have hread : input[pre.length]? = some a := by rw [hin']; exact read_here _ _ _
        have hcond : pre.length < input.length ∧ result.length < bound := by
          constructor
          · simp [hin']
          · simp at hb; omega
        refine ⟨pre.length + (a :: f).length + 1, ?_⟩
        unfold mainLoop
        rw [if_pos hcond]
        simp only [hread]
        simp [ha.2.1, ha.2.2.1, ha.2.2.2, hu]
        rw [mainLoop_exit _ _ _ _ _ _ (by
          intro h
          have h1 := h.1
          simp [hin'] at h1)]
    | cons g rest =>
      have hd := hdelim (by simp)
      have hin' : input = pre ++ (f ++ delim :: joinFields delim (g :: rest)) := by
        simpa [joinFields] using hin
      obtain ⟨fuel, rfl⟩ : ∃ n, fuel = n + 1 :=
        ⟨fuel - 1, by simp [joinFields] at hfuel; omega⟩
      have hu := unquotedLoop_clean_at delim f pre (delim :: joinFields delim (g :: rest)) []
        input.length input pre.length hin' rfl (hclean f (List.mem_cons_self _ _))
        (Or.inr ⟨_, rfl⟩) (by simp [hin']; omega)
      obtain ⟨c, hread, hc⟩ : ∃ c, input[pre.length]? = some c ∧
          c ≠ '"' ∧ c ≠ '\n' ∧ c ≠ '\r' := by
        cases f with
        | nil =>
          exact ⟨delim, by rw [hin']; exact read_here _ _ _, hd⟩
        | cons a f =>
          exact ⟨a, by rw [hin']; exact read_here _ _ _,
            (hclean (a :: f) (List.mem_cons_self _ _) a (List.mem_cons_self _ _)).2⟩
      have hcond : pre.length < input.length ∧ result.length < bound := by
        constructor
        · simp [hin']
        · simp at hb; omega
      obtain ⟨idx, hrec⟩ := ih (by simp)
        (fun x hx => hclean x (List.mem_cons_of_mem _ hx)) (fun _ => hd)
        (pre ++ (f ++ [delim])) (result ++ [f]) fuel input (by simp [hin'])
        (by simp at hb ⊢; omega)
        (by simp only [joinFields, List.length_append, List.length_cons] at hfuel ⊢; omega)
      refine ⟨idx, ?_⟩
      unfold mainLoop
      rw [if_pos hcond]
      simp only [hread]
      simp only [List.length_append, List.length_cons, List.length_nil] at hrec
      simp [hc.1, hc.2.1, hc.2.2, hu]
      have e : pre.length + f.length + 1 = pre.length + (f.length + (0 + 1)) := by omega
      rw [e, hrec]
      simp only [List.getLast?_cons_cons, List.dropLast, List.append_assoc,
        List.singleton_append]
      split <;> rfl

theorem joinFields_concat (delim : Char) (g : List Char) :
    ∀ (fs : List (List Char)), fs ≠ [] →
      joinFields delim (fs ++ [g]) = joinFields delim fs ++ delim :: g := by
  intro fs
  induction fs with
  | nil => intro h; exact absurd rfl h
  | cons f rest ih =>
    intro _
    cases rest with
    | nil => simp [joinFields]
    | cons f2 rest =>
      have h := ih (by simp)
      simp only [List.cons_append] at h ⊢
      simp only [joinFields, h]
      simp

theorem read_last (X : List Char) (c : Char) :
    (X ++ [c])[(X ++ [c]).length - 1]? = some c := by
  have h : (X ++ [c]).length - 1 = X.length := by simp
  rw [h]
  exact read_here X [] c

theorem nil_or_snoc {α : Type} (l : List α) : l = [] ∨ ∃ L b, l = L ++ [b] := by
  rcases List.eq_nil_or_concat l with h | ⟨L, b, h⟩
  · exact Or.inl h
  · exact Or.inr ⟨L, b, by rw [h, List.concat_eq_append]⟩

/-- The last character of a non-empty record made of delimiter-free pieces is the delimiter
exactly when the last piece is empty. -/
theorem joinFields_last (delim : Char) (fs : List (List Char)) (hne : fs ≠ [])
    (hfree : ∀ f ∈ fs, delim ∉ f) (hr : joinFields delim fs ≠ []) :
    ∃ c, (joinFields delim fs)[(joinFields delim fs).length - 1]? = some c ∧
      (c = delim ↔ fs.getLast? = some []) := by
  rcases nil_or_snoc fs with h | ⟨init, g, rfl⟩
  · exact absurd h hne
  · have hg : delim ∉ g := hfree g (by simp)
    rcases nil_or_snoc g with hgn | ⟨g', c, rfl⟩
    · subst hgn
      by_cases hi : init = []
      · subst hi
        simp [joinFields] at hr
      · rw [joinFields_concat delim [] init hi]
        exact ⟨delim, read_last _ _, by simp⟩
    · have hc : c ≠ delim := by
        intro h
        exact hg (by simp [h])
      by_cases hi : init = []
      · subst hi
        refine ⟨c, ?_, by simp [hc]⟩
        simp only [List.nil_append, joinFields]
        exact read_last _ _
      · rw [joinFields_concat delim _ init hi]
        refine ⟨c, ?_, by simp [hc]⟩
        have e : joinFields delim init ++ delim :: (g' ++ [c])
            = (joinFields delim init ++ delim :: g') ++ [c] := by simp
        rw [e]
        exact read_last _ _

theorem ExtractFields_unquoted (delim : Char) (bound : Nat) (fs : List (List Char))
    (hne : fs ≠ [])
    (hclean : ∀ f ∈ fs, ∀ c ∈ f, c ≠ delim ∧ c ≠ '"' ∧ c ≠ '\n' ∧ c ≠ '\r')
    (hdelim : 2 ≤ fs.length → delim ≠ '"' ∧ delim ≠ '\n' ∧ delim ≠ '\r')
    (hr : joinFields delim fs ≠ []) (hb : fs.length ≤ bound) :
    ∃ idx, ExtractFields (joinFields delim fs) delim bound = .done idx fs := by
  obtain ⟨idx, hm⟩ := mainLoop_unquoted delim bound fs hne hclean hdelim [] []
    (joinFields delim fs).length (joinFields delim fs) rfl (by simpa using hb) (le_refl _)
  obtain ⟨c, hread, hc⟩ := joinFields_last delim fs hne
    (fun f hf hmem => (hclean f hf delim hmem).1 rfl) hr
  refine ⟨idx, ?_⟩
  unfold ExtractFields
  rw [if_pos hr]
  simp only [List.length_nil, List.nil_append] at hm
  rw [hm]
  simp only [hread]
  by_cases hl : fs.getLast? = some []
  · rw [if_pos (hc.2 hl), if_pos hl]
    congr 1
    exact List.dropLast_append_getLast? [] hl
  · rw [if_neg (fun h => hl (hc.1 h)), if_neg hl]

/-- C2: for every delimiter, every record with no quote, CR or LF, and every bound of at
least one more than the number of delimiters in the record, ExtractFields succeeds, no
extracted field contains the delimiter, joining the fields with the delimiter gives back the
record, the empty record gives no field and a record ending in the delimiter gives a final
empty field. -/
theorem unquoted_round_trip (delim : Char) (record : List Char) (bound : Nat)
    (hclean : ∀ c ∈ record, c ≠ '"' ∧ c ≠ '\n' ∧ c ≠ '\r')
    (hb : record.count delim + 1 ≤ bound) :
    ∃ idx fields, ExtractFields record delim bound = .done idx fields ∧
      (∀ f ∈ fields, delim ∉ f) ∧
      List.intercalate [delim] fields = record ∧
      (record = [] → fields = []) ∧
      (record.getLast? = some delim → fields.getLast? = some []) := by
  by_cases hr : record = []
  · subst hr
    exact ⟨0, [], by simp [ExtractFields], by simp, by simp [List.intercalate], fun _ => rfl,
      by simp⟩
  · have hj := joinFields_splitFields delim record
    have hfree := splitFields_free delim record
    have hne := splitFields_ne_nil delim record
    have hcl : ∀ f ∈ splitFields delim record, ∀ c ∈ f,
        c ≠ delim ∧ c ≠ '"' ∧ c ≠ '\n' ∧ c ≠ '\r' := by
      intro f hf c hc
      refine ⟨?_, hclean c (splitFields_mem delim record f hf c hc)⟩
      intro h
      exact hfree f hf (h ▸ hc)
    have hdelim : 2 ≤ (splitFields delim record).length →
        delim ≠ '"' ∧ delim ≠ '\n' ∧ delim ≠ '\r' := by
      intro h
      rw [length_splitFields] at h
      have hpos : 0 < record.count delim := by omega
      exact hclean delim (List.count_pos_iff.1 hpos)
    obtain ⟨idx, he⟩ := ExtractFields_unquoted delim bound (splitFields delim record) hne hcl
      hdelim (by rw [hj]; exact hr) (by rw [length_splitFields]; exact hb)
    obtain ⟨c, hread, hc⟩ := joinFields_last delim (splitFields delim record) hne hfree
      (by rw [hj]; exact hr)
    rw [hj] at he hread
    refine ⟨idx, splitFields delim record, he, hfree, ?_, fun h => absurd h hr, ?_⟩
    · rw [← joinFields_eq_intercalate, hj]
    · intro hl
      rw [List.getLast?_eq_getElem?, hread] at hl
      exact hc.1 (Option.some.inj hl)

theorem unquoted_round_trip_witness :
    ∃ idx fields, ExtractFields "a,,b,".data ',' 4 = .done idx fields ∧
      (∀ f ∈ fields, ',' ∉ f) ∧
      List.intercalate [','] fields = "a,,b,".data ∧
      ("a,,b,".data = [] → fields = []) ∧
      ("a,,b,".data.getLast? = some ',' → fields.getLast? = some []) :=
  unquoted_round_trip ',' "a,,b,".data 4 (by decide) (by decide)

/-! ## The trailing empty field -/

/-- C3: on the record a,b, with the comma as delimiter and bound 2, the main loop stops with
two fields, and ExtractFields finishes without a format error with three fields: the final
empty field is appended although the bound is already reached. -/
theorem trailing_field_exceeds_bound :
    mainLoop "a,b,".data ',' 2 4 0 [] = .done 4 ["a".data, "b".data] ∧
    ExtractFields "a,b,".data ',' 2 = .done 4 ["a".data, "b".data, []] ∧
    ¬ (["a".data, "b".data, ([] : List Char)].length ≤ 2) := by
  decide

/-- C4: with the comma as delimiter and two string columns (bound 2), the second field of
a,b,c is complete once the prefix a,b, of four characters is read, and the record decodes;
the records a,b, and a,b,c, start with the same prefix and are rejected by the field-count
check with three fields. -/
theorem trailing_content_changes_outcome :
    mainLoop "a,b,c".data ',' 2 5 0 [] = .done 4 ["a".data, "b".data] ∧
    Compute digitNumbers ⟨[.DT_STRING, .DT_STRING], ',', [], -1⟩ ["a,b,c".data] [[], []] []
      = .next (⟨[.DT_STRING, .DT_STRING], ',', [0, 1], 2⟩,
          ⟨[], [[some (.string "a".data)], [some (.string "b".data)]]⟩) ∧
    Compute digitNumbers ⟨[.DT_STRING, .DT_STRING], ',', [], -1⟩ ["a,b,".data] [[], []] []
      = .ret (⟨[.DT_STRING, .DT_STRING], ',', [0, 1], 2⟩,
          ⟨[.fieldCount 2 3 0], [[none], [none]]⟩) ∧
    Compute digitNumbers ⟨[.DT_STRING, .DT_STRING], ',', [], -1⟩ ["a,b,c,".data] [[], []] []
      = .ret (⟨[.DT_STRING, .DT_STRING], ',', [0, 1], 2⟩,
          ⟨[.fieldCount 2 3 0], [[none], [none]]⟩) := by
  decide

/-! ## Loops -/

theorem forLoop_add {σ : Type} (body : Nat → σ → Flow σ) (a b : Nat) :
    ∀ (i : Nat) (s : σ),
      forLoop body (a + b) i s =
        match forLoop body a i s with
        | .next s' => forLoop body b (i + a) s'
        | .ret s' => .ret s'
        | .undefined => .undefined := by
  induction a with
  | zero => intro i s; simp [forLoop]
  | succ a ih =>
    intro i s
    have e : a + 1 + b = (a + b) + 1 := by omega
    rw [e]
    simp only [forLoop]
    cases h : body i s with
    | next s' =>
      simp only [ih]
      have e2 : i + 1 + a = i + (a + 1) := by omega
      rw [e2]
    | ret s' => rfl
    | undefined => rfl

/-- A loop that falls through establishes a position-indexed invariant. -/
theorem forLoop_next_inv {σ : Type} (body : Nat → σ → Flow σ) (Inv : Nat → σ → Prop) :
    ∀ (n i : Nat) (s s' : σ), Inv i s →
      (∀ j t t', i ≤ j → j < i + n → Inv j t → body j t = .next t' → Inv (j + 1) t') →
      forLoop body n i s = .next s' → Inv (i + n) s' := by
  intro n
  induction n with
  | zero =>
    intro i s s' h0 _ h
    simp only [forLoop] at h
    cases h
    exact h0
  | succ n ih =>
    intro i s s' h0 hstep h
    simp only [forLoop] at h
    cases hb : body i s with
    | next t =>
      rw [hb] at h
      have h1 := hstep i s t (le_refl _) (by omega) h0 hb
      have := ih (i + 1) t s' h1
        (fun j u u' hj hj' => hstep j u u' (by omega) (by omega)) h
      have e : i + (n + 1) = i + 1 + n := by omega
      rw [e]
      exact this
    | ret t => rw [hb] at h; cases h
    | undefined => rw [hb] at h; cases h

/-- An invariant kept by every iteration, falling through or returning, holds when the
loop is left. -/
theorem forLoop_inv {σ : Type} (body : Nat → σ → Flow σ) (Inv : σ → Prop) :
    ∀ (n i : Nat) (s s' : σ), Inv s →
      (∀ j t t', i ≤ j → j < i + n → Inv t →
        (body j t = .next t' ∨ body j t = .ret t') → Inv t') →
      (forLoop body n i s = .next s' ∨ forLoop body n i s = .ret s') → Inv s' := by
  intro n
  induction n with
  | zero =>
    intro i s s' h0 _ h
    simp only [forLoop] at h
    rcases h with h | h
    · cases h; exact h0
    · cases h
  | succ n ih =>
    intro i s s' h0 hstep h
    simp only [forLoop] at h
    cases hb : body i s with
    | next t =>
      rw [hb] at h
      exact ih (i + 1) t s' (hstep i s t (le_refl _) (by omega) h0 (Or.inl hb))
        (fun j u u' hj hj' => hstep j u u' (by omega) (by omega)) h
    | ret t =>
      rw [hb] at h
      rcases h with h | h
      · cases h
      · have e : t = s' := Flow.ret.inj h
        rw [← e]
        exact hstep i s t (le_refl _) (by omega) h0 (Or.inr hb)
    | undefined =>
      rw [hb] at h
      rcases h with h | h <;> cases h

/-- A loop with an iteration that never falls through does not fall through. -/
theorem forLoop_blocked {σ : Type} (body : Nat → σ → Flow σ) (r : Nat)
    (hr : ∀ t t', body r t ≠ .next t') :
    ∀ (n i : Nat) (s s' : σ), i ≤ r → r < i + n → forLoop body n i s ≠ .next s' := by
  intro n
  induction n with
  | zero => intro i s s' h1 h2; omega
  | succ n ih =>
    intro i s s' h1 h2 h
    simp only [forLoop] at h
    cases hb : body i s with
    | next t =>
      rw [hb] at h
      by_cases hi : i = r
      · subst hi
        exact hr s t hb
      · exact ih (i + 1) t s' (by omega) (by omega) h
    | ret t => rw [hb] at h; cases h
    | undefined => rw [hb] at h; cases h

/-- The loop returns where its first returning iteration does. -/
theorem forLoop_ret_at {σ : Type} (body : Nat → σ → Flow σ) (n a i : Nat) (s s1 s2 : σ)
    (ha : a < n) (h1 : forLoop body a i s = .next s1) (h2 : body (i + a) s1 = .ret s2) :
    forLoop body n i s = .ret s2 := by
  obtain ⟨b, rfl⟩ : ∃ b, n = a + (1 + b) := ⟨n - a - 1, by omega⟩
  rw [forLoop_add, h1]
  simp only
  have e : 1 + b = b + 1 := by omega
  rw [e]
  simp only [forLoop, h2]

/-! ## Schema resolution -/

theorem checkDefaults_pass (ctx : Context) :
    ∀ (ds pre : List (List Scalar)), (∀ d ∈ ds, d.length < 2) →
      forLoop (checkDefault (pre ++ ds)) ds.length pre.length ctx = .next ctx := by
  intro ds
  induction ds with
  | nil => intro pre _; simp [forLoop]
  | cons d ds ih =>
    intro pre h
    have hd := h d (List.mem_cons_self _ _)
    have h' := ih (pre ++ [d]) (fun x hx => h x (List.mem_cons_of_mem _ hx))
    simp only [List.append_assoc, List.singleton_append, List.length_append, List.length_cons,
      List.length_nil] at h'
    simp only [List.length_cons, forLoop, checkDefault, read_here, if_pos hd]
    exact h'

theorem checkDefaults_fail (ctx : Context) :
    ∀ (ds pre : List (List Scalar)), (∃ d ∈ ds, 2 ≤ d.length) →
      ∃ i n, forLoop (checkDefault (pre ++ ds)) ds.length pre.length ctx
        = .ret (CtxFailure ctx (.tooManyDefaults i n)) := by
  intro ds
  induction ds with
  | nil => intro pre h; simp at h
  | cons d ds ih =>
    intro pre h
    by_cases hd : d.length < 2
    · obtain ⟨x, hx, hx2⟩ := h
      have hx' : x ∈ ds := by
        rcases List.mem_cons.1 hx with rfl | hx'
        · omega
        · exact hx'
      obtain ⟨i, n, h'⟩ := ih (pre ++ [d]) ⟨x, hx', hx2⟩
      simp only [List.append_assoc, List.singleton_append, List.length_append,
        List.length_cons, List.length_nil] at h'
      refine ⟨i, n, ?_⟩
      simp only [List.length_cons, forLoop, checkDefault, read_here, if_pos hd]
      exact h'
    · refine ⟨pre.length, d.length, ?_⟩
      simp only [List.length_cons, forLoop, checkDefault, read_here, if_neg hd]

/-- The loop over the requested indices, when none is negative: it installs them all and
leaves the largest in maxColIndex. -/
theorem setRequested_loop (fi : List Int) :
    ∀ (n i : Nat) (r : Resolving), i + n = fi.length → r.field_indices_vec_.length = fi.length →
      (∀ x ∈ fi, 0 ≤ x) →
      ∃ r', forLoop (setRequested fi) n i r = .next r' ∧ r'.ctx = r.ctx ∧
        r'.field_indices_vec_.length = fi.length ∧
        (∀ j, j < i → r'.field_indices_vec_[j]? = r.field_indices_vec_[j]?) ∧
        (∀ j, i ≤ j → r'.field_indices_vec_[j]? = fi[j]?) ∧
        r.maxColIndex ≤ r'.maxColIndex ∧
        (∀ j x, i ≤ j → fi[j]? = some x → x ≤ r'.maxColIndex) ∧
        (r'.maxColIndex = r.maxColIndex ∨ ∃ j, i ≤ j ∧ fi[j]? = some r'.maxColIndex) := by
  intro n
  induction n with
  | zero =>
    intro i r hi hv _
    refine ⟨r, rfl, rfl, hv, fun _ _ => rfl, ?_, le_refl _, ?_, Or.inl rfl⟩
    · intro j hj
      rw [List.getElem?_eq_none (by omega), List.getElem?_eq_none (by omega)]
    · intro j x hj hx
      rw [List.getElem?_eq_none (by omega)] at hx
      cases hx
  | succ n ih =>
    intro i r hi hv hpos
    have hlt : i < fi.length := by omega
    have hread : fi[i]? = some fi[i] := List.getElem?_eq_getElem hlt
    have hx0 : 0 ≤ fi[i] := hpos _ (List.getElem_mem hlt)
    obtain ⟨r', h1, h2, h3, h4, h5, h6, h7, h8⟩ := ih (i + 1)
      { r with
        field_indices_vec_ := r.field_indices_vec_.set i fi[i]
        maxColIndex := if fi[i] > r.maxColIndex then fi[i] else r.maxColIndex }
      (by omega) (by simpa using hv) hpos
    simp only at h2 h4 h6 h8
    refine ⟨r', ?_, h2, h3, ?_, ?_, ?_, ?_, ?_⟩
    · simp only [forLoop, setRequested, hread, ge_iff_le, hx0, if_true]
      exact h1
    · intro j hj
      rw [h4 j (by omega), List.getElem?_set_ne (by omega)]
    · intro j hj
      by_cases hji : j = i
      · subst hji
        rw [h4 j (by omega), List.getElem?_set_self (by omega), hread]
      · exact h5 j (by omega)
    · split at h6 <;> omega
    · intro j x hj hx
      by_cases hji : j = i
      · subst hji
        rw [hread] at hx
        cases hx
        split at h6 <;> omega
      · exact h7 j x (by omega) hx
    · rcases h8 with h8 | ⟨j, hj, h8⟩
      · split at h8
        · exact Or.inr ⟨i, le_refl _, by rw [hread, h8]⟩
        · exact Or.inl h8
      · exact Or.inr ⟨j, by omega, h8⟩

theorem setRequested_fail (fi : List Int) :
    ∀ (n i : Nat) (r : Resolving), i + n = fi.length →
      (∃ j x, i ≤ j ∧ fi[j]? = some x ∧ x < 0) →
      ∃ r' j x, forLoop (setRequested fi) n i r = .ret r' ∧
        r'.ctx = CtxFailure r.ctx (.fieldIndexNegative j x) ∧ x < 0 := by
  intro n
  induction n with
  | zero =>
    intro i r hi h
    obtain ⟨j, x, hj, hx, _⟩ := h
    rw [List.getElem?_eq_none (by omega)] at hx
    cases hx
  | succ n ih =>
    intro i r hi h
    have hlt : i < fi.length := by omega
    have hread : fi[i]? = some fi[i] := List.getElem?_eq_getElem hlt
    by_cases hx0 : 0 ≤ fi[i]
    · obtain ⟨j, x, hj, hx, hneg⟩ := h
      have hji : j ≠ i := by
        intro e
        subst e
        rw [hread] at hx
        cases hx
        omega
      obtain ⟨r', j', x', h1, h2, h3⟩ := ih (i + 1)
        { r with
          field_indices_vec_ := r.field_indices_vec_.set i fi[i]
          maxColIndex := if fi[i] > r.maxColIndex then fi[i] else r.maxColIndex }
        (by omega) ⟨j, x, by omega, hx, hneg⟩
      refine ⟨r', j', x', ?_, h2, h3⟩
      simp only [forLoop, setRequested, hread, ge_iff_le, hx0, if_true]
      exact h1
    · refine ⟨{ r with ctx := CtxFailure r.ctx (.fieldIndexNegative i fi[i]) }, i, fi[i], ?_,
        rfl, by omega⟩
      simp only [forLoop, setRequested, hread, ge_iff_le, hx0, if_false]

/-- Installing the indices 0, 1, 2, ... is the loop over the requested indices run on the
list 0, 1, ..., M-1. -/
theorem setDefault_eq_setRequested (M : Nat) :
    ∀ (n i : Nat) (r : Resolving), i + n ≤ M →
      forLoop setDefault n i r = forLoop (setRequested (identityIndices M)) n i r := by
  intro n
  induction n with
  | zero => intro i r _; rfl
  | succ n ih =>
    intro i r hi
    have hread : (identityIndices M)[i]? = some (Int.ofNat i) := by
      simp only [identityIndices, List.getElem?_map]
      rw [List.getElem?_range (by omega)]
      rfl
    have hnn : (Int.ofNat i) ≥ 0 := Int.ofNat_nonneg i
    simp only [forLoop, setRequested, setDefault, hread, hnn, if_true]
    exact ih (i + 1) _ (by omega)

theorem length_resize (v : List Int) (n : Nat) : (resize v n).length = n := by
  simp only [resize, List.length_append, List.length_take, List.length_replicate]
  omega

theorem length_identityIndices (M : Nat) : (identityIndices M).length = M := by
  simp [identityIndices]

theorem checkDefaults_pass_all (ctx : Context) (ds : List (List Scalar))
    (h : ∀ d ∈ ds, d.length < 2) :
    forLoop (checkDefault ds) ds.length 0 ctx = .next ctx := by
  have := checkDefaults_pass ctx ds [] h
  simpa using this

theorem checkDefaults_fail_some (ctx : Context) (ds : List (List Scalar))
    (h : ∃ d ∈ ds, 2 ≤ d.length) :
    ∃ i n, forLoop (checkDefault ds) ds.length 0 ctx
      = .ret (CtxFailure ctx (.tooManyDefaults i n)) := by
  have := checkDefaults_fail ctx ds [] h
  simpa using this

/-- Resolution with an empty index list is resolution with the list 0, 1, ..., M-1. -/
theorem resolve_empty_eq_identity (k : Kernel) (ctx : Context)
    (record_defaults : List (List Scalar)) :
    resolve k ctx record_defaults []
      = resolve k ctx record_defaults (identityIndices record_defaults.length) := by
  unfold resolve
  by_cases hk : k.num_first_n_columns_to_extract_ < 0
  · rw [if_pos hk, if_pos hk]
    cases forLoop (checkDefault record_defaults) record_defaults.length 0 ctx with
    | next c =>
      simp only [length_identityIndices, List.length_nil, ne_eq, not_true_eq_false, if_false,
        if_true]
      by_cases hM : record_defaults.length = 0
      · simp [hM]
      · rw [if_pos hM]
        rw [setDefault_eq_setRequested record_defaults.length _ 0 _
          (by rw [length_resize]; omega)]
    | ret c => rfl
    | undefined => rfl
  · rw [if_neg hk, if_neg hk]

/-- Resolution of a non-empty list of non-negative indices of the right length. -/
theorem resolve_requested (k : Kernel) (ctx : Context) (record_defaults : List (List Scalar))
    (fi : List Int) (hk : k.num_first_n_columns_to_extract_ < 0)
    (hd : ∀ d ∈ record_defaults, d.length < 2) (hne : fi ≠ [])
    (hlen : fi.length = record_defaults.length) (hpos : ∀ x ∈ fi, 0 ≤ x) :
    ∃ m, resolve k ctx record_defaults fi
        = .next ({ k with field_indices_vec_ := fi
                          num_first_n_columns_to_extract_ := wrapInt32 (m + 1) }, ctx) ∧
      m ∈ fi ∧ ∀ x ∈ fi, x ≤ m := by
  have hl0 : fi.length ≠ 0 := fun h => hne (List.length_eq_zero.1 h)
  obtain ⟨r', h1, h2, h3, _, h5, h6, h7, h8⟩ := setRequested_loop fi
    (resize k.field_indices_vec_ record_defaults.length).length 0
    ⟨resize k.field_indices_vec_ record_defaults.length, -1, ctx⟩
    (by rw [length_resize]; omega) (by rw [length_resize]; omega) hpos
  simp only at h2 h6 h8
  have hvec : r'.field_indices_vec_ = fi :=
    List.ext_getElem? (fun j => h5 j (Nat.zero_le _))
  have hmem : r'.maxColIndex ∈ fi := by
    rcases h8 with h8 | ⟨j, _, h8⟩
    · have h0lt : 0 < fi.length := Nat.pos_of_ne_zero hl0
      have := h7 0 fi[0] (le_refl _) (List.getElem?_eq_getElem h0lt)
      have := hpos _ (List.getElem_mem h0lt)
      omega
    · exact List.getElem?_mem h8
  refine ⟨r'.maxColIndex, ?_, hmem, ?_⟩
  · unfold resolve
    rw [if_pos hk, checkDefaults_pass_all ctx record_defaults hd]
    have hl0' : ¬ record_defaults.length = 0 := by rw [← hlen]; exact hl0
    simp only [ne_eq, hl0, not_false_eq_true, if_true, hlen, h1, finishResolve, hvec, h2,
      hl0']
  · intro x hx
    obtain ⟨j, hj, hjx⟩ := List.getElem_of_mem hx
    exact h7 j x (Nat.zero_le _) (by rw [List.getElem?_eq_getElem hj, hjx])

/-- The three configuration errors of schema resolution. -/
theorem resolve_rejects (k : Kernel) (ctx : Context) (record_defaults : List (List Scalar))
    (fi : List Int) (hk : k.num_first_n_columns_to_extract_ < 0)
    (hbad : (∃ d ∈ record_defaults, 2 ≤ d.length) ∨
      (fi ≠ [] ∧ fi.length ≠ record_defaults.length) ∨ (∃ x ∈ fi, x < 0)) :
    ∃ k' e, resolve k ctx record_defaults fi = .ret (k', CtxFailure ctx e) ∧
      k'.num_first_n_columns_to_extract_ = k.num_first_n_columns_to_extract_ := by
  by_cases h1 : ∃ d ∈ record_defaults, 2 ≤ d.length
  · obtain ⟨i, n, h⟩ := checkDefaults_fail_some ctx record_defaults h1
    refine ⟨k, .tooManyDefaults i n, ?_, rfl⟩
    unfold resolve
    rw [if_pos hk, h]
  · have hd : ∀ d ∈ record_defaults, d.length < 2 := by
      intro d hd
      by_contra hcon
      exact h1 ⟨d, hd, by omega⟩
    have hpass := checkDefaults_pass_all ctx record_defaults hd
    by_cases h2 : fi ≠ [] ∧ fi.length ≠ record_defaults.length
    · have hl0 : fi.length ≠ 0 := fun h => h2.1 (List.length_eq_zero.1 h)
      refine ⟨⟨k.out_type_, k.delim_, resize k.field_indices_vec_ record_defaults.length,
        k.num_first_n_columns_to_extract_⟩, .fieldIndicesSize, ?_, rfl⟩
      unfold resolve
      rw [if_pos hk, hpass]
      simp only [ne_eq, hl0, not_false_eq_true, if_true, h2.2, if_false]
    · have h3 : ∃ x ∈ fi, x < 0 := by
        rcases hbad with h | h | h
        · exact absurd h h1
        · exact absurd h h2
        · exact h
      obtain ⟨x, hx, hneg⟩ := h3
      have hne : fi ≠ [] := List.ne_nil_of_mem hx
      have hl0 : fi.length ≠ 0 := fun h => hne (List.length_eq_zero.1 h)
      have hlen : fi.length = record_defaults.length := by
        by_contra hcon
        exact h2 ⟨hne, hcon⟩
      obtain ⟨j, hj, hjx⟩ := List.getElem_of_mem hx
      obtain ⟨r', j', x', hr1, hr2, _⟩ := setRequested_fail fi
        (resize k.field_indices_vec_ record_defaults.length).length 0
        ⟨resize k.field_indices_vec_ record_defaults.length, -1, ctx⟩
        (by rw [length_resize]; omega)
        ⟨j, x, Nat.zero_le _, by rw [List.getElem?_eq_getElem hj, hjx], hneg⟩
      refine ⟨{ k with field_indices_vec_ := r'.field_indices_vec_ },
        .fieldIndexNegative j' x', ?_, rfl⟩
      unfold resolve
      rw [if_pos hk, hpass]
      have hl0' : ¬ record_defaults.length = 0 := by rw [← hlen]; exact hl0
      simp only [ne_eq, hl0, not_false_eq_true, if_true, hlen, hr1, finishResolve, hr2, hl0']

theorem identityIndices_nonneg (M : Nat) : ∀ x ∈ identityIndices M, 0 ≤ x := by
  intro x hx
  simp only [identityIndices, List.mem_map] at hx
  obtain ⟨n, _, rfl⟩ := hx
  exact Int.ofNat_nonneg n

/-- Resolution of a well-formed configuration. -/
theorem resolve_accepts (k : Kernel) (ctx : Context) (record_defaults : List (List Scalar))
    (fi : List Int) (hk : k.num_first_n_columns_to_extract_ < 0)
    (hgood : ¬ ((∃ d ∈ record_defaults, 2 ≤ d.length) ∨
      (fi ≠ [] ∧ fi.length ≠ record_defaults.length) ∨ (∃ x ∈ fi, x < 0))) :
    ∃ b, resolve k ctx record_defaults fi
      = .next ({ k with
          field_indices_vec_ :=
            if fi = [] then identityIndices record_defaults.length else fi
          num_first_n_columns_to_extract_ := b }, ctx) := by
  have hd : ∀ d ∈ record_defaults, d.length < 2 := by
    intro d hd
    by_contra hcon
    exact hgood (Or.inl ⟨d, hd, by omega⟩)
  have hpos : ∀ x ∈ fi, 0 ≤ x := by
    intro x hx
    by_contra hcon
    exact hgood (Or.inr (Or.inr ⟨x, hx, by omega⟩))
  by_cases hne : fi = []
  · subst hne
    rw [resolve_empty_eq_identity, if_pos rfl]
    by_cases hM : record_defaults.length = 0
    · refine ⟨wrapInt32 (-1 + 1), ?_⟩
      have hnil : record_defaults = [] := List.length_eq_zero.1 hM
      subst hnil
      unfold resolve
      rw [if_pos hk]
      simp [forLoop, identityIndices, resize, finishResolve]
    · have hne' : identityIndices record_defaults.length ≠ [] := by
        intro h
        have := length_identityIndices record_defaults.length
        rw [h] at this
        exact hM this.symm
      obtain ⟨m, hm, _⟩ := resolve_requested k ctx record_defaults
        (identityIndices record_defaults.length) hk hd hne'
        (length_identityIndices _) (identityIndices_nonneg _)
      exact ⟨_, hm⟩
  · have hlen : fi.length = record_defaults.length := by
      by_contra hcon
      exact hgood (Or.inr (Or.inl ⟨hne, hcon⟩))
    obtain ⟨m, hm, _⟩ := resolve_requested k ctx record_defaults fi hk hd hne hlen hpos
    rw [if_neg hne]
    exact ⟨_, hm⟩

/-- C9: for a kernel whose bound is not yet resolved, schema resolution fails exactly when
some default has more than one element, or the requested index list is non-empty with a
length other than the number of defaults, or some requested index is negative; otherwise it
succeeds and installs the requested indices (0, 1, ..., M-1 for the empty list); when it
fails, Compute returns with that one failure, the bound of the kernel is unchanged, no
output is allocated and the result does not depend on the records. -/
theorem resolution_fails_iff (k : Kernel) (record_defaults : List (List Scalar))
    (fi : List Int) (hk : k.num_first_n_columns_to_extract_ < 0) :
    ((∃ k' e, resolve k ⟨[], []⟩ record_defaults fi = .ret (k', ⟨[e], []⟩)) ↔
      ((∃ d ∈ record_defaults, 2 ≤ d.length) ∨
        (fi ≠ [] ∧ fi.length ≠ record_defaults.length) ∨ (∃ x ∈ fi, x < 0))) ∧
    (¬ ((∃ d ∈ record_defaults, 2 ≤ d.length) ∨
        (fi ≠ [] ∧ fi.length ≠ record_defaults.length) ∨ (∃ x ∈ fi, x < 0)) →
      ∃ b, resolve k ⟨[], []⟩ record_defaults fi
        = .next ({ k with
            field_indices_vec_ :=
              if fi = [] then identityIndices record_defaults.length else fi
            num_first_n_columns_to_extract_ := b }, ⟨[], []⟩)) ∧
    (((∃ d ∈ record_defaults, 2 ≤ d.length) ∨
        (fi ≠ [] ∧ fi.length ≠ record_defaults.length) ∨ (∃ x ∈ fi, x < 0)) →
      ∃ k' e, k'.num_first_n_columns_to_extract_ = k.num_first_n_columns_to_extract_ ∧
        ∀ (P : Numbers) (records : List (List Char)),
          Compute P k records record_defaults fi = .ret (k', ⟨[e], []⟩)) := by
  refine ⟨⟨?_, ?_⟩, ?_, ?_⟩
  · rintro ⟨k', e, h⟩
    by_contra hgood
    obtain ⟨b, hb⟩ := resolve_accepts k ⟨[], []⟩ record_defaults fi hk hgood
    rw [hb] at h
    cases h
  · intro hbad
    obtain ⟨k', e, h, _⟩ := resolve_rejects k ⟨[], []⟩ record_defaults fi hk hbad
    exact ⟨k', e, h⟩
  · exact resolve_accepts k ⟨[], []⟩ record_defaults fi hk
  · intro hbad
    obtain ⟨k', e, h, hnum⟩ := resolve_rejects k ⟨[], []⟩ record_defaults fi hk hbad
    refine ⟨k', e, hnum, ?_⟩
    intro P records
    unfold Compute
    rw [h]
    rfl

theorem resolution_fails_iff_witness :
    ∃ k' e, k'.num_first_n_columns_to_extract_ = -1 ∧
      ∀ (P : Numbers) (records : List (List Char)),
        Compute P ⟨[.DT_INT32, .DT_STRING], ',', [], -1⟩ records [[], []] [0, -3]
          = .ret (k', ⟨[e], []⟩) :=
  (resolution_fails_iff ⟨[.DT_INT32, .DT_STRING], ',', [], -1⟩ [[], []] [0, -3]
    (by decide)).2.2 (Or.inr (Or.inr ⟨-3, by decide, by decide⟩))

/-- C8: decoding with an empty field_indices gives the same result as decoding with
field_indices 0, 1, ..., M-1, where M is the number of defaults: the same resolved members of
the kernel, the same failures and the same output columns. -/
theorem empty_selection_is_identity (P : Numbers) (k : Kernel) (records : List (List Char))
    (record_defaults : List (List Scalar)) :
    resolve k ⟨[], []⟩ record_defaults []
      = resolve k ⟨[], []⟩ record_defaults (identityIndices record_defaults.length) ∧
    Compute P k records record_defaults []
      = Compute P k records record_defaults (identityIndices record_defaults.length) := by
  refine ⟨resolve_empty_eq_identity k _ record_defaults, ?_⟩
  unfold Compute
  rw [resolve_empty_eq_identity]

/-- C7: with the single requested index 2147483647 schema resolution raises no failure,
but the bound it records is -2147483648 and not 1 + 2147483647; Compute then rejects the
record by the field-count check. -/
theorem bound_wraps_at_largest_index :
    resolve ⟨[.DT_INT32], ',', [], -1⟩ ⟨[], []⟩ [[]] [2147483647]
      = .next (⟨[.DT_INT32], ',', [2147483647], -2147483648⟩, ⟨[], []⟩) ∧
    (-2147483648 : Int) ≠ 1 + 2147483647 ∧
    Compute digitNumbers ⟨[.DT_INT32], ',', [], -1⟩ ["1".data] [[]] [2147483647]
      = .ret (⟨[.DT_INT32], ',', [2147483647], -2147483648⟩,
          ⟨[.fieldCount (-2147483648) 1 0], [[none]]⟩) := by
  decide

/-! ## Writes to the output -/

theorem cell_CtxFailure (ctx : Context) (e : Err) (f i : Nat) :
    cell (CtxFailure ctx e) f i = cell ctx f i := rfl

theorem cell_allocate (k : Kernel) (records : List (List Char)) (ctx : Context) (f i : Nat)
    (v : Scalar) : cell (allocate k records ctx) f i ≠ some (some v) := by
  unfold cell allocate
  simp only [List.getElem?_replicate]
  split
  · simp only [Option.some_bind, List.getElem?_replicate]
    split <;> simp
  · simp

/-- An assignment to `output[f][i]` either is out of range or stores the value there and
changes nothing else. -/
theorem writeOutput_cases (ctx : Context) (f i : Nat) (v : Scalar) :
    writeOutput ctx f i v = .undefined ∨
    ∃ ctx', writeOutput ctx f i v = .next ctx' ∧ ctx'.failures = ctx.failures ∧
      cell ctx' f i = some (some v) ∧
      ∀ f' i', ¬ (f' = f ∧ i' = i) → cell ctx' f' i' = cell ctx f' i' := by
  unfold writeOutput
  cases hcol : ctx.output[f]? with
  | none => exact Or.inl rfl
  | some col =>
    by_cases hi : i < col.length
    · right
      have hf : f < ctx.output.length := by
        by_contra hcon
        rw [List.getElem?_eq_none (by omega)] at hcol
        cases hcol
      refine ⟨⟨ctx.failures, ctx.output.set f (col.set i (some v))⟩,
        by simp only [if_pos hi], rfl, ?_, ?_⟩
      · simp only [cell, List.getElem?_set_self hf, Option.some_bind,
          List.getElem?_set_self hi]
      · intro f' i' hne
        by_cases hff : f' = f
        · subst hff
          have hii : i ≠ i' := fun h => hne ⟨rfl, h.symm⟩
          simp only [cell, List.getElem?_set_self hf, Option.some_bind, hcol,
            List.getElem?_set_ne hii]
        · have hff' : f ≠ f' := fun h => hff h.symm
          simp only [cell, List.getElem?_set_ne hff']
    · left
      simp only [if_neg hi]

/-- An assignment never returns from Compute, and touches only its own slot. -/
theorem writeOutput_frame (ctx c' : Context) (f i : Nat) (v : Scalar)
    (h : writeOutput ctx f i v = .next c' ∨ writeOutput ctx f i v = .ret c') :
    cell c' f i = some (some v) ∧ c'.failures = ctx.failures ∧
      ∀ f' i', ¬ (f' = f ∧ i' = i) → cell c' f' i' = cell ctx f' i' := by
  rcases writeOutput_cases ctx f i v with hu | ⟨c, hc, h1, h2, h3⟩
  · rw [hu] at h
    rcases h with h | h <;> cases h
  · rw [hc] at h
    rcases h with h | h
    · have e : c = c' := Flow.next.inj h
      subst e
      exact ⟨h2, h1, h3⟩
    · cases h

theorem useDefault_frame (record_defaults : List (List Scalar)) (ctx c' : Context)
    (f i : Nat)
    (h : useDefault record_defaults f i ctx = .next c' ∨
      useDefault record_defaults f i ctx = .ret c') :
    ∀ f' i', ¬ (f' = f ∧ i' = i) → cell c' f' i' = cell ctx f' i' := by
  unfold useDefault at h
  cases hd : record_defaults[f]? with
  | none =>
    rw [hd] at h
    rcases h with h | h <;> cases h
  | some d =>
    rw [hd] at h
    simp only at h
    by_cases h1 : d.length = 1
    · rw [if_pos h1] at h
      cases hv : d[0]? with
      | none =>
        rw [hv] at h
        rcases h with h | h <;> cases h
      | some v =>
        rw [hv] at h
        exact (writeOutput_frame ctx c' f i v h).2.2
    · rw [if_neg h1] at h
      rcases h with h | h
      · cases h
      · have e : CtxFailure ctx (.requiredMissing f i) = c' := Flow.ret.inj h
        subst e
        intro f' i' _
        rfl

/-- The switch touches no slot other than `output[f][i]`. -/
theorem convertField_frame (P : Numbers) (record_defaults : List (List Scalar))
    (dtype : DataType) (str : List Char) (ctx c' : Context) (f i : Nat)
    (h : convertField P record_defaults dtype str f i ctx = .next c' ∨
      convertField P record_defaults dtype str f i ctx = .ret c') :
    ∀ f' i', ¬ (f' = f ∧ i' = i) → cell c' f' i' = cell ctx f' i' := by
  have hfail : ∀ e, (Flow.ret (CtxFailure ctx e) = Flow.next c' ∨
      Flow.ret (CtxFailure ctx e) = Flow.ret c') →
      ∀ f' i', ¬ (f' = f ∧ i' = i) → cell c' f' i' = cell ctx f' i' := by
    intro e h
    rcases h with h | h
    · cases h
    · have e' : CtxFailure ctx e = c' := Flow.ret.inj h
      subst e'
      intro f' i' _
      rfl
  unfold convertField at h
  cases dtype with
  | DT_FLOAT =>
    simp only at h
    by_cases hs : str = []
    · rw [if_pos hs] at h
      exact useDefault_frame record_defaults ctx c' f i h
    · rw [if_neg hs] at h
      cases hp : P.safe_strtof (c_str str) with
      | none => rw [hp] at h; exact hfail _ h
      | some v => rw [hp] at h; exact (writeOutput_frame ctx c' f i _ h).2.2
  | DT_INT32 =>
    simp only at h
    by_cases hs : str = []
    · rw [if_pos hs] at h
      exact useDefault_frame record_defaults ctx c' f i h
    · rw [if_neg hs] at h
      cases hp : P.safe_strto32 str with
      | none => rw [hp] at h; exact hfail _ h
      | some v => rw [hp] at h; exact (writeOutput_frame ctx c' f i _ h).2.2
  | DT_INT64 =>
    simp only at h
    by_cases hs : str = []
    · rw [if_pos hs] at h
      exact useDefault_frame record_defaults ctx c' f i h
    · rw [if_neg hs] at h
      cases hp : P.safe_strto64 str with
      | none => rw [hp] at h; exact hfail _ h
      | some v => rw [hp] at h; exact (writeOutput_frame ctx c' f i _ h).2.2
  | DT_STRING =>
    simp only at h
    by_cases hs : str = []
    · rw [if_pos hs] at h
      exact useDefault_frame record_defaults ctx c' f i h
    · rw [if_neg hs] at h
      exact (writeOutput_frame ctx c' f i _ h).2.2
  | other code =>
    simp only at h
    exact hfail _ h

theorem fieldBody_frame (P : Numbers) (k : Kernel) (record_defaults : List (List Scalar))
    (fields : List (List Char)) (ctx c' : Context) (i f : Nat)
    (h : fieldBody P k record_defaults fields i f ctx = .next c' ∨
      fieldBody P k record_defaults fields i f ctx = .ret c') :
    ∀ f' i', ¬ (f' = f ∧ i' = i) → cell c' f' i' = cell ctx f' i' := by
  unfold fieldBody at h
  cases ht : k.out_type_[f]? with
  | none => rw [ht] at h; rcases h with h | h <;> cases h
  | some dtype =>
    rw [ht] at h
    simp only at h
    cases hs : k.field_indices_vec_[f]? with
    | none => rw [hs] at h; rcases h with h | h <;> cases h
    | some src =>
      rw [hs] at h
      simp only at h
      cases hc : fields[toSizeT src]? with
      | none => rw [hc] at h; rcases h with h | h <;> cases h
      | some str =>
        rw [hc] at h
        exact convertField_frame P record_defaults dtype str ctx c' f i h

theorem checkAndConvert_frame (P : Numbers) (k : Kernel) (record_defaults : List (List Scalar))
    (fields : List (List Char)) (ctx c' : Context) (i : Nat)
    (h : checkAndConvert P k record_defaults fields i ctx = .next c' ∨
      checkAndConvert P k record_defaults fields i ctx = .ret c') :
    ∀ f' i', i' ≠ i → cell c' f' i' = cell ctx f' i' := by
  unfold checkAndConvert at h
  by_cases hn : fields.length = toSizeT k.num_first_n_columns_to_extract_
  · rw [if_pos hn] at h
    exact forLoop_inv (fieldBody P k record_defaults fields i)
      (fun s => ∀ f' i', i' ≠ i → cell s f' i' = cell ctx f' i')
      k.out_type_.length 0 ctx c' (fun _ _ _ => rfl)
      (fun j t t' _ _ ht hb f' i' hi => by
        rw [fieldBody_frame P k record_defaults fields t t' i j hb f' i' (fun hh => hi hh.2)]
        exact ht f' i' hi) h
  · rw [if_neg hn] at h
    rcases h with h | h
    · cases h
    · have e : CtxFailure ctx _ = c' := Flow.ret.inj h
      subst e
      intro f' i' _
      rfl

/-- Decoding record `i` touches no slot of another record. -/
theorem recordBody_frame (P : Numbers) (k : Kernel) (records : List (List Char))
    (record_defaults : List (List Scalar)) (ctx c' : Context) (i : Nat)
    (h : recordBody P k records record_defaults i ctx = .next c' ∨
      recordBody P k records record_defaults i ctx = .ret c') :
    ∀ f' i', i' ≠ i → cell c' f' i' = cell ctx f' i' := by
  unfold recordBody at h
  cases hr : records[i]? with
  | none => rw [hr] at h; rcases h with h | h <;> cases h
  | some record =>
    rw [hr] at h
    simp only at h
    cases hs : ExtractFields record k.delim_ (toSizeT k.num_first_n_columns_to_extract_) with
    | done idx fields =>
      rw [hs] at h
      exact checkAndConvert_frame P k record_defaults fields ctx c' i h
    | failed e fields =>
      rw [hs] at h
      intro f' i' hi
      rw [checkAndConvert_frame P k record_defaults fields _ c' i h f' i' hi]
      rfl
    | outOfBounds => rw [hs] at h; rcases h with h | h <;> cases h
    | outOfFuel => rw [hs] at h; rcases h with h | h <;> cases h

theorem Compute_resolved (P : Numbers) (k k1 : Kernel) (c0 : Context)
    (records : List (List Char)) (record_defaults : List (List Scalar)) (fi : List Int)
    (hres : resolve k ⟨[], []⟩ record_defaults fi = .next (k1, c0)) :
    Compute P k records record_defaults fi =
      match forLoop (recordBody P k1 records record_defaults) records.length 0
          (allocate k1 records c0) with
      | .next c => .next (k1, c)
      | .ret c => .ret (k1, c)
      | .undefined => .undefined := by
  unfold Compute
  rw [hres]

theorem lt_length_of_getElem? {α : Type} (l : List α) (i : Nat) (a : α)
    (h : l[i]? = some a) : i < l.length := by
  by_contra hcon
  rw [List.getElem?_eq_none (by omega)] at h
  cases h

/-! ## Default substitution -/

theorem useDefault_present (record_defaults : List (List Scalar)) (f i : Nat) (d : Scalar)
    (ctx : Context) (hdef : record_defaults[f]? = some [d]) :
    useDefault record_defaults f i ctx = writeOutput ctx f i d := by
  unfold useDefault
  rw [hdef]
  simp

theorem convertField_default (Q : Numbers) (record_defaults : List (List Scalar))
    (dtype : DataType) (f i : Nat) (d : Scalar) (ctx : Context)
    (hfour : dtype = .DT_FLOAT ∨ dtype = .DT_INT32 ∨ dtype = .DT_INT64 ∨ dtype = .DT_STRING)
    (hdef : record_defaults[f]? = some [d]) :
    convertField Q record_defaults dtype [] f i ctx = writeOutput ctx f i d := by
  rcases hfour with h | h | h | h <;> subst h <;>
    simp only [convertField, if_true] <;>
    exact useDefault_present record_defaults f i d ctx hdef

theorem fieldBody_at (P : Numbers) (k : Kernel) (record_defaults : List (List Scalar))
    (fields : List (List Char)) (i f : Nat) (ctx : Context) (dtype : DataType) (src : Int)
    (str : List Char) (hty : k.out_type_[f]? = some dtype)
    (hsrc : k.field_indices_vec_[f]? = some src) (hstr : fields[toSizeT src]? = some str) :
    fieldBody P k record_defaults fields i f ctx
      = convertField P record_defaults dtype str f i ctx := by
  unfold fieldBody
  rw [hty, hsrc]
  simp only [hstr]

theorem columns_default (P : Numbers) (k1 : Kernel) (record_defaults : List (List Scalar))
    (fields : List (List Char)) (r f : Nat) (dtype : DataType) (d : Scalar) (src : Int)
    (hty : k1.out_type_[f]? = some dtype)
    (hfour : dtype = .DT_FLOAT ∨ dtype = .DT_INT32 ∨ dtype = .DT_INT64 ∨ dtype = .DT_STRING)
    (hdef : record_defaults[f]? = some [d])
    (hsrc : k1.field_indices_vec_[f]? = some src) (hempty : fields[toSizeT src]? = some [])
    (n : Nat) (ctx c' : Context)
    (h : forLoop (fieldBody P k1 record_defaults fields r) n 0 ctx = .next c') (hf : f < n) :
    cell c' f r = some (some d) := by
  have := forLoop_next_inv (fieldBody P k1 record_defaults fields r)
    (fun j s => f < j → cell s f r = some (some d)) n 0 ctx c'
    (fun h0 => absurd h0 (Nat.not_lt_zero _))
    (fun j t t' _ _ ht hb hlt => by
      by_cases hj : j = f
      · subst hj
        rw [fieldBody_at P k1 record_defaults fields r j t dtype src [] hty hsrc hempty,
          convertField_default P record_defaults dtype j r d t hfour hdef] at hb
        exact (writeOutput_frame t t' j r d (Or.inl hb)).1
      · rw [fieldBody_frame P k1 record_defaults fields t t' r j (Or.inl hb) f r
          (fun hh => hj hh.1.symm)]
        exact ht (by omega)) h
  exact this (by omega)

theorem columns_only_default (P : Numbers) (k1 : Kernel)
    (record_defaults : List (List Scalar))
    (fields : List (List Char)) (r f : Nat) (dtype : DataType) (d : Scalar) (src : Int)
    (hty : k1.out_type_[f]? = some dtype)
    (hfour : dtype = .DT_FLOAT ∨ dtype = .DT_INT32 ∨ dtype = .DT_INT64 ∨ dtype = .DT_STRING)
    (hdef : record_defaults[f]? = some [d])
    (hsrc : k1.field_indices_vec_[f]? = some src) (hempty : fields[toSizeT src]? = some [])
    (n : Nat) (ctx c' : Context)
    (h : forLoop (fieldBody P k1 record_defaults fields r) n 0 ctx = .next c' ∨
      forLoop (fieldBody P k1 record_defaults fields r) n 0 ctx = .ret c')
    (h0 : ∀ v, cell ctx f r = some (some v) → v = d) :
    ∀ v, cell c' f r = some (some v) → v = d := by
  refine forLoop_inv (fieldBody P k1 record_defaults fields r)
    (fun s => ∀ v, cell s f r = some (some v) → v = d) n 0 ctx c' h0 ?_ h
  intro j t t' _ _ ht hb v hv
  by_cases hj : j = f
  · subst hj
    rw [fieldBody_at P k1 record_defaults fields r j t dtype src [] hty hsrc hempty,
      convertField_default P record_defaults dtype j r d t hfour hdef] at hb
    rw [(writeOutput_frame t t' j r d hb).1] at hv
    exact (Option.some.inj (Option.some.inj hv)).symm
  · rw [fieldBody_frame P k1 record_defaults fields t t' r j hb f r
      (fun hh => hj hh.1.symm)] at hv
    exact ht v hv

/-- C5: for a resolved schema, a column f of one of the four types with exactly one default
scalar d, and a record r that ExtractFields scans without error with an empty field at the
source position of column f: the switch assigns d to output[f][r] whatever the conversion
routines are (the empty text is not parsed); when Compute completes, output[f][r] holds d;
and when Compute returns with a failure, output[f][r] holds nothing but d. -/
theorem default_substitution (P : Numbers) (k k1 : Kernel) (c0 : Context)
    (records : List (List Char)) (record_defaults : List (List Scalar)) (fi : List Int)
    (f r : Nat) (dtype : DataType) (d : Scalar) (record : List Char) (idx : Nat)
    (fields : List (List Char)) (src : Int)
    (hres : resolve k ⟨[], []⟩ record_defaults fi = .next (k1, c0))
    (hty : k1.out_type_[f]? = some dtype)
    (hfour : dtype = .DT_FLOAT ∨ dtype = .DT_INT32 ∨ dtype = .DT_INT64 ∨ dtype = .DT_STRING)
    (hdef : record_defaults[f]? = some [d])
    (hrec : records[r]? = some record)
    (hscan : ExtractFields record k1.delim_ (toSizeT k1.num_first_n_columns_to_extract_)
      = .done idx fields)
    (hsrc : k1.field_indices_vec_[f]? = some src)
    (hempty : fields[toSizeT src]? = some []) :
    (∀ (Q : Numbers) (ctx : Context),
      convertField Q record_defaults dtype [] f r ctx = writeOutput ctx f r d) ∧
    (∀ k' ctx', Compute P k records record_defaults fi = .next (k', ctx') →
      cell ctx' f r = some (some d)) ∧
    (∀ k' ctx' v, Compute P k records record_defaults fi = .ret (k', ctx') →
      cell ctx' f r = some (some v) → v = d) := by
  have hf : f < k1.out_type_.length := lt_length_of_getElem? _ _ _ hty
  have hr : r < records.length := lt_length_of_getElem? _ _ _ hrec
  have hbody : ∀ t, recordBody P k1 records record_defaults r t
      = checkAndConvert P k1 record_defaults fields r t := by
    intro t
    unfold recordBody
    rw [hrec]
    simp only [hscan]
  refine ⟨fun Q ctx => convertField_default Q record_defaults dtype f r d ctx hfour hdef,
    ?_, ?_⟩
  · intro k' ctx' h
    rw [Compute_resolved P k k1 c0 records record_defaults fi hres] at h
    cases hl : forLoop (recordBody P k1 records record_defaults) records.length 0
        (allocate k1 records c0) with
    | next c =>
      rw [hl] at h
      have e : (k1, c) = (k', ctx') := Flow.next.inj h
      have e2 : c = ctx' := congrArg Prod.snd e
      subst e2
      have := forLoop_next_inv (recordBody P k1 records record_defaults)
        (fun j s => r < j → cell s f r = some (some d)) records.length 0
        (allocate k1 records c0) c (fun h0 => absurd h0 (Nat.not_lt_zero _))
        (fun j t t' _ _ ht hb hlt => by
          by_cases hj : j = r
          · subst hj
            rw [hbody] at hb
            unfold checkAndConvert at hb
            by_cases hn : fields.length = toSizeT k1.num_first_n_columns_to_extract_
            · rw [if_pos hn] at hb
              exact columns_default P k1 record_defaults fields j f dtype d src hty hfour
                hdef hsrc hempty _ t t' hb hf
            · rw [if_neg hn] at hb
              cases hb
          · rw [recordBody_frame P k1 records record_defaults t t' j (Or.inl hb) f r
              (fun hh => hj hh.symm)]
            exact ht (by omega)) hl
      exact this (by omega)
    | ret c => rw [hl] at h; cases h
    | undefined => rw [hl] at h; cases h
  · intro k' ctx' v h hv
    rw [Compute_resolved P k k1 c0 records record_defaults fi hres] at h
    cases hl : forLoop (recordBody P k1 records record_defaults) records.length 0
        (allocate k1 records c0) with
    | next c => rw [hl] at h; cases h
    | ret c =>
      rw [hl] at h
      have e : (k1, c) = (k', ctx') := Flow.ret.inj h
      have e2 : c = ctx' := congrArg Prod.snd e
      subst e2
      refine forLoop_inv (recordBody P k1 records record_defaults)
        (fun s => ∀ v, cell s f r = some (some v) → v = d) records.length 0
        (allocate k1 records c0) c
        (fun v hv => absurd hv (cell_allocate k1 records c0 f r v)) ?_ (Or.inr hl) v hv
      intro j t t' _ _ ht hb w hw
      by_cases hj : j = r
      · subst hj
        rw [hbody] at hb
        unfold checkAndConvert at hb
        by_cases hn : fields.length = toSizeT k1.num_first_n_columns_to_extract_
        · rw [if_pos hn] at hb
          exact columns_only_default P k1 record_defaults fields j f dtype d src hty hfour
            hdef hsrc hempty _ t t' hb ht w hw
        · rw [if_neg hn] at hb
          rcases hb with hb | hb
          · cases hb
          · have e : CtxFailure t _ = t' := Flow.ret.inj hb
            subst e
            exact ht w hw
      · rw [recordBody_frame P k1 records record_defaults t t' j hb f r
          (fun hh => hj hh.symm)] at hw
        exact ht w hw
    | undefined => rw [hl] at h; cases h

theorem default_substitution_witness :
    (∀ (Q : Numbers) (ctx : Context),
      convertField Q [[], [.float 1091567616], []] .DT_FLOAT [] 1 0 ctx
        = writeOutput ctx 1 0 (.float 1091567616)) ∧
    (∀ k' ctx', Compute digitNumbers ⟨[.DT_INT32, .DT_FLOAT, .DT_STRING], ',', [], -1⟩
        ["5,,z".data] [[], [.float 1091567616], []] [] = .next (k', ctx') →
      cell ctx' 1 0 = some (some (.float 1091567616))) ∧
    (∀ k' ctx' v, Compute digitNumbers ⟨[.DT_INT32, .DT_FLOAT, .DT_STRING], ',', [], -1⟩
        ["5,,z".data] [[], [.float 1091567616], []] [] = .ret (k', ctx') →
      cell ctx' 1 0 = some (some v) → v = .float 1091567616) :=
  default_substitution digitNumbers ⟨[.DT_INT32, .DT_FLOAT, .DT_STRING], ',', [], -1⟩
    ⟨[.DT_INT32, .DT_FLOAT, .DT_STRING], ',', [0, 1, 2], 3⟩ ⟨[], []⟩
    ["5,,z".data] [[], [.float 1091567616], []] [] 1 0 .DT_FLOAT (.float 1091567616)
    "5,,z".data 5 ["5".data, [], "z".data] 1
    (by decide) (by decide) (by decide) (by decide) (by decide) (by decide) (by decide)
    (by decide)

/-! ## Required fields -/

theorem convertField_required (Q : Numbers) (record_defaults : List (List Scalar))
    (dtype : DataType) (f i : Nat) (ctx : Context)
    (hfour : dtype = .DT_FLOAT ∨ dtype = .DT_INT32 ∨ dtype = .DT_INT64 ∨ dtype = .DT_STRING)
    (hdef : record_defaults[f]? = some []) :
    convertField Q record_defaults dtype [] f i ctx
      = .ret (CtxFailure ctx (.requiredMissing f i)) := by
  rcases hfour with h | h | h | h <;> subst h <;>
    simp [convertField, useDefault, hdef]

/-- C6: for a resolved schema, a column f of one of the four types with no default scalar,
and a record r whose scan leaves an empty field at the source position of column f: the
switch hands the required-but-missing failure for f and r to the context, whatever the
conversion routines are, and assigns nothing; Compute never completes; and when the records
before r decode and the columns before f convert, Compute returns with that failure as the
last one handed to the context and with output[f][r] never assigned. -/
theorem required_field_missing (P : Numbers) (k k1 : Kernel) (c0 : Context)
    (records : List (List Char)) (record_defaults : List (List Scalar)) (fi : List Int)
    (f r : Nat) (dtype : DataType) (record : List Char) (fields : List (List Char))
    (src : Int)
    (hres : resolve k ⟨[], []⟩ record_defaults fi = .next (k1, c0))
    (hty : k1.out_type_[f]? = some dtype)
    (hfour : dtype = .DT_FLOAT ∨ dtype = .DT_INT32 ∨ dtype = .DT_INT64 ∨ dtype = .DT_STRING)
    (hdef : record_defaults[f]? = some [])
    (hrec : records[r]? = some record)
    (hscan : (∃ idx, ExtractFields record k1.delim_
        (toSizeT k1.num_first_n_columns_to_extract_) = .done idx fields) ∨
      (∃ e, ExtractFields record k1.delim_
        (toSizeT k1.num_first_n_columns_to_extract_) = .failed e fields))
    (hsrc : k1.field_indices_vec_[f]? = some src)
    (hempty : fields[toSizeT src]? = some []) :
    (∀ (Q : Numbers) (ctx : Context),
      convertField Q record_defaults dtype [] f r ctx
        = .ret (CtxFailure ctx (.requiredMissing f r))) ∧
    (∀ s, Compute P k records record_defaults fi ≠ .next s) ∧
    (∀ ctx_r c_f idx,
      ExtractFields record k1.delim_ (toSizeT k1.num_first_n_columns_to_extract_)
        = .done idx fields →
      fields.length = toSizeT k1.num_first_n_columns_to_extract_ →
      forLoop (recordBody P k1 records record_defaults) r 0 (allocate k1 records c0)
        = .next ctx_r →
      forLoop (fieldBody P k1 record_defaults fields r) f 0 ctx_r = .next c_f →
      Compute P k records record_defaults fi
        = .ret (k1, CtxFailure c_f (.requiredMissing f r)) ∧
      ∀ v, cell (CtxFailure c_f (.requiredMissing f r)) f r ≠ some (some v)) := by
  have hf : f < k1.out_type_.length := lt_length_of_getElem? _ _ _ hty
  have hr : r < records.length := lt_length_of_getElem? _ _ _ hrec
  have hfield : ∀ t, fieldBody P k1 record_defaults fields r f t
      = .ret (CtxFailure t (.requiredMissing f r)) := by
    intro t
    rw [fieldBody_at P k1 record_defaults fields r f t dtype src [] hty hsrc hempty]
    exact convertField_required P record_defaults dtype f r t hfour hdef
  have hcheck : ∀ t t', checkAndConvert P k1 record_defaults fields r t ≠ .next t' := by
    intro t t' h
    unfold checkAndConvert at h
    by_cases hn : fields.length = toSizeT k1.num_first_n_columns_to_extract_
    · rw [if_pos hn] at h
      exact forLoop_blocked (fieldBody P k1 record_defaults fields r) f
        (fun u u' hu => by rw [hfield] at hu; cases hu)
        k1.out_type_.length 0 t t' (Nat.zero_le _) (by omega) h
    · rw [if_neg hn] at h
      cases h
  refine ⟨fun Q ctx => convertField_required Q record_defaults dtype f r ctx hfour hdef,
    ?_, ?_⟩
  · intro s h
    rw [Compute_resolved P k k1 c0 records record_defaults fi hres] at h
    cases hl : forLoop (recordBody P k1 records record_defaults) records.length 0
        (allocate k1 records c0) with
    | next c =>
      refine forLoop_blocked (recordBody P k1 records record_defaults) r ?_
        records.length 0 _ c (Nat.zero_le _) (by omega) hl
      intro t t' ht
      unfold recordBody at ht
      rw [hrec] at ht
      rcases hscan with ⟨idx, hs⟩ | ⟨e, hs⟩
      · simp only [hs] at ht
        exact hcheck _ _ ht
      · simp only [hs] at ht
        exact hcheck _ _ ht
    | ret c => rw [hl] at h; cases h
    | undefined => rw [hl] at h; cases h
  · intro ctx_r c_f idx hs hn hloop hcols
    have hcol : forLoop (fieldBody P k1 record_defaults fields r) k1.out_type_.length 0 ctx_r
        = .ret (CtxFailure c_f (.requiredMissing f r)) :=
      forLoop_ret_at _ _ f 0 ctx_r c_f _ hf hcols (by rw [Nat.zero_add]; exact hfield c_f)
    have hbody : recordBody P k1 records record_defaults (0 + r) ctx_r
        = .ret (CtxFailure c_f (.requiredMissing f r)) := by
      rw [Nat.zero_add]
      unfold recordBody
      rw [hrec]
      simp only [hs]
      unfold checkAndConvert
      rw [if_pos hn]
      exact hcol
    constructor
    · rw [Compute_resolved P k k1 c0 records record_defaults fi hres,
        forLoop_ret_at _ _ r 0 _ ctx_r _ hr hloop hbody]
    · intro v hv
      rw [cell_CtxFailure] at hv
      have h1 := forLoop_next_inv (fieldBody P k1 record_defaults fields r)
        (fun _ s => cell s f r = cell ctx_r f r) f 0 ctx_r c_f rfl
        (fun j t t' _ hj ht hb => by
          show cell t' f r = cell ctx_r f r
          rw [fieldBody_frame P k1 record_defaults fields t t' r j (Or.inl hb) f r
            (fun hh => by omega)]
          exact ht) hcols
      have h2 := forLoop_next_inv (recordBody P k1 records record_defaults)
        (fun _ s => cell s f r = cell (allocate k1 records c0) f r) r 0 _ ctx_r rfl
        (fun j t t' _ hj ht hb => by
          show cell t' f r = cell (allocate k1 records c0) f r
          rw [recordBody_frame P k1 records record_defaults t t' j (Or.inl hb) f r
            (by omega)]
          exact ht) hloop
      simp only at h1 h2
      rw [h1, h2] at hv
      exact cell_allocate k1 records c0 f r v hv

theorem required_field_missing_witness :
    Compute digitNumbers ⟨[.DT_INT32, .DT_FLOAT, .DT_STRING], ',', [], -1⟩
        ["5,,z".data] [[], [], []] []
      = .ret (⟨[.DT_INT32, .DT_FLOAT, .DT_STRING], ',', [0, 1, 2], 3⟩,
          CtxFailure ⟨[], [[some (.int32 5)], [none], [none]]⟩ (.requiredMissing 1 0)) ∧
    ∀ v, cell (CtxFailure ⟨[], [[some (.int32 5)], [none], [none]]⟩ (.requiredMissing 1 0)) 1 0
      ≠ some (some v) :=
  (required_field_missing digitNumbers ⟨[.DT_INT32, .DT_FLOAT, .DT_STRING], ',', [], -1⟩
    ⟨[.DT_INT32, .DT_FLOAT, .DT_STRING], ',', [0, 1, 2], 3⟩ ⟨[], []⟩
    ["5,,z".data] [[], [], []] [] 1 0 .DT_FLOAT "5,,z".data ["5".data, [], "z".data] 1
    (by decide) (by decide) (by decide) (by decide) (by decide)
    (Or.inl ⟨5, by decide⟩) (by decide) (by decide)).2.2
    ⟨[], [[none], [none], [none]]⟩ ⟨[], [[some (.int32 5)], [none], [none]]⟩ 5
    (by decide) (by decide) (by decide) (by decide)

/-! ## The field-count check -/

theorem recordBody_too_few (P : Numbers) (k1 : Kernel) (records : List (List Char))
    (record_defaults : List (List Scalar)) (r : Nat) (record : List Char)
    (fields : List (List Char)) (es : List Err) (ctx : Context)
    (hrec : records[r]? = some record)
    (hscan : (es = [] ∧ ∃ idx, ExtractFields record k1.delim_
        (toSizeT k1.num_first_n_columns_to_extract_) = .done idx fields) ∨
      (∃ e, es = [e] ∧ ExtractFields record k1.delim_
        (toSizeT k1.num_first_n_columns_to_extract_) = .failed e fields))
    (hfew : fields.length < toSizeT k1.num_first_n_columns_to_extract_) :
    recordBody P k1 records record_defaults r ctx
      = .ret ⟨ctx.failures ++ es ++
          [.fieldCount k1.num_first_n_columns_to_extract_ fields.length r], ctx.output⟩ := by
  have hn : ¬ fields.length = toSizeT k1.num_first_n_columns_to_extract_ := by omega
  unfold recordBody
  rw [hrec]
  rcases hscan with ⟨rfl, idx, hs⟩ | ⟨e, rfl, hs⟩
  · simp only [hs]
    unfold checkAndConvert
    rw [if_neg hn]
    simp [CtxFailure]
  · simp only [hs]
    unfold checkAndConvert
    rw [if_neg hn]
    simp [CtxFailure]

/-- C10: for a resolved schema and a record whose scan leaves fewer fields than the bound
(with or without a format error), decoding that record returns from Compute with the
field-count failure handed to the context last and no output slot assigned; Compute never
completes on a batch holding such a record; when the records before it decode, Compute
returns with exactly that outcome. An empty record is rejected in this way whenever the
bound is positive, whatever the defaults are, and so is the record 1,2 under field_indices
[2]. -/
theorem too_few_fields_is_fatal :
    (∀ (P : Numbers) (k k1 : Kernel) (c0 : Context) (records : List (List Char))
        (record_defaults : List (List Scalar)) (fi : List Int) (r : Nat) (record : List Char)
        (fields : List (List Char)) (es : List Err),
      resolve k ⟨[], []⟩ record_defaults fi = .next (k1, c0) →
      records[r]? = some record →
      ((es = [] ∧ ∃ idx, ExtractFields record k1.delim_
          (toSizeT k1.num_first_n_columns_to_extract_) = .done idx fields) ∨
        (∃ e, es = [e] ∧ ExtractFields record k1.delim_
          (toSizeT k1.num_first_n_columns_to_extract_) = .failed e fields)) →
      fields.length < toSizeT k1.num_first_n_columns_to_extract_ →
      (∀ ctx, recordBody P k1 records record_defaults r ctx
        = .ret ⟨ctx.failures ++ es ++
            [.fieldCount k1.num_first_n_columns_to_extract_ fields.length r], ctx.output⟩) ∧
      (∀ s, Compute P k records record_defaults fi ≠ .next s) ∧
      (∀ ctx_r, forLoop (recordBody P k1 records record_defaults) r 0
          (allocate k1 records c0) = .next ctx_r →
        Compute P k records record_defaults fi
          = .ret (k1, ⟨ctx_r.failures ++ es ++
              [.fieldCount k1.num_first_n_columns_to_extract_ fields.length r],
              ctx_r.output⟩))) ∧
    (∀ (P : Numbers) (k1 : Kernel) (records : List (List Char))
        (record_defaults : List (List Scalar)) (r : Nat) (ctx : Context),
      records[r]? = some [] → 0 < toSizeT k1.num_first_n_columns_to_extract_ →
      recordBody P k1 records record_defaults r ctx
        = .ret ⟨ctx.failures ++ [.fieldCount k1.num_first_n_columns_to_extract_ 0 r],
            ctx.output⟩) ∧
    Compute digitNumbers ⟨[.DT_INT32], ',', [], -1⟩ ["1,2".data] [[]] [2]
      = .ret (⟨[.DT_INT32], ',', [2], 3⟩, ⟨[.fieldCount 3 2 0], [[none]]⟩) := by
  refine ⟨?_, ?_, by decide⟩
  · intro P k k1 c0 records record_defaults fi r record fields es hres hrec hscan hfew
    have hr : r < records.length := lt_length_of_getElem? _ _ _ hrec
    have hbody := fun ctx => recordBody_too_few P k1 records record_defaults r record fields
      es ctx hrec hscan hfew
    refine ⟨hbody, ?_, ?_⟩
    · intro s h
      rw [Compute_resolved P k k1 c0 records record_defaults fi hres] at h
      cases hl : forLoop (recordBody P k1 records record_defaults) records.length 0
          (allocate k1 records c0) with
      | next c =>
        exact forLoop_blocked (recordBody P k1 records record_defaults) r
          (fun t t' ht => by rw [hbody] at ht; cases ht)
          records.length 0 _ c (Nat.zero_le _) (by omega) hl
      | ret c => rw [hl] at h; cases h
      | undefined => rw [hl] at h; cases h
    · intro ctx_r hloop
      rw [Compute_resolved P k k1 c0 records record_defaults fi hres,
        forLoop_ret_at _ _ r 0 _ ctx_r _ hr hloop (by rw [Nat.zero_add]; exact hbody ctx_r)]
  · intro P k1 records record_defaults r ctx hrec hpos
    have := recordBody_too_few P k1 records record_defaults r [] [] [] ctx hrec
      (Or.inl ⟨rfl, 0, by simp [ExtractFields]⟩) (by simpa using hpos)
    simpa using this

theorem too_few_fields_is_fatal_witness :
    Compute digitNumbers ⟨[.DT_INT32], ',', [], -1⟩ ["7".data, []] [[.int32 4]] []
      = .ret (⟨[.DT_INT32], ',', [0], 1⟩,
          ⟨[] ++ [] ++ [.fieldCount 1 0 1], [[some (.int32 7), none]]⟩) :=
  (too_few_fields_is_fatal.1 digitNumbers ⟨[.DT_INT32], ',', [], -1⟩
    ⟨[.DT_INT32], ',', [0], 1⟩ ⟨[], []⟩ ["7".data, []] [[.int32 4]] [] 1 [] [] []
    (by decide) (by decide) (Or.inl ⟨rfl, 0, by decide⟩) (by decide)).2.2
    ⟨[], [[some (.int32 7), none]]⟩ (by decide)

/-! ## The bound below the largest int -/

theorem wrapInt32_of_range (x : Int) (h0 : 0 ≤ x) (h1 : x < 2 ^ 31) : wrapInt32 x = x := by
  unfold wrapInt32
  omega

/-- The bound formula for indices whose successor fits a 32-bit int: schema resolution
records 1 + the largest resolved index, 0 for no column, and M for the empty index list. -/
theorem bound_formula_in_range (k : Kernel) (ctx : Context)
    (record_defaults : List (List Scalar)) (fi : List Int)
    (hk : k.num_first_n_columns_to_extract_ < 0)
    (hd : ∀ d ∈ record_defaults, d.length < 2)
    (hlen : fi = [] ∨ fi.length = record_defaults.length)
    (hpos : ∀ x ∈ fi, 0 ≤ x) (hrange : ∀ x ∈ fi, x < 2 ^ 31 - 1)
    (hM : record_defaults.length < 2 ^ 31) :
    ∃ k', resolve k ctx record_defaults fi = .next (k', ctx) ∧
      (record_defaults.length = 0 → k'.num_first_n_columns_to_extract_ = 0) ∧
      (fi = [] → k'.num_first_n_columns_to_extract_ = record_defaults.length) ∧
      (0 < record_defaults.length → ∃ m ∈ k'.field_indices_vec_,
        (∀ x ∈ k'.field_indices_vec_, x ≤ m) ∧
        k'.num_first_n_columns_to_extract_ = 1 + m) := by
  by_cases hM0 : record_defaults.length = 0
  · have hnil : record_defaults = [] := List.length_eq_zero.1 hM0
    have hfi : fi = [] := by
      rcases hlen with h | h
      · exact h
      · exact List.length_eq_zero.1 (by rw [h, hM0])
    subst hnil hfi
    refine ⟨{ k with field_indices_vec_ := []
                     num_first_n_columns_to_extract_ := 0 }, ?_, fun _ => rfl,
      fun _ => rfl, fun h => absurd h (by simp)⟩
    unfold resolve
    rw [if_pos hk]
    simp [forLoop, resize, finishResolve, wrapInt32]
  · by_cases hne : fi = []
    · subst hne
      have hne' : identityIndices record_defaults.length ≠ [] := by
        intro h
        have := length_identityIndices record_defaults.length
        rw [h] at this
        exact hM0 this.symm
      obtain ⟨m, hm, hmem, hmax⟩ := resolve_requested k ctx record_defaults
        (identityIndices record_defaults.length) hk hd hne'
        (length_identityIndices _) (identityIndices_nonneg _)
      have hlast : Int.ofNat (record_defaults.length - 1)
          ∈ identityIndices record_defaults.length := by
        simp only [identityIndices, List.mem_map, List.mem_range]
        exact ⟨record_defaults.length - 1, by omega, rfl⟩
      have h1 := hmax _ hlast
      simp only [identityIndices, List.mem_map, List.mem_range] at hmem
      obtain ⟨n, hn, hnm⟩ := hmem
      have hm1 : m + 1 = (record_defaults.length : Int) := by
        have : Int.ofNat n = (n : Int) := rfl
        have : Int.ofNat (record_defaults.length - 1)
            = ((record_defaults.length - 1 : Nat) : Int) := rfl
        omega
      have hw : wrapInt32 (m + 1) = (record_defaults.length : Int) := by
        rw [hm1]
        exact wrapInt32_of_range _ (by omega) (by omega)
      rw [resolve_empty_eq_identity, hm, hw]
      refine ⟨_, rfl, fun h => absurd h hM0, fun _ => rfl, fun _ => ⟨m, ?_, hmax, ?_⟩⟩
      · simp only [identityIndices, List.mem_map, List.mem_range]
        exact ⟨n, hn, hnm⟩
      · simp only
        omega
    · have hl : fi.length = record_defaults.length := by
        rcases hlen with h | h
        · exact absurd h hne
        · exact h
      obtain ⟨m, hm, hmem, hmax⟩ := resolve_requested k ctx record_defaults fi hk hd hne hl
        hpos
      have hw : wrapInt32 (m + 1) = m + 1 :=
        wrapInt32_of_range _ (by have := hpos m hmem; omega)
          (by have := hrange m hmem; omega)
      rw [hm, hw]
      exact ⟨_, rfl, fun h => absurd h hM0, fun h => absurd h hne,
        fun _ => ⟨m, hmem, hmax, by simp only; omega⟩⟩

/-! ## The scan returns: bounds on reads, progress and fuel -/

theorem unquotedLoop_total (input : List Char) (d : Char) :
    ∀ (fuel idx : Nat) (field : List Char), input.length - idx ≤ fuel →
      (∃ idx' field', unquotedLoop input d fuel idx field = .done idx' field' ∧ idx ≤ idx') ∨
      unquotedLoop input d fuel idx field = .failed .unquotedHasQuoteOrCRLF := by
  intro fuel
  induction fuel with
  | zero =>
    intro idx field hfuel
    have hge : ¬ idx < input.length := by omega
    left
    refine ⟨idx, field, ?_, le_refl _⟩
    unfold unquotedLoop
    rw [if_neg hge]
  | succ fuel ih =>
    intro idx field hfuel
    unfold unquotedLoop
    by_cases hlt : idx < input.length
    · rw [if_pos hlt, List.getElem?_eq_getElem hlt]
      simp only
      by_cases hc : input[idx] ≠ d
      · rw [if_pos hc]
        by_cases hq : input[idx] ≠ '"' ∧ input[idx] ≠ '\n' ∧ input[idx] ≠ '\r'
        · rw [if_pos hq]
          rcases ih (idx + 1) (field ++ [input[idx]]) (by omega) with ⟨i', f', h, hle⟩ | h
          · exact Or.inl ⟨i', f', h, by omega⟩
          · exact Or.inr h
        · rw [if_neg hq]
          exact Or.inr rfl
      · rw [if_neg hc]
        exact Or.inl ⟨idx, field, rfl, le_refl _⟩
    · rw [if_neg hlt]
      exact Or.inl ⟨idx, field, rfl, le_refl _⟩

theorem quotedLoop_total (input : List Char) (d : Char) :
    ∀ (fuel idx : Nat) (field : List Char), input.length - idx ≤ fuel →
      (∃ idx' field', quotedLoop input d fuel idx field = .done idx' field' ∧ idx ≤ idx') ∨
      quotedLoop input d fuel idx field = .failed .quoteNotEscaped := by
  intro fuel
  induction fuel with
  | zero =>
    intro idx field hfuel
    have hge : ¬ idx < input.length - 1 := by omega
    left
    refine ⟨idx, field, ?_, le_refl _⟩
    unfold quotedLoop
    rw [if_neg hge]
  | succ fuel ih =>
    intro idx field hfuel
    unfold quotedLoop
    by_cases hlt : idx < input.length - 1
    · have h0 : idx < input.length := by omega
      have h1 : idx + 1 < input.length := by omega
      rw [if_pos hlt, List.getElem?_eq_getElem h0, List.getElem?_eq_getElem h1]
      simp only
      by_cases hc : input[idx] ≠ '"' ∨ input[idx + 1] ≠ d
      · rw [if_pos hc]
        by_cases hq : input[idx] ≠ '"'
        · rw [if_pos hq]
          rcases ih (idx + 1) (field ++ [input[idx]]) (by omega) with ⟨i', f', h, hle⟩ | h
          · exact Or.inl ⟨i', f', h, by omega⟩
          · exact Or.inr h
        · rw [if_neg hq]
          by_cases hd : input[idx + 1] = '"'
          · rw [if_pos hd]
            rcases ih (idx + 2) (field ++ ['"']) (by omega) with ⟨i', f', h, hle⟩ | h
            · exact Or.inl ⟨i', f', h, by omega⟩
            · exact Or.inr h
          · rw [if_neg hd]
            exact Or.inr rfl
      · rw [if_neg hc]
        exact Or.inl ⟨idx, field, rfl, le_refl _⟩
    · rw [if_neg hlt]
      exact Or.inl ⟨idx, field, rfl, le_refl _⟩

theorem closingQuote_total (input : List Char) (d : Char) (idx : Nat) :
    ∃ b, closingQuote input d idx = some b ∧ (b = true → idx < input.length) := by
  unfold closingQuote
  by_cases hlt : idx < input.length
  · rw [if_pos hlt, List.getElem?_eq_getElem hlt]
    simp only
    by_cases hq : input[idx] = '"'
    · rw [if_pos hq]
      by_cases he : idx = input.length - 1
      · rw [if_pos he]
        exact ⟨true, rfl, fun _ => hlt⟩
      · have h1 : idx + 1 < input.length := by omega
        rw [if_neg he, List.getElem?_eq_getElem h1]
        exact ⟨_, rfl, fun _ => hlt⟩
    · rw [if_neg hq]
      exact ⟨false, rfl, fun h => by cases h⟩
  · rw [if_neg hlt]
    exact ⟨false, rfl, fun h => by cases h⟩

/-- The three statuses raised inside ExtractFields. -/
theorem mainLoop_total (input : List Char) (d : Char) (bound : Nat) :
    ∀ (fuel idx : Nat) (result : List (List Char)), input.length - idx ≤ fuel →
      (∃ idx' res', mainLoop input d bound fuel idx result = .done idx' res' ∧ idx ≤ idx' ∧
        res'.length ≤ max result.length bound) ∨
      (∃ e res', mainLoop input d bound fuel idx result = .failed e res' ∧
        res'.length < bound ∧
        (e = .unquotedHasQuoteOrCRLF ∨ e = .quoteNotEscaped ∨ e = .quotedFieldBadEnd)) := by
  intro fuel
  induction fuel with
  | zero =>
    intro idx result hfuel
    have hge : ¬ (idx < input.length ∧ result.length < bound) := by omega
    left
    refine ⟨idx, result, ?_, le_refl _, le_max_left _ _⟩
    unfold mainLoop
    rw [if_neg hge]
  | succ fuel ih =>
    intro idx result hfuel
    unfold mainLoop
    by_cases hg : idx < input.length ∧ result.length < bound
    · rw [if_pos hg, List.getElem?_eq_getElem hg.1]
      simp only
      have hnext : ∀ (idx2 : Nat) (f : List Char), idx < idx2 →
          (∃ idx' res', mainLoop input d bound fuel idx2 (result ++ [f]) = .done idx' res' ∧
            idx ≤ idx' ∧ res'.length ≤ max result.length bound) ∨
          (∃ e res', mainLoop input d bound fuel idx2 (result ++ [f]) = .failed e res' ∧
            res'.length < bound ∧
            (e = .unquotedHasQuoteOrCRLF ∨ e = .quoteNotEscaped ∨ e = .quotedFieldBadEnd)) := by
        intro idx2 f hlt
        rcases ih idx2 (result ++ [f]) (by omega) with ⟨i', r', h, hle, hlen⟩ | h
        · refine Or.inl ⟨i', r', h, by omega, ?_⟩
          simp only [List.length_append, List.length_cons, List.length_nil] at hlen
          have := hg.2
          omega
        · exact Or.inr h
      by_cases hnl : input[idx] = '\n' ∨ input[idx] = '\r'
      · rw [if_pos hnl]
        rcases ih (idx + 1) result (by omega) with ⟨i', r', h, hle, hlen⟩ | h
        · exact Or.inl ⟨i', r', h, by omega, hlen⟩
        · exact Or.inr h
      · rw [if_neg hnl]
        by_cases hq : input[idx] ≠ '"'
        · rw [if_pos hq]
          rcases unquotedLoop_total input d input.length idx [] (by omega)
            with ⟨i1, f1, h1, hle1⟩ | h1
          · rw [h1]
            exact hnext (i1 + 1) f1 (by omega)
          · rw [h1]
            exact Or.inr ⟨_, result, rfl, hg.2, Or.inl rfl⟩
        · rw [if_neg hq]
          rcases quotedLoop_total input d input.length (idx + 1) [] (by omega)
            with ⟨i1, f1, h1, hle1⟩ | h1
          · rw [h1]
            obtain ⟨b, hb, _⟩ := closingQuote_total input d i1
            simp only [hb]
            cases b with
            | true => exact hnext (i1 + 2) f1 (by omega)
            | false => exact Or.inr ⟨_, result, rfl, hg.2, Or.inr (Or.inr rfl)⟩
          · rw [h1]
            exact Or.inr ⟨_, result, rfl, hg.2, Or.inr (Or.inl rfl)⟩
    · rw [if_neg hg]
      exact Or.inl ⟨idx, result, rfl, le_refl _, le_max_left _ _⟩

/-- ExtractFields always returns: without a failure and with at most one field more than
the bound, or with one of its three failures and fewer fields than the bound. -/
theorem ExtractFields_total (input : List Char) (d : Char) (bound : Nat) :
    (∃ idx fields, ExtractFields input d bound = .done idx fields ∧
      fields.length ≤ bound + 1) ∨
    (∃ e fields, ExtractFields input d bound = .failed e fields ∧ fields.length < bound ∧
      (e = .unquotedHasQuoteOrCRLF ∨ e = .quoteNotEscaped ∨ e = .quotedFieldBadEnd)) := by
  unfold ExtractFields
  by_cases hne : input ≠ []
  · rw [if_pos hne]
    have hpos : 0 < input.length := List.length_pos.2 hne
    rcases mainLoop_total input d bound input.length 0 [] (by omega)
      with ⟨i', r', h, _, hlen⟩ | ⟨e, r', h, hlen, he⟩
    · rw [h]
      simp only
      rw [List.getElem?_eq_getElem (by omega : input.length - 1 < input.length)]
      simp only [List.length_nil] at hlen
      simp only
      have hlen' : r'.length ≤ bound := by omega
      by_cases hc : input[input.length - 1] = d
      · rw [if_pos hc]
        exact Or.inl ⟨_, _, rfl, by simp; omega⟩
      · rw [if_neg hc]
        exact Or.inl ⟨_, _, rfl, by omega⟩
    · rw [h]
      exact Or.inr ⟨e, r', rfl, hlen, he⟩
  · rw [if_neg hne]
    exact Or.inl ⟨0, [], rfl, by simp⟩

theorem unquotedLoop_reads (input : List Char) (d : Char) :
    ∀ (fuel idx : Nat) (field : List Char),
      unquotedLoop input d fuel idx field ≠ .outOfBounds := by
  intro fuel
  induction fuel with
  | zero =>
    intro idx field
    unfold unquotedLoop
    by_cases hlt : idx < input.length
    · rw [if_pos hlt, List.getElem?_eq_getElem hlt]
      simp only
      split <;> simp
    · rw [if_neg hlt]
      simp
  | succ fuel ih =>
    intro idx field
    unfold unquotedLoop
    by_cases hlt : idx < input.length
    · rw [if_pos hlt, List.getElem?_eq_getElem hlt]
      simp only
      split
      · split
        · exact ih _ _
        · simp
      · simp
    · rw [if_neg hlt]
      simp

theorem quotedLoop_reads (input : List Char) (d : Char) :
    ∀ (fuel idx : Nat) (field : List Char),
      quotedLoop input d fuel idx field ≠ .outOfBounds := by
  intro fuel
  induction fuel with
  | zero =>
    intro idx field
    unfold quotedLoop
    by_cases hlt : idx < input.length - 1
    · rw [if_pos hlt, List.getElem?_eq_getElem (by omega : idx < input.length),
        List.getElem?_eq_getElem (by omega : idx + 1 < input.length)]
      simp only
      split <;> simp
    · rw [if_neg hlt]
      simp
  | succ fuel ih =>
    intro idx field
    unfold quotedLoop
    by_cases hlt : idx < input.length - 1
    · rw [if_pos hlt, List.getElem?_eq_getElem (by omega : idx < input.length),
        List.getElem?_eq_getElem (by omega : idx + 1 < input.length)]
      simp only
      split
      · split
        · exact ih _ _
        · split
          · exact ih _ _
          · simp
      · simp
    · rw [if_neg hlt]
      simp

theorem mainLoop_reads (input : List Char) (d : Char) (bound : Nat) :
    ∀ (fuel idx : Nat) (result : List (List Char)),
      mainLoop input d bound fuel idx result ≠ .outOfBounds := by
  intro fuel
  induction fuel with
  | zero =>
    intro idx result
    unfold mainLoop
    split <;> simp
  | succ fuel ih =>
    intro idx result
    unfold mainLoop
    by_cases hg : idx < input.length ∧ result.length < bound
    · rw [if_pos hg, List.getElem?_eq_getElem hg.1]
      simp only
      split
      · exact ih _ _
      · split
        · cases hu : unquotedLoop input d input.length idx [] with
          | done i f => exact ih _ _
          | failed e => simp
          | outOfBounds => exact absurd hu (unquotedLoop_reads input d _ _ _)
          | outOfFuel => simp
        · cases hq : quotedLoop input d input.length (idx + 1) [] with
          | done i f =>
            obtain ⟨b, hb, _⟩ := closingQuote_total input d i
            simp only [hb]
            cases b with
            | true => exact ih _ _
            | false => simp
          | failed e => simp
          | outOfBounds => exact absurd hq (quotedLoop_reads input d _ _ _)
          | outOfFuel => simp
    · rw [if_neg hg]
      simp

theorem unquotedLoop_step (input : List Char) (d : Char) (fuel idx : Nat)
    (field : List Char) :
    unquotedLoop input d (fuel + 1) idx field = .done idx field ∨
    unquotedLoop input d (fuel + 1) idx field = .failed .unquotedHasQuoteOrCRLF ∨
    ∃ field', unquotedLoop input d (fuel + 1) idx field
      = unquotedLoop input d fuel (idx + 1) field' := by
  rw [unquotedLoop]
  by_cases hlt : idx < input.length
  · rw [if_pos hlt, List.getElem?_eq_getElem hlt]
    simp only
    by_cases hc : input[idx] ≠ d
    · rw [if_pos hc]
      by_cases hq : input[idx] ≠ '"' ∧ input[idx] ≠ '\n' ∧ input[idx] ≠ '\r'
      · rw [if_pos hq]
        exact Or.inr (Or.inr ⟨_, rfl⟩)
      · rw [if_neg hq]
        exact Or.inr (Or.inl rfl)
    · rw [if_neg hc]
      exact Or.inl rfl
  · rw [if_neg hlt]
    exact Or.inl rfl

theorem quotedLoop_step (input : List Char) (d : Char) (fuel idx : Nat)
    (field : List Char) :
    quotedLoop input d (fuel + 1) idx field = .done idx field ∨
    quotedLoop input d (fuel + 1) idx field = .failed .quoteNotEscaped ∨
    ∃ idx2 field', idx < idx2 ∧ quotedLoop input d (fuel + 1) idx field
      = quotedLoop input d fuel idx2 field' := by
  rw [quotedLoop]
  by_cases hlt : idx < input.length - 1
  · rw [if_pos hlt, List.getElem?_eq_getElem (by omega : idx < input.length),
      List.getElem?_eq_getElem (by omega : idx + 1 < input.length)]
    simp only
    by_cases hc : input[idx] ≠ '"' ∨ input[idx + 1] ≠ d
    · rw [if_pos hc]
      by_cases hq : input[idx] ≠ '"'
      · rw [if_pos hq]
        exact Or.inr (Or.inr ⟨idx + 1, _, by omega, rfl⟩)
      · rw [if_neg hq]
        by_cases hd : input[idx + 1] = '"'
        · rw [if_pos hd]
          exact Or.inr (Or.inr ⟨idx + 2, _, by omega, rfl⟩)
        · rw [if_neg hd]
          exact Or.inr (Or.inl rfl)
    · rw [if_neg hc]
      exact Or.inl rfl
  · rw [if_neg hlt]
    exact Or.inl rfl

theorem mainLoop_step (input : List Char) (d : Char) (bound fuel idx : Nat)
    (result : List (List Char)) :
    mainLoop input d bound (fuel + 1) idx result = .done idx result ∨
    (∃ e, mainLoop input d bound (fuel + 1) idx result = .failed e result) ∨
    ∃ idx2 result', idx < idx2 ∧ mainLoop input d bound (fuel + 1) idx result
      = mainLoop input d bound fuel idx2 result' := by
  rw [mainLoop]
  by_cases hg : idx < input.length ∧ result.length < bound
  · rw [if_pos hg, List.getElem?_eq_getElem hg.1]
    simp only
    by_cases hnl : input[idx] = '\n' ∨ input[idx] = '\r'
    · rw [if_pos hnl]
      exact Or.inr (Or.inr ⟨idx + 1, _, by omega, rfl⟩)
    · rw [if_neg hnl]
      by_cases hq : input[idx] ≠ '"'
      · rw [if_pos hq]
        rcases unquotedLoop_total input d input.length idx [] (by omega)
          with ⟨i1, f1, h1, hle1⟩ | h1
        · rw [h1]
          exact Or.inr (Or.inr ⟨i1 + 1, _, by omega, rfl⟩)
        · rw [h1]
          exact Or.inr (Or.inl ⟨_, rfl⟩)
      · rw [if_neg hq]
        rcases quotedLoop_total input d input.length (idx + 1) [] (by omega)
          with ⟨i1, f1, h1, hle1⟩ | h1
        · rw [h1]
          obtain ⟨b, hb, _⟩ := closingQuote_total input d i1
          simp only [hb]
          cases b with
          | true => exact Or.inr (Or.inr ⟨i1 + 2, _, by omega, rfl⟩)
          | false => exact Or.inr (Or.inl ⟨_, rfl⟩)
        · rw [h1]
          exact Or.inr (Or.inl ⟨_, rfl⟩)
  · rw [if_neg hg]
    exact Or.inl rfl

/-- C20: each iteration of the two field-body loops and of the main scan loop either leaves
the loop, reports an error, or goes on from a strictly larger current_idx; with the
characters from current_idx to the end of the input as fuel no loop runs out of fuel and
the index a loop ends with is not below the one it started from; ExtractFields, which
gives the main loop input.size() iterations, returns on every record. -/
theorem scan_terminates (input : List Char) (d : Char) (bound : Nat) :
    (∀ (fuel idx : Nat) (field : List Char),
      unquotedLoop input d (fuel + 1) idx field = .done idx field ∨
      unquotedLoop input d (fuel + 1) idx field = .failed .unquotedHasQuoteOrCRLF ∨
      ∃ field', unquotedLoop input d (fuel + 1) idx field
        = unquotedLoop input d fuel (idx + 1) field') ∧
    (∀ (fuel idx : Nat) (field : List Char),
      quotedLoop input d (fuel + 1) idx field = .done idx field ∨
      quotedLoop input d (fuel + 1) idx field = .failed .quoteNotEscaped ∨
      ∃ idx2 field', idx < idx2 ∧ quotedLoop input d (fuel + 1) idx field
        = quotedLoop input d fuel idx2 field') ∧
    (∀ (fuel idx : Nat) (result : List (List Char)),
      mainLoop input d bound (fuel + 1) idx result = .done idx result ∨
      (∃ e, mainLoop input d bound (fuel + 1) idx result = .failed e result) ∨
      ∃ idx2 result', idx < idx2 ∧ mainLoop input d bound (fuel + 1) idx result
        = mainLoop input d bound fuel idx2 result') ∧
    (∀ (fuel idx : Nat) (field : List Char), input.length - idx ≤ fuel →
      unquotedLoop input d fuel idx field ≠ .outOfFuel ∧
      quotedLoop input d fuel idx field ≠ .outOfFuel ∧
      (∀ idx' field', unquotedLoop input d fuel idx field = .done idx' field' → idx ≤ idx') ∧
      (∀ idx' field', quotedLoop input d fuel idx field = .done idx' field' → idx ≤ idx')) ∧
    (∀ (fuel idx : Nat) (result : List (List Char)), input.length - idx ≤ fuel →
      mainLoop input d bound fuel idx result ≠ .outOfFuel ∧
      (∀ idx' res', mainLoop input d bound fuel idx result = .done idx' res' → idx ≤ idx')) ∧
    ExtractFields input d bound ≠ .outOfFuel ∧
    ((∃ idx fields, ExtractFields input d bound = .done idx fields) ∨
      (∃ e fields, ExtractFields input d bound = .failed e fields)) := by
  refine ⟨unquotedLoop_step input d, quotedLoop_step input d, mainLoop_step input d bound,
    ?_, ?_, ?_, ?_⟩
  · intro fuel idx field hfuel
    refine ⟨?_, ?_, ?_, ?_⟩
    · rcases unquotedLoop_total input d fuel idx field hfuel with ⟨i, f, h, _⟩ | h <;>
        rw [h] <;> simp
    · rcases quotedLoop_total input d fuel idx field hfuel with ⟨i, f, h, _⟩ | h <;>
        rw [h] <;> simp
    · intro idx' field' h'
      rcases unquotedLoop_total input d fuel idx field hfuel with ⟨i, f, h, hle⟩ | h
      · rw [h] at h'
        cases h'
        exact hle
      · rw [h] at h'
        cases h'
    · intro idx' field' h'
      rcases quotedLoop_total input d fuel idx field hfuel with ⟨i, f, h, hle⟩ | h
      · rw [h] at h'
        cases h'
        exact hle
      · rw [h] at h'
        cases h'
  · intro fuel idx result hfuel
    rcases mainLoop_total input d bound fuel idx result hfuel
      with ⟨i, r, h, hle, _⟩ | ⟨e, r, h, _⟩
    · refine ⟨by rw [h]; simp, ?_⟩
      intro idx' res' h'
      rw [h] at h'
      cases h'
      exact hle
    · refine ⟨by rw [h]; simp, ?_⟩
      intro idx' res' h'
      rw [h] at h'
      cases h'
  · rcases ExtractFields_total input d bound with ⟨i, f, h, _⟩ | ⟨e, f, h, _⟩ <;>
      rw [h] <;> simp
  · rcases ExtractFields_total input d bound with ⟨i, f, h, _⟩ | ⟨e, f, h, _⟩
    · exact Or.inl ⟨i, f, h⟩
    · exact Or.inr ⟨e, f, h⟩

theorem scan_terminates_witness :
    mainLoop "a,\"b\"\n".data ',' 2 7 0 [] ≠ .outOfFuel ∧
    (∀ idx' res', mainLoop "a,\"b\"\n".data ',' 2 7 0 [] = .done idx' res' → 0 ≤ idx') :=
  (scan_terminates "a,\"b\"\n".data ',' 2).2.2.2.2.1 7 0 [] (by decide)

theorem ExtractFields_failed_short (record : List Char) (d : Char) (bound : Nat) (e : Err)
    (fields : List (List Char)) (h : ExtractFields record d bound = .failed e fields) :
    fields.length < bound ∧
      (e = .unquotedHasQuoteOrCRLF ∨ e = .quoteNotEscaped ∨ e = .quotedFieldBadEnd) := by
  rcases ExtractFields_total record d bound with ⟨i, f, h', _⟩ | ⟨e', f, h', hlen, he⟩
  · rw [h'] at h
    cases h
  · rw [h'] at h
    cases h
    exact ⟨hlen, he⟩

/-- C18: when ExtractFields returns with a format error, the field list it leaves has
fewer entries than the bound; Compute, which goes on after the call, then fails its
field-count check: decoding the record returns from Compute with the format error and the
field-count error handed to the context, in this order, and with no output slot
assigned. -/
theorem tokenizer_error_blocks_conversion :
    (∀ (record : List Char) (d : Char) (bound : Nat) (e : Err) (fields : List (List Char)),
      ExtractFields record d bound = .failed e fields → fields.length < bound) ∧
    (∀ (P : Numbers) (k1 : Kernel) (records : List (List Char))
        (record_defaults : List (List Scalar)) (r : Nat) (record : List Char) (e : Err)
        (fields : List (List Char)) (ctx : Context),
      records[r]? = some record →
      ExtractFields record k1.delim_ (toSizeT k1.num_first_n_columns_to_extract_)
        = .failed e fields →
      recordBody P k1 records record_defaults r ctx
        = .ret ⟨ctx.failures ++ [e] ++
            [.fieldCount k1.num_first_n_columns_to_extract_ fields.length r],
            ctx.output⟩) := by
  refine ⟨fun record d bound e fields h =>
    (ExtractFields_failed_short record d bound e fields h).1, ?_⟩
  intro P k1 records record_defaults r record e fields ctx hrec hs
  exact recordBody_too_few P k1 records record_defaults r record fields [e] ctx hrec
    (Or.inr ⟨e, rfl, hs⟩) (ExtractFields_failed_short _ _ _ e fields hs).1

theorem tokenizer_error_blocks_conversion_witness :
    recordBody digitNumbers ⟨[.DT_STRING, .DT_STRING], ',', [0, 1], 2⟩
        ["a,b".data, "x,\"unterminated".data] [[], []] 1
        ⟨[], [[some (.string "a".data), none], [some (.string "b".data), none]]⟩
      = .ret ⟨[] ++ [.quotedFieldBadEnd] ++ [.fieldCount 2 ["x".data].length 1],
          [[some (.string "a".data), none], [some (.string "b".data), none]]⟩ :=
  tokenizer_error_blocks_conversion.2 digitNumbers
    ⟨[.DT_STRING, .DT_STRING], ',', [0, 1], 2⟩ ["a,b".data, "x,\"unterminated".data]
    [[], []] 1 "x,\"unterminated".data .quotedFieldBadEnd ["x".data]
    ⟨[], [[some (.string "a".data), none], [some (.string "b".data), none]]⟩
    (by decide) (by decide)

/-! ## Malformed records -/

theorem quotedLoop_unterminated (d : Char) (body : List Char) :
    ∀ (pre field : List Char) (fuel : Nat), (∀ x ∈ body, x ≠ '"') → body.length ≤ fuel →
      ∃ idx field', quotedLoop (pre ++ body) d fuel pre.length field = .done idx field' ∧
        closingQuote (pre ++ body) d idx = some false := by
  induction body with
  | nil =>
    intro pre field fuel _ _
    refine ⟨pre.length, field, ?_, ?_⟩
    · unfold quotedLoop
      simp
    · unfold closingQuote
      simp
  | cons c body ih =>
    intro pre field fuel hq hfuel
    have hc : c ≠ '"' := hq c (List.mem_cons_self _ _)
    cases body with
    | nil =>
      refine ⟨pre.length, field, ?_, ?_⟩
      · unfold quotedLoop
        simp
      · unfold closingQuote
        simp only [read_here]
        simp [hc]
    | cons c2 body =>
      obtain ⟨fuel, rfl⟩ : ∃ n, fuel = n + 1 := ⟨fuel - 1, by simp at hfuel; omega⟩
      obtain ⟨idx, field', h1, h2⟩ := ih (pre ++ [c]) (field ++ [c]) fuel
        (fun x hx => hq x (List.mem_cons_of_mem _ hx)) (by simp at hfuel ⊢; omega)
      simp only [List.append_assoc, List.cons_append, List.nil_append, List.length_append,
        List.length_cons, List.length_nil] at h1 h2
      refine ⟨idx, field', ?_, h2⟩
      unfold quotedLoop
      simp only [read_here, read_next]
      simp [hc, h1]

theorem quotedLoop_lone_quote (d c : Char) (rest : List Char) (hc : c ≠ '"') (hcd : c ≠ d)
    (a : List Char) :
    ∀ (pre field : List Char) (fuel : Nat), (∀ x ∈ a, x ≠ '"') → a.length + 1 ≤ fuel →
      quotedLoop (pre ++ (a ++ '"' :: c :: rest)) d fuel pre.length field
        = .failed .quoteNotEscaped := by
  induction a with
  | nil =>
    intro pre field fuel _ hfuel
    obtain ⟨fuel, rfl⟩ : ∃ n, fuel = n + 1 := ⟨fuel - 1, by simp at hfuel; omega⟩
    unfold quotedLoop
    simp only [List.nil_append, read_here, read_next]
    simp [hc, hcd]
  | cons x a ih =>
    intro pre field fuel hq hfuel
    obtain ⟨fuel, rfl⟩ : ∃ n, fuel = n + 1 := ⟨fuel - 1, by simp at hfuel; omega⟩
    have hx : x ≠ '"' := hq x (List.mem_cons_self _ _)
    have h := ih (pre ++ [x]) (field ++ [x]) fuel
      (fun y hy => hq y (List.mem_cons_of_mem _ hy)) (by simp at hfuel ⊢; omega)
    obtain ⟨y, ys, hys⟩ : ∃ y ys, a ++ '"' :: c :: rest = y :: ys := by
      cases a with
      | nil => exact ⟨_, _, rfl⟩
      | cons y ys => exact ⟨_, _, rfl⟩
    simp only [List.append_assoc, List.cons_append, List.nil_append, List.length_append,
      List.length_cons, List.length_nil, hys] at h
    unfold quotedLoop
    simp only [List.cons_append, hys, read_here, read_next]
    simp [hx, h]

theorem mainLoop_open_quote (tail : List Char) (d : Char) (bound fuel : Nat)
    (hb : 1 ≤ bound) :
    mainLoop ('"' :: tail) d bound (fuel + 1) 0 [] =
      match quotedLoop ('"' :: tail) d ('"' :: tail).length 1 [] with
      | .done idx field =>
        match closingQuote ('"' :: tail) d idx with
        | none => .outOfBounds
        | some true => mainLoop ('"' :: tail) d bound fuel (idx + 2) ([] ++ [field])
        | some false => .failed .quotedFieldBadEnd []
      | .failed e => .failed e []
      | .outOfBounds => .outOfBounds
      | .outOfFuel => .outOfFuel := by
  rw [mainLoop]
  have hg : 0 < ('"' :: tail).length ∧ ([] : List (List Char)).length < bound := by
    constructor
    · simp
    · simpa using hb
  rw [if_pos hg]
  simp

/-- C15: for every delimiter (the quote included) and every bound of at least 1,
ExtractFields fails with the quoted-field-end error on every record made of a quote followed
by a body without a quote, and with the quote-must-be-escaped error on every record made of
a quote, a text without a quote, a quote, and a character that is neither a quote nor the
delimiter, whatever follows; no field is left in the result. -/
theorem malformed_quoted_rejected (d : Char) (bound : Nat) (hb : 1 ≤ bound) :
    (∀ body : List Char, (∀ x ∈ body, x ≠ '"') →
      ExtractFields ('"' :: body) d bound = .failed .quotedFieldBadEnd []) ∧
    (∀ (a : List Char) (c : Char) (rest : List Char), (∀ x ∈ a, x ≠ '"') →
      c ≠ '"' → c ≠ d →
      ExtractFields ('"' :: (a ++ '"' :: c :: rest)) d bound = .failed .quoteNotEscaped []) ∧
    ExtractFields "\"unterminated,x".data ',' 2 = .failed .quotedFieldBadEnd [] := by
  refine ⟨?_, ?_, by decide⟩
  · intro body hq
    obtain ⟨idx, field', h1, h2⟩ := quotedLoop_unterminated d body ['"'] []
      ('"' :: body).length hq (by simp)
    unfold ExtractFields
    rw [if_pos (by simp)]
    have e : ('"' :: body).length = body.length + 1 := by simp
    rw [e, mainLoop_open_quote body d bound body.length hb]
    simp only [List.singleton_append, List.length_singleton] at h1 h2
    rw [← e, h1]
    simp only [h2]
  · intro a c rest hq hc hcd
    have h1 := quotedLoop_lone_quote d c rest hc hcd a ['"'] []
      ('"' :: (a ++ '"' :: c :: rest)).length hq (by simp)
    unfold ExtractFields
    rw [if_pos (by simp)]
    have e : ('"' :: (a ++ '"' :: c :: rest)).length = (a ++ '"' :: c :: rest).length + 1 := by
      simp
    rw [e, mainLoop_open_quote (a ++ '"' :: c :: rest) d bound _ hb]
    simp only [List.singleton_append, List.length_singleton] at h1
    rw [← e, h1]

theorem malformed_quoted_rejected_witness :
    ExtractFields ('"' :: ("ab".data ++ '"' :: 'x' :: ";c".data)) ';' 3
      = .failed .quoteNotEscaped [] :=
  (malformed_quoted_rejected ';' 3 (by decide)).2.1 "ab".data 'x' ";c".data
    (by decide) (by decide) (by decide)

theorem unquotedLoop_dirty (d c : Char) (rest : List Char)
    (hc : c = '"' ∨ c = '\n' ∨ c = '\r') (hcd : c ≠ d) (a : List Char) :
    ∀ (pre field : List Char) (fuel : Nat),
      (∀ x ∈ a, x ≠ d ∧ x ≠ '"' ∧ x ≠ '\n' ∧ x ≠ '\r') → a.length + 1 ≤ fuel →
      unquotedLoop (pre ++ (a ++ c :: rest)) d fuel pre.length field
        = .failed .unquotedHasQuoteOrCRLF := by
  induction a with
  | nil =>
    intro pre field fuel _ hfuel
    obtain ⟨fuel, rfl⟩ : ∃ n, fuel = n + 1 := ⟨fuel - 1, by simp at hfuel; omega⟩
    unfold unquotedLoop
    simp only [List.nil_append, read_here]
    rcases hc with h | h | h <;> subst h <;> simp [hcd]
  | cons x a ih =>
    intro pre field fuel hq hfuel
    obtain ⟨fuel, rfl⟩ : ∃ n, fuel = n + 1 := ⟨fuel - 1, by simp at hfuel; omega⟩
    have hx := hq x (List.mem_cons_self _ _)
    have h := ih (pre ++ [x]) (field ++ [x]) fuel
      (fun y hy => hq y (List.mem_cons_of_mem _ hy)) (by simp at hfuel ⊢; omega)
    simp only [List.append_assoc, List.cons_append, List.nil_append, List.length_append,
      List.length_cons, List.length_nil] at h
    unfold unquotedLoop
    simp only [List.cons_append, read_here]
    simp [hx.1, hx.2.1, hx.2.2.1, hx.2.2.2, h]

theorem ExtractFields_dirty (d c x : Char) (a rest : List Char) (bound : Nat)
    (hd : d ≠ '"' ∧ d ≠ '\n' ∧ d ≠ '\r') (hb : 1 ≤ bound)
    (hq : ∀ y ∈ x :: a, y ≠ d ∧ y ≠ '"' ∧ y ≠ '\n' ∧ y ≠ '\r')
    (hc : c = '"' ∨ c = '\n' ∨ c = '\r') :
    ExtractFields ((x :: a) ++ c :: rest) d bound = .failed .unquotedHasQuoteOrCRLF [] := by
  have hcd : c ≠ d := by
    rcases hc with h | h | h <;> subst h
    · exact Ne.symm hd.1
    · exact Ne.symm hd.2.1
    · exact Ne.symm hd.2.2
  have hx := hq x (List.mem_cons_self _ _)
  have h1 := unquotedLoop_dirty d c rest hc hcd (x :: a) [] []
    ((x :: a) ++ c :: rest).length hq (by simp)
  simp only [List.nil_append, List.length_nil] at h1
  unfold ExtractFields
  rw [if_pos (by simp)]
  have e : ((x :: a) ++ c :: rest).length = (a ++ c :: rest).length + 1 := by simp
  have hg : 0 < ((x :: a) ++ c :: rest).length ∧ ([] : List (List Char)).length < bound := by
    constructor
    · simp
    · simpa using hb
  have hm : mainLoop ((x :: a) ++ c :: rest) d bound ((a ++ c :: rest).length + 1) 0 []
      = .failed .unquotedHasQuoteOrCRLF [] := by
    rw [mainLoop, if_pos hg]
    have hr : ((x :: a) ++ c :: rest)[0]? = some x := by simp
    simp only [hr]
    simp only [hx.2.2.1, hx.2.2.2, or_self, if_false, ne_eq, hx.2.1, not_false_eq_true,
      if_true, h1]
  rw [e, hm]

/-- Compute does not complete on a batch holding a record whose decoding never falls
through. -/
theorem Compute_blocked (P : Numbers) (k k1 : Kernel) (c0 : Context)
    (records : List (List Char)) (record_defaults : List (List Scalar)) (fi : List Int)
    (r : Nat) (hres : resolve k ⟨[], []⟩ record_defaults fi = .next (k1, c0))
    (hr : r < records.length)
    (hbody : ∀ t t', recordBody P k1 records record_defaults r t ≠ .next t') :
    ∀ s, Compute P k records record_defaults fi ≠ .next s := by
  intro s h
  rw [Compute_resolved P k k1 c0 records record_defaults fi hres] at h
  cases hl : forLoop (recordBody P k1 records record_defaults) records.length 0
      (allocate k1 records c0) with
  | next c =>
    exact forLoop_blocked (recordBody P k1 records record_defaults) r hbody
      records.length 0 _ c (Nat.zero_le _) (by omega) hl
  | ret c => rw [hl] at h; cases h
  | undefined => rw [hl] at h; cases h

/-- Compute returns where the first record that returns does. -/
theorem Compute_ret_at (P : Numbers) (k k1 : Kernel) (c0 ctx_r c' : Context)
    (records : List (List Char)) (record_defaults : List (List Scalar)) (fi : List Int)
    (r : Nat) (hres : resolve k ⟨[], []⟩ record_defaults fi = .next (k1, c0))
    (hr : r < records.length)
    (hloop : forLoop (recordBody P k1 records record_defaults) r 0 (allocate k1 records c0)
      = .next ctx_r)
    (hbody : recordBody P k1 records record_defaults r ctx_r = .ret c') :
    Compute P k records record_defaults fi = .ret (k1, c') := by
  rw [Compute_resolved P k k1 c0 records record_defaults fi hres,
    forLoop_ret_at _ _ r 0 _ ctx_r _ hr hloop (by rw [Nat.zero_add]; exact hbody)]

/-- C16: for every delimiter that is not a quote, CR or LF and every bound of at least 1,
ExtractFields fails with the unquoted-field error, leaving no field, on every record that
starts with a non-empty text free of the delimiter, quote, CR and LF followed by a quote, CR
or LF; decoding such a record returns from Compute with that error and the field-count
error handed to the context and nothing assigned, Compute never completes on a batch
holding it, and returns with exactly these failures when the records before it decode. -/
theorem unquoted_special_rejected :
    (∀ (d : Char) (bound : Nat) (a : List Char) (c : Char) (rest : List Char),
      d ≠ '"' ∧ d ≠ '\n' ∧ d ≠ '\r' → 1 ≤ bound → a ≠ [] →
      (∀ y ∈ a, y ≠ d ∧ y ≠ '"' ∧ y ≠ '\n' ∧ y ≠ '\r') →
      (c = '"' ∨ c = '\n' ∨ c = '\r') →
      ExtractFields (a ++ c :: rest) d bound = .failed .unquotedHasQuoteOrCRLF []) ∧
    (∀ (P : Numbers) (k k1 : Kernel) (c0 : Context) (records : List (List Char))
        (record_defaults : List (List Scalar)) (fi : List Int) (r : Nat) (a : List Char)
        (c : Char) (rest : List Char),
      resolve k ⟨[], []⟩ record_defaults fi = .next (k1, c0) →
      records[r]? = some (a ++ c :: rest) →
      k1.delim_ ≠ '"' ∧ k1.delim_ ≠ '\n' ∧ k1.delim_ ≠ '\r' →
      1 ≤ toSizeT k1.num_first_n_columns_to_extract_ → a ≠ [] →
      (∀ y ∈ a, y ≠ k1.delim_ ∧ y ≠ '"' ∧ y ≠ '\n' ∧ y ≠ '\r') →
      (c = '"' ∨ c = '\n' ∨ c = '\r') →
      (∀ ctx, recordBody P k1 records record_defaults r ctx
        = .ret ⟨ctx.failures ++ [.unquotedHasQuoteOrCRLF] ++
            [.fieldCount k1.num_first_n_columns_to_extract_ 0 r], ctx.output⟩) ∧
      (∀ s, Compute P k records record_defaults fi ≠ .next s) ∧
      (∀ ctx_r, forLoop (recordBody P k1 records record_defaults) r 0
          (allocate k1 records c0) = .next ctx_r →
        Compute P k records record_defaults fi
          = .ret (k1, ⟨ctx_r.failures ++ [.unquotedHasQuoteOrCRLF] ++
              [.fieldCount k1.num_first_n_columns_to_extract_ 0 r], ctx_r.output⟩))) := by
  have hscan : ∀ (d : Char) (bound : Nat) (a : List Char) (c : Char) (rest : List Char),
      d ≠ '"' ∧ d ≠ '\n' ∧ d ≠ '\r' → 1 ≤ bound → a ≠ [] →
      (∀ y ∈ a, y ≠ d ∧ y ≠ '"' ∧ y ≠ '\n' ∧ y ≠ '\r') →
      (c = '"' ∨ c = '\n' ∨ c = '\r') →
      ExtractFields (a ++ c :: rest) d bound = .failed .unquotedHasQuoteOrCRLF [] := by
    intro d bound a c rest hd hb ha hq hc
    cases a with
    | nil => exact absurd rfl ha
    | cons x a => exact ExtractFields_dirty d c x a rest bound hd hb hq hc
  refine ⟨hscan, ?_⟩
  intro P k k1 c0 records record_defaults fi r a c rest hres hrec hd hb ha hq hc
  have hs := hscan k1.delim_ (toSizeT k1.num_first_n_columns_to_extract_) a c rest hd hb ha
    hq hc
  have hr : r < records.length := lt_length_of_getElem? _ _ _ hrec
  have hbody : ∀ ctx, recordBody P k1 records record_defaults r ctx
      = .ret ⟨ctx.failures ++ [.unquotedHasQuoteOrCRLF] ++
          [.fieldCount k1.num_first_n_columns_to_extract_ 0 r], ctx.output⟩ := by
    intro ctx
    have := recordBody_too_few P k1 records record_defaults r (a ++ c :: rest) []
      [.unquotedHasQuoteOrCRLF] ctx hrec (Or.inr ⟨_, rfl, hs⟩) (by simpa using hb)
    simpa using this
  refine ⟨hbody, ?_, ?_⟩
  · exact Compute_blocked P k k1 c0 records record_defaults fi r hres hr
      (fun t t' ht => by rw [hbody] at ht; cases ht)
  · intro ctx_r hloop
    exact Compute_ret_at P k k1 c0 ctx_r _ records record_defaults fi r hres hr hloop
      (hbody ctx_r)

theorem unquoted_special_rejected_witness :
    ExtractFields ("ab".data ++ '"' :: ",c".data) ',' 2 = .failed .unquotedHasQuoteOrCRLF [] :=
  unquoted_special_rejected.1 ',' 2 "ab".data '"' ",c".data (by decide) (by decide)
    (by decide) (by decide) (by decide)

/-! ## Leading CR and LF -/

theorem unquotedLoop_fuel_succ (input : List Char) (d : Char) :
    ∀ (fuel idx : Nat) (field : List Char), input.length - idx ≤ fuel →
      unquotedLoop input d (fuel + 1) idx field = unquotedLoop input d fuel idx field := by
  intro fuel
  induction fuel with
  | zero =>
    intro idx field h
    have hge : ¬ idx < input.length := by omega
    conv_lhs => rw [unquotedLoop]
    conv_rhs => rw [unquotedLoop]
    rw [if_neg hge, if_neg hge]
  | succ fuel ih =>
    intro idx field h
    conv_lhs => rw [unquotedLoop]
    conv_rhs => rw [unquotedLoop]
    by_cases hlt : idx < input.length
    · rw [if_pos hlt, if_pos hlt, List.getElem?_eq_getElem hlt]
      simp only
      by_cases hc : input[idx] ≠ d
      · rw [if_pos hc, if_pos hc]
        by_cases hq : input[idx] ≠ '"' ∧ input[idx] ≠ '\n' ∧ input[idx] ≠ '\r'
        · rw [if_pos hq, if_pos hq]
          exact ih (idx + 1) _ (by omega)
        · rw [if_neg hq, if_neg hq]
      · rw [if_neg hc, if_neg hc]
    · rw [if_neg hlt, if_neg hlt]

theorem unquotedLoop_fuel_add (input : List Char) (d : Char) (fuel idx : Nat)
    (field : List Char) (h : input.length - idx ≤ fuel) :
    ∀ k, unquotedLoop input d (fuel + k) idx field = unquotedLoop input d fuel idx field := by
  intro k
  induction k with
  | zero => rfl
  | succ k ih =>
    rw [← Nat.add_assoc, unquotedLoop_fuel_succ input d (fuel + k) idx field (by omega), ih]

theorem quotedLoop_fuel_succ (input : List Char) (d : Char) :
    ∀ (fuel idx : Nat) (field : List Char), input.length - idx ≤ fuel →
      quotedLoop input d (fuel + 1) idx field = quotedLoop input d fuel idx field := by
  intro fuel
  induction fuel with
  | zero =>
    intro idx field h
    have hge : ¬ idx < input.length - 1 := by omega
    conv_lhs => rw [quotedLoop]
    conv_rhs => rw [quotedLoop]
    rw [if_neg hge, if_neg hge]
  | succ fuel ih =>
    intro idx field h
    conv_lhs => rw [quotedLoop]
    conv_rhs => rw [quotedLoop]
    by_cases hlt : idx < input.length - 1
    · rw [if_pos hlt, if_pos hlt, List.getElem?_eq_getElem (by omega : idx < input.length),
        List.getElem?_eq_getElem (by omega : idx + 1 < input.length)]
      simp only
      by_cases hc : input[idx] ≠ '"' ∨ input[idx + 1] ≠ d
      · rw [if_pos hc, if_pos hc]
        by_cases hq : input[idx] ≠ '"'
        · rw [if_pos hq, if_pos hq]
          exact ih (idx + 1) _ (by omega)
        · rw [if_neg hq, if_neg hq]
          by_cases hd : input[idx + 1] = '"'
          · rw [if_pos hd, if_pos hd]
            exact ih (idx + 2) _ (by omega)
          · rw [if_neg hd, if_neg hd]
      · rw [if_neg hc, if_neg hc]
    · rw [if_neg hlt, if_neg hlt]

theorem quotedLoop_fuel_add (input : List Char) (d : Char) (fuel idx : Nat)
    (field : List Char) (h : input.length - idx ≤ fuel) :
    ∀ k, quotedLoop input d (fuel + k) idx field = quotedLoop input d fuel idx field := by
  intro k
  induction k with
  | zero => rfl
  | succ k ih =>
    rw [← Nat.add_assoc, quotedLoop_fuel_succ input d (fuel + k) idx field (by omega), ih]

theorem read_shift (w r : List Char) (i : Nat) : (w ++ r)[w.length + i]? = r[i]? := by
  rw [List.getElem?_append_right (Nat.le_add_right _ _)]
  simp

theorem unquotedLoop_shift (w r : List Char) (d : Char) :
    ∀ (fuel idx : Nat) (field : List Char),
      unquotedLoop (w ++ r) d fuel (w.length + idx) field
        = shiftBody w.length (unquotedLoop r d fuel idx field) := by
  intro fuel
  induction fuel with
  | zero =>
    intro idx field
    conv_lhs => rw [unquotedLoop]
    conv_rhs => rw [unquotedLoop]
    by_cases hlt : idx < r.length
    · have hlt' : w.length + idx < (w ++ r).length := by simp; omega
      rw [if_pos hlt', if_pos hlt, read_shift, List.getElem?_eq_getElem hlt]
      simp only
      by_cases hc : r[idx] ≠ d
      · rw [if_pos hc, if_pos hc]
        rfl
      · rw [if_neg hc, if_neg hc]
        rfl
    · have hlt' : ¬ w.length + idx < (w ++ r).length := by simp; omega
      rw [if_neg hlt', if_neg hlt]
      rfl
  | succ fuel ih =>
    intro idx field
    conv_lhs => rw [unquotedLoop]
    conv_rhs => rw [unquotedLoop]
    by_cases hlt : idx < r.length
    · have hlt' : w.length + idx < (w ++ r).length := by simp; omega
      rw [if_pos hlt', if_pos hlt, read_shift, List.getElem?_eq_getElem hlt]
      simp only
      by_cases hc : r[idx] ≠ d
      · rw [if_pos hc, if_pos hc]
        by_cases hq : r[idx] ≠ '"' ∧ r[idx] ≠ '\n' ∧ r[idx] ≠ '\r'
        · rw [if_pos hq, if_pos hq]
          exact ih (idx + 1) _
        · rw [if_neg hq, if_neg hq]
          rfl
      · rw [if_neg hc, if_neg hc]
        rfl
    · have hlt' : ¬ w.length + idx < (w ++ r).length := by simp; omega
      rw [if_neg hlt', if_neg hlt]
      rfl

theorem quotedLoop_shift (w r : List Char) (d : Char) :
    ∀ (fuel idx : Nat) (field : List Char),
      quotedLoop (w ++ r) d fuel (w.length + idx) field
        = shiftBody w.length (quotedLoop r d fuel idx field) := by
  intro fuel
  induction fuel with
  | zero =>
    intro idx field
    conv_lhs => rw [quotedLoop]
    conv_rhs => rw [quotedLoop]
    by_cases hlt : idx < r.length - 1
    · have hlt' : w.length + idx < (w ++ r).length - 1 := by simp; omega
      have e1 : w.length + idx + 1 = w.length + (idx + 1) := by omega
      rw [if_pos hlt', if_pos hlt, e1, read_shift, read_shift,
        List.getElem?_eq_getElem (by omega : idx < r.length),
        List.getElem?_eq_getElem (by omega : idx + 1 < r.length)]
      simp only
      by_cases hc : r[idx] ≠ '"' ∨ r[idx + 1] ≠ d
      · rw [if_pos hc, if_pos hc]
        rfl
      · rw [if_neg hc, if_neg hc]
        rfl
    · have hlt' : ¬ w.length + idx < (w ++ r).length - 1 := by simp; omega
      rw [if_neg hlt', if_neg hlt]
      rfl
  | succ fuel ih =>
    intro idx field
    conv_lhs => rw [quotedLoop]
    conv_rhs => rw [quotedLoop]
    by_cases hlt : idx < r.length - 1
    · have hlt' : w.length + idx < (w ++ r).length - 1 := by simp; omega
      have e1 : w.length + idx + 1 = w.length + (idx + 1) := by omega
      rw [if_pos hlt', if_pos hlt, e1, read_shift, read_shift,
        List.getElem?_eq_getElem (by omega : idx < r.length),
        List.getElem?_eq_getElem (by omega : idx + 1 < r.length)]
      simp only
      by_cases hc : r[idx] ≠ '"' ∨ r[idx + 1] ≠ d
      · rw [if_pos hc, if_pos hc]
        by_cases hq : r[idx] ≠ '"'
        · rw [if_pos hq, if_pos hq]
          exact ih (idx + 1) _
        · rw [if_neg hq, if_neg hq]
          by_cases hd : r[idx + 1] = '"'
          · rw [if_pos hd, if_pos hd]
            exact ih (idx + 2) _
          · rw [if_neg hd, if_neg hd]
            rfl
      · rw [if_neg hc, if_neg hc]
        rfl
    · have hlt' : ¬ w.length + idx < (w ++ r).length - 1 := by simp; omega
      rw [if_neg hlt', if_neg hlt]
      rfl

theorem closingQuote_shift (w r : List Char) (d : Char) (idx : Nat) :
    closingQuote (w ++ r) d (w.length + idx) = closingQuote r d idx := by
  unfold closingQuote
  by_cases hlt : idx < r.length
  · have hlt' : w.length + idx < (w ++ r).length := by simp; omega
    rw [if_pos hlt', if_pos hlt, read_shift, List.getElem?_eq_getElem hlt]
    simp only
    by_cases hq : r[idx] = '"'
    · rw [if_pos hq, if_pos hq]
      by_cases he : idx = r.length - 1
      · have he' : w.length + idx = (w ++ r).length - 1 := by simp; omega
        rw [if_pos he, if_pos he']
      · have he' : ¬ w.length + idx = (w ++ r).length - 1 := by simp; omega
        have e1 : w.length + idx + 1 = w.length + (idx + 1) := by omega
        rw [if_neg he, if_neg he', e1, read_shift]
    · rw [if_neg hq, if_neg hq]
  · have hlt' : ¬ w.length + idx < (w ++ r).length := by simp; omega
    rw [if_neg hlt', if_neg hlt]

theorem unquotedLoop_shift_full (w r : List Char) (d : Char) (idx : Nat) :
    unquotedLoop (w ++ r) d (w ++ r).length (w.length + idx) []
      = shiftBody w.length (unquotedLoop r d r.length idx []) := by
  have e : (w ++ r).length = r.length + w.length := by simp; omega
  rw [e, unquotedLoop_fuel_add (w ++ r) d r.length (w.length + idx) [] (by simp; omega),
    unquotedLoop_shift]

theorem quotedLoop_shift_full (w r : List Char) (d : Char) (idx : Nat) :
    quotedLoop (w ++ r) d (w ++ r).length (w.length + idx) []
      = shiftBody w.length (quotedLoop r d r.length idx []) := by
  have e : (w ++ r).length = r.length + w.length := by simp; omega
  rw [e, quotedLoop_fuel_add (w ++ r) d r.length (w.length + idx) [] (by simp; omega),
    quotedLoop_shift]

/-- The main loop does the same on a record and on the record behind any text, from the
end of that text on. -/
theorem mainLoop_shift (w r : List Char) (d : Char) (bound : Nat) :
    ∀ (fuel idx : Nat) (result : List (List Char)),
      mainLoop (w ++ r) d bound fuel (w.length + idx) result
        = shiftScanned w.length (mainLoop r d bound fuel idx result) := by
  intro fuel
  induction fuel with
  | zero =>
    intro idx result
    conv_lhs => rw [mainLoop]
    conv_rhs => rw [mainLoop]
    by_cases hg : idx < r.length ∧ result.length < bound
    · have hg' : w.length + idx < (w ++ r).length ∧ result.length < bound :=
        ⟨by simp; omega, hg.2⟩
      rw [if_pos hg', if_pos hg]
      rfl
    · have hg' : ¬ (w.length + idx < (w ++ r).length ∧ result.length < bound) := by
        intro h
        exact hg ⟨by have := h.1; simp at this; omega, h.2⟩
      rw [if_neg hg', if_neg hg]
      rfl
  | succ fuel ih =>
    intro idx result
    conv_lhs => rw [mainLoop]
    conv_rhs => rw [mainLoop]
    by_cases hg : idx < r.length ∧ result.length < bound
    · have hg' : w.length + idx < (w ++ r).length ∧ result.length < bound :=
        ⟨by simp; omega, hg.2⟩
      rw [if_pos hg', if_pos hg, read_shift, List.getElem?_eq_getElem hg.1]
      simp only
      by_cases hnl : r[idx] = '\n' ∨ r[idx] = '\r'
      · rw [if_pos hnl, if_pos hnl]
        exact ih (idx + 1) result
      · rw [if_neg hnl, if_neg hnl]
        by_cases hq : r[idx] ≠ '"'
        · rw [if_pos hq, if_pos hq, unquotedLoop_shift_full]
          cases unquotedLoop r d r.length idx [] with
          | done i f => exact ih (i + 1) _
          | failed e => rfl
          | outOfBounds => rfl
          | outOfFuel => rfl
        · have e1 : w.length + idx + 1 = w.length + (idx + 1) := by omega
          rw [if_neg hq, if_neg hq, e1, quotedLoop_shift_full]
          cases quotedLoop r d r.length (idx + 1) [] with
          | done i f =>
            simp only [shiftBody, closingQuote_shift]
            cases closingQuote r d i with
            | none => rfl
            | some b =>
              cases b with
              | true => exact ih (i + 2) _
              | false => rfl
          | failed e => rfl
          | outOfBounds => rfl
          | outOfFuel => rfl
    · have hg' : ¬ (w.length + idx < (w ++ r).length ∧ result.length < bound) := by
        intro h
        exact hg ⟨by have := h.1; simp at this; omega, h.2⟩
      rw [if_neg hg', if_neg hg]
      rfl

theorem outcome_shiftScanned (n : Nat) (s : Scanned) : outcome (shiftScanned n s) = outcome s := by
  cases s <;> rfl

/-- The main loop passes over leading CR and LF characters, one per iteration. -/
theorem mainLoop_skip (w r : List Char) (d : Char) (bound : Nat)
    (hw : ∀ c ∈ w, c = '\n' ∨ c = '\r') (fuel : Nat) (result : List (List Char)) :
    ∀ (k j : Nat), j + k = w.length →
      outcome (mainLoop (w ++ r) d bound (fuel + k) j result)
        = outcome (mainLoop (w ++ r) d bound fuel w.length result) := by
  intro k
  induction k with
  | zero =>
    intro j hj
    have e : j = w.length := by omega
    rw [e]
    rfl
  | succ k ih =>
    intro j hj
    have hjw : j < w.length := by omega
    have e : fuel + (k + 1) = (fuel + k) + 1 := by omega
    rw [e]
    conv_lhs => rw [mainLoop]
    by_cases hb : result.length < bound
    · have hg : j < (w ++ r).length ∧ result.length < bound := ⟨by simp; omega, hb⟩
      have hread : (w ++ r)[j]? = some w[j] := by
        rw [List.getElem?_append_left hjw, List.getElem?_eq_getElem hjw]
      rw [if_pos hg, hread]
      simp only
      rw [if_pos (hw _ (List.getElem_mem hjw))]
      exact ih (j + 1) (by omega)
    · have hg : ¬ (j < (w ++ r).length ∧ result.length < bound) := fun h => hb h.2
      rw [if_neg hg, mainLoop_exit _ _ _ _ _ _ (fun h => hb h.2)]
      rfl

theorem mainLoop_skip_full (w r : List Char) (d : Char) (bound : Nat)
    (hw : ∀ c ∈ w, c = '\n' ∨ c = '\r') :
    outcome (mainLoop (w ++ r) d bound (w ++ r).length 0 [])
      = outcome (mainLoop r d bound r.length 0 []) := by
  have e : (w ++ r).length = r.length + w.length := by simp; omega
  rw [e, mainLoop_skip w r d bound hw r.length [] w.length 0 (by omega)]
  have h := mainLoop_shift w r d bound r.length 0 []
  simp only [Nat.add_zero] at h
  rw [h, outcome_shiftScanned]

theorem ExtractFields_skip (w r : List Char) (d : Char) (bound : Nat)
    (hd : d ≠ '\n' ∧ d ≠ '\r') (hw : ∀ c ∈ w, c = '\n' ∨ c = '\r') :
    outcome (ExtractFields (w ++ r) d bound) = outcome (ExtractFields r d bound) := by
  by_cases hwn : w = []
  · subst hwn
    simp
  have hA := mainLoop_skip_full w r d bound hw
  have hne : w ++ r ≠ [] := by simp [hwn]
  by_cases hr : r = []
  · subst hr
    have hB : mainLoop [] d bound ([] : List Char).length 0 [] = .done 0 [] := by
      rw [mainLoop_exit _ _ _ _ _ _ (by simp)]
    rw [hB] at hA
    obtain ⟨w', c, hwc⟩ : ∃ w' c, w = w' ++ [c] := by
      rcases nil_or_snoc w with h | h
      · exact absurd h hwn
      · exact h
    have hc : c ≠ d := by
      have := hw c (by rw [hwc]; simp)
      rcases this with h | h <;> rw [h]
      · exact Ne.symm hd.1
      · exact Ne.symm hd.2
    have hlast : (w ++ [])[(w ++ []).length - 1]? = some c := by
      rw [List.append_nil, hwc]
      exact read_last _ _
    unfold ExtractFields
    rw [if_pos hne, if_neg (by simp)]
    cases hM : mainLoop (w ++ []) d bound (w ++ []).length 0 [] with
    | done i res =>
      rw [hM] at hA
      simp only [outcome, Scanned.done.injEq, true_and] at hA
      simp only [hlast, if_neg hc, hA, outcome]
    | failed e res => rw [hM] at hA; cases hA
    | outOfBounds => rw [hM] at hA; cases hA
    | outOfFuel => rw [hM] at hA; cases hA
  · have hlast : (w ++ r)[(w ++ r).length - 1]? = r[r.length - 1]? := by
      have hpos : 0 < r.length := List.length_pos.2 hr
      have e : (w ++ r).length - 1 = w.length + (r.length - 1) := by simp; omega
      rw [e, read_shift]
    unfold ExtractFields
    rw [if_pos hne, if_pos hr]
    cases hM : mainLoop (w ++ r) d bound (w ++ r).length 0 [] with
    | done i res =>
      rw [hM] at hA
      cases hN : mainLoop r d bound r.length 0 [] with
      | done i' res' =>
        rw [hN] at hA
        simp only [outcome, Scanned.done.injEq, true_and] at hA
        subst hA
        simp only [hlast]
        cases r[r.length - 1]? with
        | none => rfl
        | some c =>
          simp only
          split <;> rfl
      | failed e res' => rw [hN] at hA; cases hA
      | outOfBounds => rw [hN] at hA; cases hA
      | outOfFuel => rw [hN] at hA; cases hA
    | failed e res =>
      rw [hM] at hA
      cases hN : mainLoop r d bound r.length 0 [] with
      | done i' res' => rw [hN] at hA; cases hA
      | failed e' res' =>
        rw [hN] at hA
        simp only [outcome] at hA
        simp only [hA]
      | outOfBounds => rw [hN] at hA; cases hA
      | outOfFuel => rw [hN] at hA; cases hA
    | outOfBounds =>
      rw [hM] at hA
      cases hN : mainLoop r d bound r.length 0 [] with
      | done i' res' => rw [hN] at hA; cases hA
      | failed e' res' => rw [hN] at hA; cases hA
      | outOfBounds => rfl
      | outOfFuel => rw [hN] at hA; cases hA
    | outOfFuel =>
      rw [hM] at hA
      cases hN : mainLoop r d bound r.length 0 [] with
      | done i' res' => rw [hN] at hA; cases hA
      | failed e' res' => rw [hN] at hA; cases hA
      | outOfBounds => rw [hN] at hA; cases hA
      | outOfFuel => rfl

/-- C17: for every delimiter that is neither CR nor LF, every bound, every record r and
every text w made of CR and LF characters only, ExtractFields gives on w followed by r the
same failure or the same field list as on r; a record made of CR and LF characters only
yields no field. -/
theorem leading_newlines_skipped (d : Char) (bound : Nat) (r w : List Char)
    (hd : d ≠ '\n' ∧ d ≠ '\r') (hw : ∀ c ∈ w, c = '\n' ∨ c = '\r') :
    outcome (ExtractFields (w ++ r) d bound) = outcome (ExtractFields r d bound) ∧
    (∀ e fields, ExtractFields (w ++ r) d bound = .failed e fields ↔
      ExtractFields r d bound = .failed e fields) ∧
    (∀ fields, (∃ idx, ExtractFields (w ++ r) d bound = .done idx fields) ↔
      (∃ idx, ExtractFields r d bound = .done idx fields)) ∧
    (∃ idx, ExtractFields w d bound = .done idx []) := by
  have h := ExtractFields_skip w r d bound hd hw
  have key : ∀ (a b : Scanned), outcome a = outcome b →
      (∀ e fields, a = .failed e fields ↔ b = .failed e fields) ∧
      (∀ fields, (∃ idx, a = .done idx fields) ↔ (∃ idx, b = .done idx fields)) := by
    intro a b hab
    cases a <;> cases b <;> simp_all [outcome]
  refine ⟨h, (key _ _ h).1, (key _ _ h).2, ?_⟩
  have h0 := ExtractFields_skip w [] d bound hd hw
  rw [List.append_nil] at h0
  have hE : ExtractFields [] d bound = .done 0 [] := by simp [ExtractFields]
  rw [hE] at h0
  cases hW : ExtractFields w d bound with
  | done i res =>
    rw [hW] at h0
    simp only [outcome, Scanned.done.injEq, true_and] at h0
    exact ⟨i, by rw [h0]⟩
  | failed e res => rw [hW] at h0; cases h0
  | outOfBounds => rw [hW] at h0; cases h0
  | outOfFuel => rw [hW] at h0; cases h0

theorem leading_newlines_skipped_witness :
    outcome (ExtractFields ("\r\n\n".data ++ "a,\"b\"".data) ',' 2)
      = outcome (ExtractFields "a,\"b\"".data ',' 2) :=
  (leading_newlines_skipped ',' 2 "a,\"b\"".data "\r\n\n".data (by decide) (by decide)).1

/-! ## Decoding one record -/

theorem defaultOf_eq_some (record_defaults : List (List Scalar)) (f : Nat) (v : Scalar) :
    defaultOf record_defaults f = some v ↔ record_defaults[f]? = some [v] := by
  unfold defaultOf
  cases h : record_defaults[f]? with
  | none => simp
  | some d =>
    cases d with
    | nil => simp
    | cons a t =>
      cases t with
      | nil => simp
      | cons b u => simp

theorem useDefault_absent (record_defaults : List (List Scalar)) (f i : Nat)
    (ctx c' : Context) (h : defaultOf record_defaults f = none) :
    useDefault record_defaults f i ctx ≠ .next c' := by
  unfold useDefault
  cases hd : record_defaults[f]? with
  | none => simp
  | some d =>
    simp only
    by_cases h1 : d.length = 1
    · obtain ⟨v, hv⟩ : ∃ v, d = [v] := List.length_eq_one.1 h1
      subst hv
      have := (defaultOf_eq_some record_defaults f v).2 hd
      rw [h] at this
      cases this
    · rw [if_neg h1]
      simp

theorem convertField_assigned (P : Numbers) (record_defaults : List (List Scalar))
    (dtype : DataType) (str : List Char) (f i : Nat) (ctx : Context) (v : Scalar)
    (h : assigned P record_defaults dtype str f = some v) :
    convertField P record_defaults dtype str f i ctx = writeOutput ctx f i v := by
  unfold assigned at h
  unfold convertField
  cases dtype with
  | DT_FLOAT =>
    simp only at h ⊢
    by_cases hs : str = []
    · rw [if_pos hs] at h ⊢
      exact useDefault_present record_defaults f i v ctx ((defaultOf_eq_some _ _ _).1 h)
    · rw [if_neg hs] at h ⊢
      cases hp : P.safe_strtof (c_str str) with
      | none => rw [hp] at h; cases h
      | some x => rw [hp] at h; cases h; rfl
  | DT_INT32 =>
    simp only at h ⊢
    by_cases hs : str = []
    · rw [if_pos hs] at h ⊢
      exact useDefault_present record_defaults f i v ctx ((defaultOf_eq_some _ _ _).1 h)
    · rw [if_neg hs] at h ⊢
      cases hp : P.safe_strto32 str with
      | none => rw [hp] at h; cases h
      | some x => rw [hp] at h; cases h; rfl
  | DT_INT64 =>
    simp only at h ⊢
    by_cases hs : str = []
    · rw [if_pos hs] at h ⊢
      exact useDefault_present record_defaults f i v ctx ((defaultOf_eq_some _ _ _).1 h)
    · rw [if_neg hs] at h ⊢
      cases hp : P.safe_strto64 str with
      | none => rw [hp] at h; cases h
      | some x => rw [hp] at h; cases h; rfl
  | DT_STRING =>
    simp only at h ⊢
    by_cases hs : str = []
    · rw [if_pos hs] at h ⊢
      exact useDefault_present record_defaults f i v ctx ((defaultOf_eq_some _ _ _).1 h)
    · rw [if_neg hs] at h ⊢
      cases h
      rfl
  | other code => simp only at h; cases h

theorem convertField_unassigned (P : Numbers) (record_defaults : List (List Scalar))
    (dtype : DataType) (str : List Char) (f i : Nat) (ctx c' : Context)
    (h : assigned P record_defaults dtype str f = none) :
    convertField P record_defaults dtype str f i ctx ≠ .next c' := by
  unfold assigned at h
  unfold convertField
  cases dtype with
  | DT_FLOAT =>
    simp only at h ⊢
    by_cases hs : str = []
    · rw [if_pos hs] at h ⊢
      exact useDefault_absent record_defaults f i ctx c' h
    · rw [if_neg hs] at h ⊢
      cases hp : P.safe_strtof (c_str str) with
      | none => simp
      | some x => rw [hp] at h; cases h
  | DT_INT32 =>
    simp only at h ⊢
    by_cases hs : str = []
    · rw [if_pos hs] at h ⊢
      exact useDefault_absent record_defaults f i ctx c' h
    · rw [if_neg hs] at h ⊢
      cases hp : P.safe_strto32 str with
      | none => simp
      | some x => rw [hp] at h; cases h
  | DT_INT64 =>
    simp only at h ⊢
    by_cases hs : str = []
    · rw [if_pos hs] at h ⊢
      exact useDefault_absent record_defaults f i ctx c' h
    · rw [if_neg hs] at h ⊢
      cases hp : P.safe_strto64 str with
      | none => simp
      | some x => rw [hp] at h; cases h
  | DT_STRING =>
    simp only at h ⊢
    by_cases hs : str = []
    · rw [if_pos hs] at h ⊢
      exact useDefault_absent record_defaults f i ctx c' h
    · rw [if_neg hs] at h
      cases h
  | other code => simp

theorem fieldBody_assigned (P : Numbers) (k : Kernel) (record_defaults : List (List Scalar))
    (fields : List (List Char)) (i f : Nat) (ctx : Context) (v : Scalar)
    (h : rowCell P k record_defaults fields f = some v) :
    fieldBody P k record_defaults fields i f ctx = writeOutput ctx f i v := by
  unfold rowCell at h
  unfold fieldBody
  cases ht : k.out_type_[f]? with
  | none => rw [ht] at h; cases h
  | some dtype =>
    cases hs : k.field_indices_vec_[f]? with
    | none => rw [ht, hs] at h; cases h
    | some src =>
      rw [ht, hs] at h
      simp only at h ⊢
      cases hc : fields[toSizeT src]? with
      | none => rw [hc] at h; cases h
      | some str =>
        rw [hc] at h
        exact convertField_assigned P record_defaults dtype str f i ctx v h

theorem fieldBody_unassigned (P : Numbers) (k : Kernel)
    (record_defaults : List (List Scalar))
    (fields : List (List Char)) (i f : Nat) (ctx c' : Context)
    (h : rowCell P k record_defaults fields f = none) :
    fieldBody P k record_defaults fields i f ctx ≠ .next c' := by
  unfold rowCell at h
  unfold fieldBody
  cases ht : k.out_type_[f]? with
  | none => simp
  | some dtype =>
    cases hs : k.field_indices_vec_[f]? with
    | none => simp
    | some src =>
      rw [ht, hs] at h
      simp only at h ⊢
      cases hc : fields[toSizeT src]? with
      | none => simp
      | some str =>
        rw [hc] at h
        exact convertField_unassigned P record_defaults dtype str f i ctx c' h

/-- An assignment to an existing slot falls through. -/
theorem writeOutput_slot (ctx : Context) (f i : Nat) (v : Scalar)
    (h : cell ctx f i ≠ none) :
    ∃ ctx', writeOutput ctx f i v = .next ctx' ∧ ctx'.failures = ctx.failures ∧
      cell ctx' f i = some (some v) ∧
      ∀ f' i', ¬ (f' = f ∧ i' = i) → cell ctx' f' i' = cell ctx f' i' := by
  rcases writeOutput_cases ctx f i v with hu | hn
  · exfalso
    unfold writeOutput at hu
    unfold cell at h
    cases hcol : ctx.output[f]? with
    | none => rw [hcol] at h; exact h rfl
    | some col =>
      rw [hcol] at h hu
      simp only [Option.some_bind] at h
      simp only at hu
      by_cases hi : i < col.length
      · rw [if_pos hi] at hu
        cases hu
      · exact h (List.getElem?_eq_none (by omega))
  · exact hn

/-- The loop over the columns of one record, when every column is assigned a value and
every slot of the record exists: it falls through and has stored exactly those values. -/
theorem columns_run (P : Numbers) (k : Kernel) (record_defaults : List (List Scalar))
    (fields : List (List Char)) (i : Nat) :
    ∀ (n : Nat) (ctx : Context), (∀ f, f < n → cell ctx f i ≠ none) →
      (∀ f, f < n → rowCell P k record_defaults fields f ≠ none) →
      ∃ ctx', forLoop (fieldBody P k record_defaults fields i) n 0 ctx = .next ctx' ∧
        ctx'.failures = ctx.failures ∧
        (∀ f, f < n → cell ctx' f i = (rowCell P k record_defaults fields f).map some) ∧
        (∀ f' i', ¬ (f' < n ∧ i' = i) → cell ctx' f' i' = cell ctx f' i') := by
  intro n
  induction n with
  | zero =>
    intro ctx _ _
    exact ⟨ctx, rfl, rfl, fun f hf => absurd hf (Nat.not_lt_zero _), fun _ _ _ => rfl⟩
  | succ n ih =>
    intro ctx hslot hval
    obtain ⟨c1, h1, hf1, hc1, hfr1⟩ := ih ctx (fun f hf => hslot f (by omega))
      (fun f hf => hval f (by omega))
    obtain ⟨v, hv⟩ : ∃ v, rowCell P k record_defaults fields n = some v :=
      Option.ne_none_iff_exists'.1 (hval n (by omega))
    have hs : cell c1 n i ≠ none := by
      rw [hfr1 n i (fun h => by omega)]
      exact hslot n (by omega)
    obtain ⟨c2, h2, hf2, hc2, hfr2⟩ := writeOutput_slot c1 n i v hs
    refine ⟨c2, ?_, by rw [hf2, hf1], ?_, ?_⟩
    · rw [forLoop_add, h1]
      simp only [forLoop, Nat.zero_add]
      rw [fieldBody_assigned P k record_defaults fields i n c1 v hv, h2]
    · intro f hf
      by_cases hfn : f = n
      · subst hfn
        rw [hc2, hv]
        rfl
      · rw [hfr2 f i (fun h => hfn h.1)]
        exact hc1 f (by omega)
    · intro f' i' hne
      rw [hfr2 f' i' (fun h => hne ⟨by omega, h.2⟩)]
      exact hfr1 f' i' (fun h => hne ⟨by omega, h.2⟩)

theorem columns_next_only (P : Numbers) (k : Kernel) (record_defaults : List (List Scalar))
    (fields : List (List Char)) (i n : Nat) (ctx c' : Context)
    (h : forLoop (fieldBody P k record_defaults fields i) n 0 ctx = .next c') :
    ∀ f, f < n → rowCell P k record_defaults fields f ≠ none := by
  intro f hf hnone
  exact forLoop_blocked (fieldBody P k record_defaults fields i) f
    (fun t t' => fieldBody_unassigned P k record_defaults fields i f t t' hnone)
    n 0 ctx c' (Nat.zero_le _) (by omega) h

theorem passingFields_some (k : Kernel) (record : List Char) (fields : List (List Char)) :
    passingFields k record = some fields ↔
      (∃ idx, ExtractFields record k.delim_ (toSizeT k.num_first_n_columns_to_extract_)
        = .done idx fields) ∧
      fields.length = toSizeT k.num_first_n_columns_to_extract_ := by
  unfold passingFields
  cases h : ExtractFields record k.delim_ (toSizeT k.num_first_n_columns_to_extract_) with
  | done idx fs =>
    simp only
    by_cases hn : fs.length = toSizeT k.num_first_n_columns_to_extract_
    · rw [if_pos hn]
      constructor
      · intro e
        cases e
        exact ⟨⟨idx, rfl⟩, hn⟩
      · rintro ⟨⟨idx', e⟩, _⟩
        cases e
        rfl
    · rw [if_neg hn]
      constructor
      · intro e
        cases e
      · rintro ⟨⟨idx', e⟩, hn'⟩
        cases e
        exact absurd hn' hn
  | failed e fs => simp
  | outOfBounds => simp
  | outOfFuel => simp

/-- Decoding a record that decodes, into existing slots: the iteration falls through,
hands nothing to the context, and has stored the decoded values in the slots of the
record and nowhere else. -/
theorem recordBody_run (P : Numbers) (k : Kernel) (records : List (List Char))
    (record_defaults : List (List Scalar)) (i : Nat) (record : List Char)
    (fields : List (List Char)) (ctx : Context)
    (hrec : records[i]? = some record) (hpass : passingFields k record = some fields)
    (hval : ∀ f, f < k.out_type_.length → rowCell P k record_defaults fields f ≠ none)
    (hslot : ∀ f, f < k.out_type_.length → cell ctx f i ≠ none) :
    ∃ ctx', recordBody P k records record_defaults i ctx = .next ctx' ∧
      ctx'.failures = ctx.failures ∧
      (∀ f, f < k.out_type_.length →
        cell ctx' f i = (rowCell P k record_defaults fields f).map some) ∧
      (∀ f' i', ¬ (f' < k.out_type_.length ∧ i' = i) → cell ctx' f' i' = cell ctx f' i') := by
  obtain ⟨⟨idx, hs⟩, hn⟩ := (passingFields_some k record fields).1 hpass
  obtain ⟨c', h1, h2, h3, h4⟩ := columns_run P k record_defaults fields i k.out_type_.length
    ctx hslot hval
  refine ⟨c', ?_, h2, h3, h4⟩
  unfold recordBody
  rw [hrec]
  simp only [hs]
  unfold checkAndConvert
  rw [if_pos hn]
  exact h1

theorem recordBody_next_only (P : Numbers) (k : Kernel) (records : List (List Char))
    (record_defaults : List (List Scalar)) (i : Nat) (record : List Char) (ctx c' : Context)
    (hrec : records[i]? = some record)
    (h : recordBody P k records record_defaults i ctx = .next c') :
    Decodes P k record_defaults record := by
  unfold recordBody at h
  rw [hrec] at h
  simp only at h
  cases hs : ExtractFields record k.delim_ (toSizeT k.num_first_n_columns_to_extract_) with
  | done idx fields =>
    rw [hs] at h
    simp only at h
    unfold checkAndConvert at h
    by_cases hn : fields.length = toSizeT k.num_first_n_columns_to_extract_
    · rw [if_pos hn] at h
      exact ⟨fields, (passingFields_some k record fields).2 ⟨⟨idx, hs⟩, hn⟩,
        columns_next_only P k record_defaults fields i _ ctx c' h⟩
    · rw [if_neg hn] at h
      cases h
  | failed e fields =>
    rw [hs] at h
    simp only at h
    unfold checkAndConvert at h
    have hlt := (ExtractFields_failed_short _ _ _ e fields hs).1
    rw [if_neg (by omega)] at h
    cases h
  | outOfBounds => rw [hs] at h; cases h
  | outOfFuel => rw [hs] at h; cases h

theorem cell_allocate_slot (k : Kernel) (records : List (List Char)) (ctx : Context)
    (f i : Nat) (hf : f < k.out_type_.length) (hi : i < records.length) :
    cell (allocate k records ctx) f i = some none := by
  unfold cell allocate
  simp [List.getElem?_replicate, hf, hi]

theorem decodedCell_of_passing (P : Numbers) (k : Kernel)
    (record_defaults : List (List Scalar)) (record : List Char) (fields : List (List Char))
    (f : Nat) (h : passingFields k record = some fields) :
    decodedCell P k record_defaults record f = rowCell P k record_defaults fields f := by
  unfold decodedCell
  rw [h]
  rfl

/-- The loop over the records, when every record decodes: it falls through, hands nothing
to the context, and each slot of a decoded record holds the decoded value. -/
theorem records_run (P : Numbers) (k : Kernel) (records : List (List Char))
    (record_defaults : List (List Scalar)) (c0 : Context)
    (hdec : ∀ (r : Nat) (record : List Char), records[r]? = some record → Decodes P k record_defaults record) :
    ∀ n, n ≤ records.length →
      ∃ ctx', forLoop (recordBody P k records record_defaults) n 0 (allocate k records c0)
          = .next ctx' ∧
        ctx'.failures = c0.failures ∧
        (∀ (r f : Nat) (record : List Char), r < n → f < k.out_type_.length → records[r]? = some record →
          cell ctx' f r = (decodedCell P k record_defaults record f).map some) ∧
        (∀ f' i', n ≤ i' → cell ctx' f' i' = cell (allocate k records c0) f' i') := by
  intro n
  induction n with
  | zero =>
    intro _
    exact ⟨_, rfl, rfl, fun r f record hr => absurd hr (Nat.not_lt_zero _), fun _ _ _ => rfl⟩
  | succ n ih =>
    intro hn
    obtain ⟨c1, h1, hf1, hc1, hfr1⟩ := ih (by omega)
    have hlt : n < records.length := by omega
    have hrec : records[n]? = some records[n] := List.getElem?_eq_getElem hlt
    obtain ⟨fields, hpass, hval⟩ := hdec n _ hrec
    have hslot : ∀ f, f < k.out_type_.length → cell c1 f n ≠ none := by
      intro f hf
      rw [hfr1 f n (le_refl _), cell_allocate_slot k records c0 f n hf hlt]
      simp
    obtain ⟨c2, h2, hf2, hc2, hfr2⟩ := recordBody_run P k records record_defaults n _ fields c1
      hrec hpass hval hslot
    refine ⟨c2, ?_, by rw [hf2, hf1], ?_, ?_⟩
    · rw [forLoop_add, h1]
      simp only [forLoop, Nat.zero_add]
      rw [h2]
    · intro r f record hr hf hrr
      by_cases hrn : r = n
      · subst hrn
        rw [hrec] at hrr
        cases hrr
        rw [hc2 f hf, decodedCell_of_passing P k record_defaults _ fields f hpass]
      · rw [hfr2 f r (fun h => hrn h.2)]
        exact hc1 r f record (by omega) hf hrr
    · intro f' i' hi
      rw [hfr2 f' i' (fun h => by omega)]
      exact hfr1 f' i' (by omega)

theorem records_next_only (P : Numbers) (k : Kernel) (records : List (List Char))
    (record_defaults : List (List Scalar)) (s c' : Context)
    (h : forLoop (recordBody P k records record_defaults) records.length 0 s = .next c') :
    ∀ (r : Nat) (record : List Char), records[r]? = some record → Decodes P k record_defaults record := by
  intro r record hrec
  by_contra hno
  exact forLoop_blocked (recordBody P k records record_defaults) r
    (fun t t' ht => hno (recordBody_next_only P k records record_defaults r record t t' hrec ht))
    records.length 0 s c' (Nat.zero_le _) (by have := lt_length_of_getElem? _ _ _ hrec; omega) h

/-- Schema resolution hands nothing to the context when it falls through. -/
theorem resolve_ctx (k k1 : Kernel) (ctx c0 : Context) (record_defaults : List (List Scalar))
    (fi : List Int) (h : resolve k ctx record_defaults fi = .next (k1, c0)) : c0 = ctx := by
  by_cases hk : k.num_first_n_columns_to_extract_ < 0
  · by_cases hbad : (∃ d ∈ record_defaults, 2 ≤ d.length) ∨
        (fi ≠ [] ∧ fi.length ≠ record_defaults.length) ∨ (∃ x ∈ fi, x < 0)
    · obtain ⟨k', e, h', _⟩ := resolve_rejects k ctx record_defaults fi hk hbad
      rw [h'] at h
      cases h
    · obtain ⟨b, h'⟩ := resolve_accepts k ctx record_defaults fi hk hbad
      rw [h'] at h
      cases h
      rfl
  · unfold resolve at h
    rw [if_neg hk] at h
    cases h
    rfl

/-- Compute completes exactly when every record of the batch decodes, and then the
context holds no failure and each slot holds the decoded value of its record and column. -/
theorem Compute_completes (P : Numbers) (k k1 : Kernel) (c0 : Context)
    (records : List (List Char)) (record_defaults : List (List Scalar)) (fi : List Int)
    (hres : resolve k ⟨[], []⟩ record_defaults fi = .next (k1, c0)) :
    ((∃ ctx, Compute P k records record_defaults fi = .next (k1, ctx)) ↔
      ∀ (r : Nat) (record : List Char), records[r]? = some record → Decodes P k1 record_defaults record) ∧
    (∀ k' ctx, Compute P k records record_defaults fi = .next (k', ctx) →
      k' = k1 ∧ ctx.failures = [] ∧
      ∀ (r f : Nat) (record : List Char), f < k1.out_type_.length → records[r]? = some record →
        cell ctx f r = (decodedCell P k1 record_defaults record f).map some) := by
  have hc0 : c0 = ⟨[], []⟩ := resolve_ctx k k1 _ c0 record_defaults fi hres
  have hC := Compute_resolved P k k1 c0 records record_defaults fi hres
  constructor
  · constructor
    · rintro ⟨ctx, h⟩
      rw [hC] at h
      cases hl : forLoop (recordBody P k1 records record_defaults) records.length 0
          (allocate k1 records c0) with
      | next c => exact records_next_only P k1 records record_defaults _ c hl
      | ret c => rw [hl] at h; cases h
      | undefined => rw [hl] at h; cases h
    · intro hdec
      obtain ⟨c, h1, _⟩ := records_run P k1 records record_defaults c0 hdec records.length
        (le_refl _)
      exact ⟨c, by rw [hC, h1]⟩
  · intro k' ctx h
    rw [hC] at h
    cases hl : forLoop (recordBody P k1 records record_defaults) records.length 0
        (allocate k1 records c0) with
    | next c =>
      rw [hl] at h
      have e : (k1, c) = (k', ctx) := Flow.next.inj h
      have e1 : k1 = k' := congrArg Prod.fst e
      have e2 : c = ctx := congrArg Prod.snd e
      subst e1 e2
      have hdec := records_next_only P k1 records record_defaults _ c hl
      obtain ⟨c', h1, hf, hcells, _⟩ := records_run P k1 records record_defaults c0 hdec
        records.length (le_refl _)
      rw [hl] at h1
      have e3 : c = c' := Flow.next.inj h1
      subst e3
      refine ⟨rfl, by rw [hf, hc0], ?_⟩
      intro r f record hf' hrec
      exact hcells r f record (lt_length_of_getElem? _ _ _ hrec) hf' hrec
    | ret c => rw [hl] at h; cases h
    | undefined => rw [hl] at h; cases h

/-! ## The shape of the output -/

theorem fieldBody_next_write (P : Numbers) (k : Kernel) (record_defaults : List (List Scalar))
    (fields : List (List Char)) (i f : Nat) (ctx c' : Context)
    (h : fieldBody P k record_defaults fields i f ctx = .next c') :
    ∃ v, rowCell P k record_defaults fields f = some v ∧ writeOutput ctx f i v = .next c' := by
  cases hv : rowCell P k record_defaults fields f with
  | none => exact absurd h (fieldBody_unassigned P k record_defaults fields i f ctx c' hv)
  | some v =>
    rw [fieldBody_assigned P k record_defaults fields i f ctx v hv] at h
    exact ⟨v, rfl, h⟩

theorem writeOutput_shape (ctx c' : Context) (f i : Nat) (v : Scalar) (M N : Nat)
    (h : writeOutput ctx f i v = .next c') (hs : Shape ctx M N) : Shape c' M N := by
  unfold writeOutput at h
  cases hcol : ctx.output[f]? with
  | none => rw [hcol] at h; cases h
  | some col =>
    rw [hcol] at h
    simp only at h
    by_cases hi : i < col.length
    · rw [if_pos hi] at h
      have e := Flow.next.inj h
      subst e
      refine ⟨by simp only [List.length_set]; exact hs.1, ?_⟩
      intro c hc
      rcases List.mem_or_eq_of_mem_set hc with hmem | heq
      · exact hs.2 c hmem
      · rw [heq, List.length_set]
        exact hs.2 col (List.getElem?_mem hcol)
    · rw [if_neg hi] at h
      cases h

theorem recordBody_shape (P : Numbers) (k : Kernel) (records : List (List Char))
    (record_defaults : List (List Scalar)) (i : Nat) (ctx c' : Context) (M N : Nat)
    (h : recordBody P k records record_defaults i ctx = .next c') (hs : Shape ctx M N) :
    Shape c' M N := by
  have hcols : ∀ (fields : List (List Char)) (t : Context), Shape t M N →
      checkAndConvert P k record_defaults fields i t = .next c' → Shape c' M N := by
    intro fields t ht hc
    unfold checkAndConvert at hc
    by_cases hn : fields.length = toSizeT k.num_first_n_columns_to_extract_
    · rw [if_pos hn] at hc
      exact forLoop_next_inv (fieldBody P k record_defaults fields i)
        (fun _ s => Shape s M N) k.out_type_.length 0 t c' ht
        (fun j u u' _ _ hu hb => by
          obtain ⟨v, _, hw⟩ := fieldBody_next_write P k record_defaults fields i j u u' hb
          exact writeOutput_shape u u' j i v M N hw hu) hc
    · rw [if_neg hn] at hc
      cases hc
  unfold recordBody at h
  cases hr : records[i]? with
  | none => rw [hr] at h; cases h
  | some record =>
    rw [hr] at h
    simp only at h
    cases hsc : ExtractFields record k.delim_ (toSizeT k.num_first_n_columns_to_extract_) with
    | done idx fields =>
      rw [hsc] at h
      exact hcols fields ctx hs h
    | failed e fields =>
      rw [hsc] at h
      exact hcols fields (CtxFailure ctx e) hs h
    | outOfBounds => rw [hsc] at h; cases h
    | outOfFuel => rw [hsc] at h; cases h

theorem allocate_shape (k : Kernel) (records : List (List Char)) (ctx : Context) :
    Shape (allocate k records ctx) k.out_type_.length records.length := by
  unfold Shape allocate
  refine ⟨by simp, ?_⟩
  intro col hcol
  rw [List.eq_of_mem_replicate hcol]
  simp

/-- When Compute completes, the output holds one column per output type, each of the
length of the batch. -/
theorem Compute_shape (P : Numbers) (k k1 : Kernel) (c0 ctx : Context)
    (records : List (List Char)) (record_defaults : List (List Scalar)) (fi : List Int)
    (hres : resolve k ⟨[], []⟩ record_defaults fi = .next (k1, c0))
    (h : Compute P k records record_defaults fi = .next (k1, ctx)) :
    Shape ctx k1.out_type_.length records.length := by
  rw [Compute_resolved P k k1 c0 records record_defaults fi hres] at h
  cases hl : forLoop (recordBody P k1 records record_defaults) records.length 0
      (allocate k1 records c0) with
  | next c =>
    rw [hl] at h
    have e : (k1, c) = (k1, ctx) := Flow.next.inj h
    have e2 : c = ctx := congrArg Prod.snd e
    subst e2
    exact forLoop_next_inv (recordBody P k1 records record_defaults)
      (fun _ s => Shape s k1.out_type_.length records.length) records.length 0 _ c
      (allocate_shape k1 records c0)
      (fun j u u' _ _ hu hb =>
        recordBody_shape P k1 records record_defaults j u u' _ _ hb hu) hl
  | ret c => rw [hl] at h; cases h
  | undefined => rw [hl] at h; cases h

theorem Decodes_singleton (P : Numbers) (k : Kernel) (record_defaults : List (List Scalar))
    (record : List Char) :
    (∀ (r : Nat) (rec : List Char), [record][r]? = some rec → Decodes P k record_defaults rec) ↔
      Decodes P k record_defaults record := by
  constructor
  · intro h
    exact h 0 record rfl
  · intro h r rec hr
    cases r with
    | zero =>
      simp only [List.getElem?_cons_zero, Option.some.injEq] at hr
      rw [← hr]
      exact h
    | succ r => simp at hr

/-- C13: for a resolved schema, Compute completes without a failure on a batch exactly
when it completes without a failure on each record of the batch decoded alone; when it
completes, the context holds no failure, the output holds one column per output type, each
as long as the batch, and output[c][r] is an assigned value equal to output[c][0] of
decoding record r alone. -/
theorem batch_is_per_record_map (P : Numbers) (k k1 : Kernel) (c0 : Context)
    (records : List (List Char)) (record_defaults : List (List Scalar)) (fi : List Int)
    (hres : resolve k ⟨[], []⟩ record_defaults fi = .next (k1, c0)) :
    ((∃ ctx, Compute P k records record_defaults fi = .next (k1, ctx) ∧ ctx.failures = []) ↔
      ∀ (r : Nat) (record : List Char), records[r]? = some record →
        ∃ ctx1, Compute P k [record] record_defaults fi = .next (k1, ctx1) ∧
          ctx1.failures = []) ∧
    (∀ ctx, Compute P k records record_defaults fi = .next (k1, ctx) →
      ctx.failures = [] ∧ Shape ctx k1.out_type_.length records.length ∧
      ∀ (r c : Nat) (record : List Char) (ctx1 : Context), c < k1.out_type_.length →
        records[r]? = some record →
        Compute P k [record] record_defaults fi = .next (k1, ctx1) →
        cell ctx c r = cell ctx1 c 0 ∧ ∃ v, cell ctx c r = some (some v)) := by
  have hB := Compute_completes P k k1 c0 records record_defaults fi hres
  have hS := fun record => Compute_completes P k k1 c0 [record] record_defaults fi hres
  constructor
  · constructor
    · rintro ⟨ctx, h, _⟩ r record hrec
      have hdec := hB.1.1 ⟨ctx, h⟩ r record hrec
      obtain ⟨ctx1, h1⟩ := (hS record).1.2
        ((Decodes_singleton P k1 record_defaults record).2 hdec)
      exact ⟨ctx1, h1, ((hS record).2 k1 ctx1 h1).2.1⟩
    · intro hall
      have hdec : ∀ (r : Nat) (record : List Char), records[r]? = some record →
          Decodes P k1 record_defaults record := by
        intro r record hrec
        obtain ⟨ctx1, h1, _⟩ := hall r record hrec
        exact (Decodes_singleton P k1 record_defaults record).1 ((hS record).1.1 ⟨ctx1, h1⟩)
      obtain ⟨ctx, h⟩ := hB.1.2 hdec
      exact ⟨ctx, h, (hB.2 k1 ctx h).2.1⟩
  · intro ctx h
    obtain ⟨_, hf, hcells⟩ := hB.2 k1 ctx h
    refine ⟨hf, Compute_shape P k k1 c0 ctx records record_defaults fi hres h, ?_⟩
    intro r c record ctx1 hc hrec h1
    obtain ⟨_, _, hcells1⟩ := (hS record).2 k1 ctx1 h1
    have e1 := hcells r c record hc hrec
    have e2 := hcells1 0 c record hc rfl
    refine ⟨by rw [e1, e2], ?_⟩
    obtain ⟨fields, hpass, hval⟩ := hB.1.1 ⟨ctx, h⟩ r record hrec
    obtain ⟨v, hv⟩ : ∃ v, rowCell P k1 record_defaults fields c = some v :=
      Option.ne_none_iff_exists'.1 (hval c hc)
    refine ⟨v, ?_⟩
    rw [e1, decodedCell_of_passing P k1 record_defaults record fields c hpass, hv]
    rfl

theorem batch_is_per_record_map_witness :
    (∃ ctx, Compute digitNumbers ⟨[.DT_INT32, .DT_FLOAT, .DT_STRING], ',', [], -1⟩
        ["1,2,x".data, "3,4,y".data] [[], [], []] []
        = .next (⟨[.DT_INT32, .DT_FLOAT, .DT_STRING], ',', [0, 1, 2], 3⟩, ctx) ∧
      ctx.failures = []) ↔
    ∀ (r : Nat) (record : List Char), ["1,2,x".data, "3,4,y".data][r]? = some record →
      ∃ ctx1, Compute digitNumbers ⟨[.DT_INT32, .DT_FLOAT, .DT_STRING], ',', [], -1⟩
          [record] [[], [], []] []
          = .next (⟨[.DT_INT32, .DT_FLOAT, .DT_STRING], ',', [0, 1, 2], 3⟩, ctx1) ∧
        ctx1.failures = [] :=
  (batch_is_per_record_map digitNumbers ⟨[.DT_INT32, .DT_FLOAT, .DT_STRING], ',', [], -1⟩
    ⟨[.DT_INT32, .DT_FLOAT, .DT_STRING], ',', [0, 1, 2], 3⟩ ⟨[], []⟩
    ["1,2,x".data, "3,4,y".data] [[], [], []] [] (by decide)).1

/-! ## Conversions of non-empty fields -/

theorem rowCell_at (P : Numbers) (k : Kernel) (record_defaults : List (List Scalar))
    (fields : List (List Char)) (f : Nat) (dtype : DataType) (src : Int) (str : List Char)
    (hty : k.out_type_[f]? = some dtype) (hsrc : k.field_indices_vec_[f]? = some src)
    (hstr : fields[toSizeT src]? = some str) :
    rowCell P k record_defaults fields f = assigned P record_defaults dtype str f := by
  unfold rowCell
  rw [hty, hsrc]
  simp only [hstr]

/-- The slot of a completed Compute, for a record whose scan is known. -/
theorem Compute_cell (P : Numbers) (k k1 k' : Kernel) (c0 ctx' : Context)
    (records : List (List Char)) (record_defaults : List (List Scalar)) (fi : List Int)
    (f r : Nat) (dtype : DataType) (record : List Char) (idx : Nat)
    (fields : List (List Char)) (src : Int) (str : List Char)
    (hres : resolve k ⟨[], []⟩ record_defaults fi = .next (k1, c0))
    (hty : k1.out_type_[f]? = some dtype)
    (hrec : records[r]? = some record)
    (hscan : ExtractFields record k1.delim_ (toSizeT k1.num_first_n_columns_to_extract_)
      = .done idx fields)
    (hsrc : k1.field_indices_vec_[f]? = some src)
    (hstr : fields[toSizeT src]? = some str)
    (h : Compute P k records record_defaults fi = .next (k', ctx')) :
    cell ctx' f r = (assigned P record_defaults dtype str f).map some ∧
      assigned P record_defaults dtype str f ≠ none := by
  have hB := Compute_completes P k k1 c0 records record_defaults fi hres
  obtain ⟨e, _, hcells⟩ := hB.2 k' ctx' h
  subst e
  have hf : f < k'.out_type_.length := lt_length_of_getElem? _ _ _ hty
  obtain ⟨fields', hpass, hval⟩ := hB.1.1 ⟨ctx', h⟩ r record hrec
  obtain ⟨⟨idx', hs'⟩, _⟩ := (passingFields_some k' record fields').1 hpass
  rw [hscan] at hs'
  cases hs'
  have hrow := rowCell_at P k' record_defaults fields f dtype src str hty hsrc hstr
  constructor
  · rw [hcells r f record hf hrec, decodedCell_of_passing P k' record_defaults record fields f
      hpass, hrow]
  · rw [← hrow]
    exact hval f hf

/-- C11: for a resolved schema, a string column f and a record r scanned without error
with a non-empty field at the source position of column f: the switch assigns that field,
unchanged, to output[f][r], whatever the defaults and the conversion routines are; and when
Compute completes, output[f][r] holds exactly that field. -/
theorem string_copied_verbatim (P : Numbers) (k k1 : Kernel) (c0 : Context)
    (records : List (List Char)) (record_defaults : List (List Scalar)) (fi : List Int)
    (f r : Nat) (record : List Char) (idx : Nat) (fields : List (List Char)) (src : Int)
    (str : List Char)
    (hres : resolve k ⟨[], []⟩ record_defaults fi = .next (k1, c0))
    (hty : k1.out_type_[f]? = some .DT_STRING)
    (hrec : records[r]? = some record)
    (hscan : ExtractFields record k1.delim_ (toSizeT k1.num_first_n_columns_to_extract_)
      = .done idx fields)
    (hsrc : k1.field_indices_vec_[f]? = some src)
    (hstr : fields[toSizeT src]? = some str) (hne : str ≠ []) :
    (∀ (Q : Numbers) (defaults : List (List Scalar)) (i : Nat) (ctx : Context),
      convertField Q defaults .DT_STRING str f i ctx = writeOutput ctx f i (.string str)) ∧
    (∀ k' ctx', Compute P k records record_defaults fi = .next (k', ctx') →
      cell ctx' f r = some (some (.string str))) := by
  constructor
  · intro Q defaults i ctx
    simp only [convertField, if_neg hne]
  · intro k' ctx' h
    have := (Compute_cell P k k1 k' c0 ctx' records record_defaults fi f r .DT_STRING record
      idx fields src str hres hty hrec hscan hsrc hstr h).1
    rw [this]
    simp only [assigned, if_neg hne]
    rfl

theorem string_copied_verbatim_witness :
    Compute digitNumbers ⟨[.DT_INT32, .DT_STRING], ';', [], -1⟩
        ["7; a b ".data] [[], [.string "dflt".data]] []
      = .next (⟨[.DT_INT32, .DT_STRING], ';', [0, 1], 2⟩,
          ⟨[], [[some (.int32 7)], [some (.string " a b ".data)]]⟩) ∧
    cell ⟨[], [[some (.int32 7)], [some (.string " a b ".data)]]⟩ 1 0
      = some (some (.string " a b ".data)) :=
  ⟨by decide,
    (string_copied_verbatim digitNumbers ⟨[.DT_INT32, .DT_STRING], ';', [], -1⟩
      ⟨[.DT_INT32, .DT_STRING], ';', [0, 1], 2⟩ ⟨[], []⟩
      ["7; a b ".data] [[], [.string "dflt".data]] [] 1 0 "7; a b ".data 8
      ["7".data, " a b ".data] 1 " a b ".data
      (by decide) (by decide) (by decide) (by decide) (by decide) (by decide) (by decide)).2
      ⟨[.DT_INT32, .DT_STRING], ';', [0, 1], 2⟩
      ⟨[], [[some (.int32 7)], [some (.string " a b ".data)]]⟩ (by decide)⟩

/-- Compute on a batch with a record and a column whose conversion always returns with a
failure: it never completes, and it returns with that failure when the records and columns
before convert. -/
theorem Compute_column_fails (P : Numbers) (k k1 : Kernel) (c0 : Context)
    (records : List (List Char)) (record_defaults : List (List Scalar)) (fi : List Int)
    (f r : Nat) (record : List Char) (idx : Nat) (fields : List (List Char)) (e : Err)
    (hres : resolve k ⟨[], []⟩ record_defaults fi = .next (k1, c0))
    (hf : f < k1.out_type_.length) (hrec : records[r]? = some record)
    (hscan : ExtractFields record k1.delim_ (toSizeT k1.num_first_n_columns_to_extract_)
      = .done idx fields)
    (hfield : ∀ t, fieldBody P k1 record_defaults fields r f t = .ret (CtxFailure t e)) :
    (∀ s, Compute P k records record_defaults fi ≠ .next s) ∧
    (∀ ctx_r c_f,
      fields.length = toSizeT k1.num_first_n_columns_to_extract_ →
      forLoop (recordBody P k1 records record_defaults) r 0 (allocate k1 records c0)
        = .next ctx_r →
      forLoop (fieldBody P k1 record_defaults fields r) f 0 ctx_r = .next c_f →
      Compute P k records record_defaults fi = .ret (k1, CtxFailure c_f e)) := by
  have hr : r < records.length := lt_length_of_getElem? _ _ _ hrec
  have hbody : ∀ t, recordBody P k1 records record_defaults r t
      = checkAndConvert P k1 record_defaults fields r t := by
    intro t
    unfold recordBody
    rw [hrec]
    simp only [hscan]
  constructor
  · refine Compute_blocked P k k1 c0 records record_defaults fi r hres hr ?_
    intro t t' ht
    rw [hbody] at ht
    unfold checkAndConvert at ht
    by_cases hn : fields.length = toSizeT k1.num_first_n_columns_to_extract_
    · rw [if_pos hn] at ht
      exact forLoop_blocked (fieldBody P k1 record_defaults fields r) f
        (fun u u' hu => by rw [hfield] at hu; cases hu)
        k1.out_type_.length 0 t t' (Nat.zero_le _) (by omega) ht
    · rw [if_neg hn] at ht
      cases ht
  · intro ctx_r c_f hn hloop hcols
    refine Compute_ret_at P k k1 c0 ctx_r _ records record_defaults fi r hres hr hloop ?_
    rw [hbody]
    unfold checkAndConvert
    rw [if_pos hn]
    exact forLoop_ret_at _ _ f 0 ctx_r c_f _ hf hcols (by rw [Nat.zero_add]; exact hfield c_f)

/-- For a resolved schema and a record scanned without error with a non-empty field at the
source position of an int32 (int64) column f, the switch hands the text to safe_strto32
(safe_strto64) and to nothing else; the defaults play no part. -/
theorem integer_column_delegates (P : Numbers) (k k1 : Kernel) (c0 : Context)
    (records : List (List Char)) (record_defaults : List (List Scalar)) (fi : List Int)
    (f r : Nat) (record : List Char) (idx : Nat) (fields : List (List Char)) (src : Int)
    (str : List Char)
    (hres : resolve k ⟨[], []⟩ record_defaults fi = .next (k1, c0))
    (hrec : records[r]? = some record)
    (hscan : ExtractFields record k1.delim_ (toSizeT k1.num_first_n_columns_to_extract_)
      = .done idx fields)
    (hsrc : k1.field_indices_vec_[f]? = some src)
    (hstr : fields[toSizeT src]? = some str) (hne : str ≠ []) :
    (∀ (defaults : List (List Scalar)) (i : Nat) (ctx : Context),
      convertField P defaults .DT_INT32 str f i ctx =
        (match P.safe_strto32 str with
          | some v => writeOutput ctx f i (.int32 v)
          | none => .ret (CtxFailure ctx (.notValidInt32 f i str))) ∧
      convertField P defaults .DT_INT64 str f i ctx =
        (match P.safe_strto64 str with
          | some v => writeOutput ctx f i (.int64 v)
          | none => .ret (CtxFailure ctx (.notValidInt64 f i str)))) ∧
    (∀ k' ctx', Compute P k records record_defaults fi = .next (k', ctx') →
      (k1.out_type_[f]? = some .DT_INT32 →
        ∃ v, P.safe_strto32 str = some v ∧ cell ctx' f r = some (some (.int32 v))) ∧
      (k1.out_type_[f]? = some .DT_INT64 →
        ∃ v, P.safe_strto64 str = some v ∧ cell ctx' f r = some (some (.int64 v)))) ∧
    (k1.out_type_[f]? = some .DT_INT32 → P.safe_strto32 str = none →
      (∀ s, Compute P k records record_defaults fi ≠ .next s) ∧
      (∀ ctx_r c_f, fields.length = toSizeT k1.num_first_n_columns_to_extract_ →
        forLoop (recordBody P k1 records record_defaults) r 0 (allocate k1 records c0)
          = .next ctx_r →
        forLoop (fieldBody P k1 record_defaults fields r) f 0 ctx_r = .next c_f →
        Compute P k records record_defaults fi
          = .ret (k1, CtxFailure c_f (.notValidInt32 f r str)))) ∧
    (k1.out_type_[f]? = some .DT_INT64 → P.safe_strto64 str = none →
      (∀ s, Compute P k records record_defaults fi ≠ .next s) ∧
      (∀ ctx_r c_f, fields.length = toSizeT k1.num_first_n_columns_to_extract_ →
        forLoop (recordBody P k1 records record_defaults) r 0 (allocate k1 records c0)
          = .next ctx_r →
        forLoop (fieldBody P k1 record_defaults fields r) f 0 ctx_r = .next c_f →
        Compute P k records record_defaults fi
          = .ret (k1, CtxFailure c_f (.notValidInt64 f r str)))) := by
  have hsw : ∀ (defaults : List (List Scalar)) (i : Nat) (ctx : Context),
      convertField P defaults .DT_INT32 str f i ctx =
        (match P.safe_strto32 str with
          | some v => writeOutput ctx f i (.int32 v)
          | none => .ret (CtxFailure ctx (.notValidInt32 f i str))) ∧
      convertField P defaults .DT_INT64 str f i ctx =
        (match P.safe_strto64 str with
          | some v => writeOutput ctx f i (.int64 v)
          | none => .ret (CtxFailure ctx (.notValidInt64 f i str))) := by
    intro defaults i ctx
    constructor <;> simp only [convertField, if_neg hne]
  refine ⟨hsw, ?_, ?_, ?_⟩
  · intro k' ctx' h
    constructor
    · intro hty
      obtain ⟨hc, hn⟩ := Compute_cell P k k1 k' c0 ctx' records record_defaults fi f r
        .DT_INT32 record idx fields src str hres hty hrec hscan hsrc hstr h
      simp only [assigned, if_neg hne] at hc hn
      cases hp : P.safe_strto32 str with
      | none => rw [hp] at hn; exact absurd rfl hn
      | some v => rw [hp] at hc; exact ⟨v, rfl, hc⟩
    · intro hty
      obtain ⟨hc, hn⟩ := Compute_cell P k k1 k' c0 ctx' records record_defaults fi f r
        .DT_INT64 record idx fields src str hres hty hrec hscan hsrc hstr h
      simp only [assigned, if_neg hne] at hc hn
      cases hp : P.safe_strto64 str with
      | none => rw [hp] at hn; exact absurd rfl hn
      | some v => rw [hp] at hc; exact ⟨v, rfl, hc⟩
  · intro hty hp
    refine Compute_column_fails P k k1 c0 records record_defaults fi f r record idx fields _
      hres (lt_length_of_getElem? _ _ _ hty) hrec hscan ?_
    intro t
    rw [fieldBody_at P k1 record_defaults fields r f t .DT_INT32 src str hty hsrc hstr,
      (hsw record_defaults r t).1, hp]
  · intro hty hp
    refine Compute_column_fails P k k1 c0 records record_defaults fi f r record idx fields _
      hres (lt_length_of_getElem? _ _ _ hty) hrec hscan ?_
    intro t
    rw [fieldBody_at P k1 record_defaults fields r f t .DT_INT64 src str hty hsrc hstr,
      (hsw record_defaults r t).2, hp]

theorem digitsValue_eq : ∀ (s : List Char) (acc : Nat),
    digitsValue s acc = if s.all Char.isDigit = true
      then some (s.foldl (fun a c => a * 10 + (c.toNat - 48)) acc) else none := by
  intro s
  induction s with
  | nil => intro acc; simp [digitsValue]
  | cons c s ih =>
    intro acc
    simp only [digitsValue, List.all_cons, List.foldl_cons]
    by_cases hc : c.isDigit = true
    · rw [if_pos hc, ih]
      simp [hc]
    · rw [if_neg hc]
      simp [hc]

/-- The modelled routine accepts exactly the strict integers within the range, and returns
the integer they denote. -/
theorem parseInteger_eq (lo hi : Int) (s : List Char) :
    parseInteger lo hi s =
      if isStrictInteger s = true ∧ lo ≤ signedValue s ∧ signedValue s ≤ hi
      then some (signedValue s) else none := by
  cases s with
  | nil => simp [parseInteger, isStrictInteger]
  | cons c ds =>
    by_cases hm : c = '-'
    · subst hm
      cases ds with
      | nil => simp [parseInteger, isStrictInteger]
      | cons d ds =>
        simp only [parseInteger, isStrictInteger, signedValue, digitsValue_eq, decimalValue]
        by_cases hall : (d :: ds).all Char.isDigit = true
        · simp [hall]
        · simp [hall]
    · by_cases hp : c = '+'
      · subst hp
        cases ds with
        | nil => simp [parseInteger, isStrictInteger]
        | cons d ds =>
          simp only [parseInteger, isStrictInteger, signedValue, digitsValue_eq,
            decimalValue]
          by_cases hall : (d :: ds).all Char.isDigit = true
          · simp [hall]
          · simp [hall]
      · simp only [parseInteger, isStrictInteger, signedValue, digitsValue_eq, decimalValue,
          if_neg hm, if_neg hp]
        by_cases hall : (c :: ds).all Char.isDigit = true
        · simp [hall, hm, hp]
        · simp [hall, hm, hp]

/-- C12: with the integer routines of the library as section 4.3 of the spec describes them,
for a resolved schema and a record scanned without error with a non-empty field str at the
source position of an int32 (int64) column f: the switch assigns the integer that str
denotes when str is an optional leading sign followed by decimal digits only whose value
fits the type, and hands the not-a-valid-int32 (int64) failure to the context for every
other text, whatever the defaults are; when Compute completes, str is such a text and
output[f][r] is exactly its integer; for every other text Compute never completes, and it
returns with that failure when the records and columns before convert. -/
theorem strict_integer_parse (P : Numbers) (k k1 : Kernel) (c0 : Context)
    (records : List (List Char)) (record_defaults : List (List Scalar)) (fi : List Int)
    (f r : Nat) (record : List Char) (idx : Nat) (fields : List (List Char)) (src : Int)
    (str : List Char)
    (hres : resolve k ⟨[], []⟩ record_defaults fi = .next (k1, c0))
    (hrec : records[r]? = some record)
    (hscan : ExtractFields record k1.delim_ (toSizeT k1.num_first_n_columns_to_extract_)
      = .done idx fields)
    (hsrc : k1.field_indices_vec_[f]? = some src)
    (hstr : fields[toSizeT src]? = some str) (hne : str ≠ []) :
    (∀ (defaults : List (List Scalar)) (i : Nat) (ctx : Context),
      convertField (integerNumbers P) defaults .DT_INT32 str f i ctx =
        (if isStrictInteger str = true ∧
            -2147483648 ≤ signedValue str ∧ signedValue str ≤ 2147483647
          then writeOutput ctx f i (.int32 (signedValue str))
          else .ret (CtxFailure ctx (.notValidInt32 f i str))) ∧
      convertField (integerNumbers P) defaults .DT_INT64 str f i ctx =
        (if isStrictInteger str = true ∧
            -9223372036854775808 ≤ signedValue str ∧ signedValue str ≤ 9223372036854775807
          then writeOutput ctx f i (.int64 (signedValue str))
          else .ret (CtxFailure ctx (.notValidInt64 f i str)))) ∧
    (∀ k' ctx', Compute (integerNumbers P) k records record_defaults fi = .next (k', ctx') →
      (k1.out_type_[f]? = some .DT_INT32 →
        (isStrictInteger str = true ∧
          -2147483648 ≤ signedValue str ∧ signedValue str ≤ 2147483647) ∧
        cell ctx' f r = some (some (.int32 (signedValue str)))) ∧
      (k1.out_type_[f]? = some .DT_INT64 →
        (isStrictInteger str = true ∧
          -9223372036854775808 ≤ signedValue str ∧ signedValue str ≤ 9223372036854775807) ∧
        cell ctx' f r = some (some (.int64 (signedValue str))))) ∧
    (k1.out_type_[f]? = some .DT_INT32 →
      ¬ (isStrictInteger str = true ∧
        -2147483648 ≤ signedValue str ∧ signedValue str ≤ 2147483647) →
      (∀ s, Compute (integerNumbers P) k records record_defaults fi ≠ .next s) ∧
      (∀ ctx_r c_f, fields.length = toSizeT k1.num_first_n_columns_to_extract_ →
        forLoop (recordBody (integerNumbers P) k1 records record_defaults) r 0
          (allocate k1 records c0) = .next ctx_r →
        forLoop (fieldBody (integerNumbers P) k1 record_defaults fields r) f 0 ctx_r
          = .next c_f →
        Compute (integerNumbers P) k records record_defaults fi
          = .ret (k1, CtxFailure c_f (.notValidInt32 f r str)))) ∧
    (k1.out_type_[f]? = some .DT_INT64 →
      ¬ (isStrictInteger str = true ∧
        -9223372036854775808 ≤ signedValue str ∧ signedValue str ≤ 9223372036854775807) →
      (∀ s, Compute (integerNumbers P) k records record_defaults fi ≠ .next s) ∧
      (∀ ctx_r c_f, fields.length = toSizeT k1.num_first_n_columns_to_extract_ →
        forLoop (recordBody (integerNumbers P) k1 records record_defaults) r 0
          (allocate k1 records c0) = .next ctx_r →
        forLoop (fieldBody (integerNumbers P) k1 record_defaults fields r) f 0 ctx_r
          = .next c_f →
        Compute (integerNumbers P) k records record_defaults fi
          = .ret (k1, CtxFailure c_f (.notValidInt64 f r str)))) := by
  have h32 : (integerNumbers P).safe_strto32 str =
      if isStrictInteger str = true ∧
          -2147483648 ≤ signedValue str ∧ signedValue str ≤ 2147483647
      then some (signedValue str) else none := parseInteger_eq _ _ str
  have h64 : (integerNumbers P).safe_strto64 str =
      if isStrictInteger str = true ∧
          -9223372036854775808 ≤ signedValue str ∧ signedValue str ≤ 9223372036854775807
      then some (signedValue str) else none := parseInteger_eq _ _ str
  obtain ⟨hsw, hdone, hbad32, hbad64⟩ := integer_column_delegates (integerNumbers P) k k1 c0
    records record_defaults fi f r record idx fields src str hres hrec hscan hsrc hstr hne
  refine ⟨?_, ?_, ?_, ?_⟩
  · intro defaults i ctx
    obtain ⟨h1, h2⟩ := hsw defaults i ctx
    constructor
    · rw [h1, h32]
      by_cases hA : isStrictInteger str = true ∧
          -2147483648 ≤ signedValue str ∧ signedValue str ≤ 2147483647
      · rw [if_pos hA, if_pos hA]
      · rw [if_neg hA, if_neg hA]
    · rw [h2, h64]
      by_cases hA : isStrictInteger str = true ∧
          -9223372036854775808 ≤ signedValue str ∧ signedValue str ≤ 9223372036854775807
      · rw [if_pos hA, if_pos hA]
      · rw [if_neg hA, if_neg hA]
  · intro k' ctx' h
    obtain ⟨hd32, hd64⟩ := hdone k' ctx' h
    constructor
    · intro hty
      obtain ⟨v, hv, hc⟩ := hd32 hty
      rw [h32] at hv
      by_cases hA : isStrictInteger str = true ∧
          -2147483648 ≤ signedValue str ∧ signedValue str ≤ 2147483647
      · rw [if_pos hA] at hv
        cases hv
        exact ⟨hA, hc⟩
      · rw [if_neg hA] at hv
        cases hv
    · intro hty
      obtain ⟨v, hv, hc⟩ := hd64 hty
      rw [h64] at hv
      by_cases hA : isStrictInteger str = true ∧
          -9223372036854775808 ≤ signedValue str ∧ signedValue str ≤ 9223372036854775807
      · rw [if_pos hA] at hv
        cases hv
        exact ⟨hA, hc⟩
      · rw [if_neg hA] at hv
        cases hv
  · intro hty hA
    exact hbad32 hty (by rw [h32, if_neg hA])
  · intro hty hA
    exact hbad64 hty (by rw [h64, if_neg hA])

theorem strict_integer_parse_witness :
    Compute (integerNumbers digitNumbers) ⟨[.DT_STRING, .DT_INT32], ',', [], -1⟩
        ["x,-12".data] [[], [.int32 5]] []
      = .next (⟨[.DT_STRING, .DT_INT32], ',', [0, 1], 2⟩,
          ⟨[], [[some (.string "x".data)], [some (.int32 (-12))]]⟩) ∧
    ((isStrictInteger "-12".data = true ∧
        -2147483648 ≤ signedValue "-12".data ∧ signedValue "-12".data ≤ 2147483647) ∧
      cell ⟨[], [[some (.string "x".data)], [some (.int32 (-12))]]⟩ 1 0
        = some (some (.int32 (signedValue "-12".data)))) :=
  ⟨by decide,
    ((strict_integer_parse digitNumbers ⟨[.DT_STRING, .DT_INT32], ',', [], -1⟩
      ⟨[.DT_STRING, .DT_INT32], ',', [0, 1], 2⟩ ⟨[], []⟩ ["x,-12".data] [[], [.int32 5]] []
      1 0 "x,-12".data 6 ["x".data, "-12".data] 1 "-12".data
      (by decide) (by decide) (by decide) (by decide) (by decide) (by decide)).2.1
      ⟨[.DT_STRING, .DT_INT32], ',', [0, 1], 2⟩
      ⟨[], [[some (.string "x".data)], [some (.int32 (-12))]]⟩ (by decide)).1 (by decide)⟩

/-! ## Format errors and the record index -/

/-- The failures of ExtractFields name no record. -/
theorem format_status_has_no_index (record : List Char) (d : Char) (bound : Nat) (e : Err)
    (fields : List (List Char)) (h : ExtractFields record d bound = .failed e fields) :
    recordIndex e = none := by
  rcases (ExtractFields_failed_short record d bound e fields h).2 with he | he | he <;>
    rw [he] <;> rfl

/-- C14: in the batch of the records a,b and "unterminated,x (two string columns, comma as
delimiter) the second record fails in ExtractFields; Compute returns with the
quoted-field-end status and then the field-count status handed to the context; the status
the context keeps is the first one, and neither it nor any other status of ExtractFields
names a record. -/
theorem format_error_names_no_record :
    Compute digitNumbers ⟨[.DT_STRING, .DT_STRING], ',', [], -1⟩
        ["a,b".data, "\"unterminated,x".data] [[], []] []
      = .ret (⟨[.DT_STRING, .DT_STRING], ',', [0, 1], 2⟩,
          ⟨[.quotedFieldBadEnd, .fieldCount 2 0 1],
            [[some (.string "a".data), none], [some (.string "b".data), none]]⟩) ∧
    status ⟨[.quotedFieldBadEnd, .fieldCount 2 0 1],
        [[some (.string "a".data), none], [some (.string "b".data), none]]⟩
      = some .quotedFieldBadEnd ∧
    recordIndex .quotedFieldBadEnd = none ∧
    recordIndex .quoteNotEscaped = none ∧
    recordIndex .unquotedHasQuoteOrCRLF = none := by
  decide

/-! ## Index safety of Compute -/

/-- What schema resolution leaves in the kernel when it falls through. -/
theorem resolve_spec (k k1 : Kernel) (ctx c0 : Context) (record_defaults : List (List Scalar))
    (fi : List Int) (hk : k.num_first_n_columns_to_extract_ < 0)
    (h : resolve k ctx record_defaults fi = .next (k1, c0)) :
    k1.out_type_ = k.out_type_ ∧ k1.delim_ = k.delim_ ∧
    k1.field_indices_vec_.length = record_defaults.length ∧
    (∀ d ∈ record_defaults, d.length < 2) ∧
    (k1.field_indices_vec_ = fi ∨
      k1.field_indices_vec_ = identityIndices record_defaults.length) ∧
    ∃ m, k1.num_first_n_columns_to_extract_ = wrapInt32 (m + 1) ∧
      (∀ x ∈ k1.field_indices_vec_, 0 ≤ x ∧ x ≤ m) ∧
      (m = -1 ∨ m ∈ k1.field_indices_vec_) := by
  by_cases hbad : (∃ d ∈ record_defaults, 2 ≤ d.length) ∨
      (fi ≠ [] ∧ fi.length ≠ record_defaults.length) ∨ (∃ x ∈ fi, x < 0)
  · obtain ⟨k', e, h', _⟩ := resolve_rejects k ctx record_defaults fi hk hbad
    rw [h'] at h
    cases h
  · have hd : ∀ d ∈ record_defaults, d.length < 2 := by
      intro d hd
      by_contra hcon
      exact hbad (Or.inl ⟨d, hd, by omega⟩)
    have hpos : ∀ x ∈ fi, 0 ≤ x := by
      intro x hx
      by_contra hcon
      exact hbad (Or.inr (Or.inr ⟨x, hx, by omega⟩))
    have hreq : ∀ (gi : List Int), gi ≠ [] → gi.length = record_defaults.length →
        (∀ x ∈ gi, 0 ≤ x) → resolve k ctx record_defaults gi = .next (k1, c0) →
        k1.out_type_ = k.out_type_ ∧ k1.delim_ = k.delim_ ∧
        k1.field_indices_vec_.length = record_defaults.length ∧
        k1.field_indices_vec_ = gi ∧
        ∃ m, k1.num_first_n_columns_to_extract_ = wrapInt32 (m + 1) ∧
          (∀ x ∈ k1.field_indices_vec_, 0 ≤ x ∧ x ≤ m) ∧
          (m = -1 ∨ m ∈ k1.field_indices_vec_) := by
      intro gi hne hlen hp hg
      obtain ⟨m, hm, hmem, hmax⟩ := resolve_requested k ctx record_defaults gi hk hd hne hlen hp
      rw [hm] at hg
      have e := Flow.next.inj hg
      have e1 : k1 = _ := (congrArg Prod.fst e).symm
      subst e1
      exact ⟨rfl, rfl, hlen, rfl, m, rfl, fun x hx => ⟨hp x hx, hmax x hx⟩, Or.inr hmem⟩
    by_cases hne : fi = []
    · subst hne
      rw [resolve_empty_eq_identity] at h
      by_cases hM : record_defaults.length = 0
      · have hnil : record_defaults = [] := List.length_eq_zero.1 hM
        subst hnil
        have hcomp : resolve k ctx [] (identityIndices ([] : List (List Scalar)).length)
            = .next (⟨k.out_type_, k.delim_, [], wrapInt32 (-1 + 1)⟩, ctx) := by
          unfold resolve
          rw [if_pos hk]
          simp [forLoop, identityIndices, resize, finishResolve]
        rw [hcomp] at h
        have e := Flow.next.inj h
        have e1 : k1 = _ := (congrArg Prod.fst e).symm
        subst e1
        exact ⟨rfl, rfl, rfl, hd, Or.inl rfl, -1, rfl, fun x hx => by simp at hx, Or.inl rfl⟩
      · have hne' : identityIndices record_defaults.length ≠ [] := by
          intro h0
          have := length_identityIndices record_defaults.length
          rw [h0] at this
          exact hM this.symm
        obtain ⟨h1, h2, h3, h4, h5⟩ := hreq _ hne' (length_identityIndices _)
          (identityIndices_nonneg _) h
        exact ⟨h1, h2, h3, hd, Or.inr h4, h5⟩
    · have hlen : fi.length = record_defaults.length := by
        by_contra hcon
        exact hbad (Or.inr (Or.inl ⟨hne, hcon⟩))
      obtain ⟨h1, h2, h3, h4, h5⟩ := hreq fi hne hlen hpos h
      exact ⟨h1, h2, h3, hd, Or.inl h4, h5⟩

theorem identityIndices_lt (M : Nat) : ∀ x ∈ identityIndices M, x < (M : Int) := by
  intro x hx
  simp only [identityIndices, List.mem_map, List.mem_range] at hx
  obtain ⟨n, hn, rfl⟩ := hx
  have : Int.ofNat n = (n : Int) := rfl
  omega

/-- Every source index of a resolved schema is below the bound, as `size_t` values. -/
theorem resolved_index_lt_bound (k k1 : Kernel) (ctx c0 : Context)
    (record_defaults : List (List Scalar)) (fi : List Int)
    (hk : k.num_first_n_columns_to_extract_ < 0)
    (h : resolve k ctx record_defaults fi = .next (k1, c0))
    (hrange : ∀ x ∈ fi, x < 2 ^ 31) (hM : record_defaults.length < 2 ^ 31) :
    ∀ x ∈ k1.field_indices_vec_, toSizeT x < toSizeT k1.num_first_n_columns_to_extract_ := by
  obtain ⟨_, _, _, _, hvec, m, hnum, hx, hm⟩ := resolve_spec k k1 ctx c0 record_defaults fi hk h
  have hlt : ∀ x ∈ k1.field_indices_vec_, x < 2 ^ 31 := by
    intro x hxm
    rcases hvec with hv | hv
    · exact hrange x (hv ▸ hxm)
    · have := identityIndices_lt record_defaults.length x (hv ▸ hxm)
      omega
  intro x hxm
  have h0 := hx x hxm
  have hm' : m < 2 ^ 31 := by
    rcases hm with hm | hm
    · omega
    · exact hlt m hm
  rw [hnum]
  unfold toSizeT wrapInt32
  omega

theorem forLoop_defined {σ : Type} (body : Nat → σ → Flow σ) (Inv : σ → Prop) :
    ∀ (n i : Nat) (s : σ), Inv s →
      (∀ j t, i ≤ j → j < i + n → Inv t →
        body j t ≠ .undefined ∧ ∀ t', body j t = .next t' → Inv t') →
      forLoop body n i s ≠ .undefined := by
  intro n
  induction n with
  | zero =>
    intro i s _ _
    simp [forLoop]
  | succ n ih =>
    intro i s h0 hstep
    simp only [forLoop]
    obtain ⟨hdef, hnext⟩ := hstep i s (le_refl _) (by omega) h0
    cases hb : body i s with
    | next t =>
      exact ih (i + 1) t (hnext t hb) (fun j u hj hj' => hstep j u (by omega) (by omega))
    | ret t => simp
    | undefined => exact absurd hb hdef

theorem shape_slot (ctx : Context) (M N f i : Nat) (hs : Shape ctx M N) (hf : f < M)
    (hi : i < N) : cell ctx f i ≠ none := by
  unfold cell
  have hf' : f < ctx.output.length := by rw [hs.1]; exact hf
  rw [List.getElem?_eq_getElem hf']
  simp only [Option.some_bind]
  have hlen : ctx.output[f].length = N := hs.2 _ (List.getElem_mem hf')
  rw [List.getElem?_eq_getElem (by omega)]
  simp

theorem useDefault_defined (record_defaults : List (List Scalar)) (f i : Nat) (ctx : Context)
    (hd : ∃ dflt, record_defaults[f]? = some dflt) (hslot : cell ctx f i ≠ none) :
    useDefault record_defaults f i ctx ≠ .undefined := by
  obtain ⟨dflt, hd⟩ := hd
  unfold useDefault
  rw [hd]
  simp only
  by_cases h1 : dflt.length = 1
  · obtain ⟨v, hv⟩ : ∃ v, dflt = [v] := List.length_eq_one.1 h1
    subst hv
    obtain ⟨c', hw, _⟩ := writeOutput_slot ctx f i v hslot
    simp [hw]
  · rw [if_neg h1]
    simp

theorem convertField_defined (P : Numbers) (record_defaults : List (List Scalar))
    (dtype : DataType) (str : List Char) (f i : Nat) (ctx : Context)
    (hd : ∃ dflt, record_defaults[f]? = some dflt) (hslot : cell ctx f i ≠ none) :
    convertField P record_defaults dtype str f i ctx ≠ .undefined := by
  have hw : ∀ v, writeOutput ctx f i v ≠ .undefined := by
    intro v
    obtain ⟨c', hw, _⟩ := writeOutput_slot ctx f i v hslot
    rw [hw]
    simp
  have hu := useDefault_defined record_defaults f i ctx hd hslot
  unfold convertField
  cases dtype with
  | DT_FLOAT =>
    simp only
    split
    · exact hu
    · split
      · exact hw _
      · simp
  | DT_INT32 =>
    simp only
    split
    · exact hu
    · split
      · exact hw _
      · simp
  | DT_INT64 =>
    simp only
    split
    · exact hu
    · split
      · exact hw _
      · simp
  | DT_STRING =>
    simp only
    split
    · exact hu
    · exact hw _
  | other code => simp

/-- The lookups of the conversion loop for a record that passed the field-count check. -/
theorem conversion_lookups (k k1 : Kernel) (ctx c0 : Context)
    (record_defaults : List (List Scalar)) (fi : List Int)
    (hk : k.num_first_n_columns_to_extract_ < 0)
    (hres : resolve k ctx record_defaults fi = .next (k1, c0))
    (hlen : k.out_type_.length = record_defaults.length)
    (hrange : ∀ x ∈ fi, x < 2 ^ 31) (hM : record_defaults.length < 2 ^ 31)
    (fields : List (List Char)) (f : Nat)
    (hn : fields.length = toSizeT k1.num_first_n_columns_to_extract_)
    (hf : f < k1.out_type_.length) :
    ∃ dtype src str dflt, k1.out_type_[f]? = some dtype ∧
      k1.field_indices_vec_[f]? = some src ∧
      fields[toSizeT src]? = some str ∧ record_defaults[f]? = some dflt := by
  obtain ⟨h1, _, h3, _, _, _⟩ := resolve_spec k k1 ctx c0 record_defaults fi hk hres
  have hlt := resolved_index_lt_bound k k1 ctx c0 record_defaults fi hk hres hrange hM
  have hfM : f < record_defaults.length := by rw [← hlen, ← h1]; exact hf
  have hfv : f < k1.field_indices_vec_.length := by rw [h3]; exact hfM
  have hsrc := hlt _ (List.getElem_mem hfv)
  exact ⟨_, _, _, _, List.getElem?_eq_getElem hf, List.getElem?_eq_getElem hfv,
    List.getElem?_eq_getElem (by rw [hn]; exact hsrc), List.getElem?_eq_getElem hfM⟩

/-- C19: every read of ExtractFields is inside the input: neither the two field-body loops,
nor the closing-quote check, nor the main loop, from any position, nor ExtractFields itself
ever reads at a position that is not below input.size(). For a schema resolved from int32
indices with as many output types as defaults (fewer than 2^31 of them, which the
constructor requires), the lookups out_type_[f],
field_indices_vec_[f], fields[field_indices_vec_[f]] and record_defaults[f] of the
conversion loop are in range for every field list that passed the field-count check, and
Compute never makes an access out of range. -/
theorem index_safety :
    (∀ (input : List Char) (d : Char) (bound : Nat),
      ExtractFields input d bound ≠ .outOfBounds ∧
      (∀ (fuel idx : Nat) (field : List Char),
        unquotedLoop input d fuel idx field ≠ .outOfBounds ∧
        quotedLoop input d fuel idx field ≠ .outOfBounds) ∧
      (∀ idx : Nat, closingQuote input d idx ≠ none) ∧
      (∀ (fuel idx : Nat) (result : List (List Char)),
        mainLoop input d bound fuel idx result ≠ .outOfBounds)) ∧
    (∀ (P : Numbers) (k k1 : Kernel) (c0 : Context) (records : List (List Char))
        (record_defaults : List (List Scalar)) (fi : List Int),
      k.num_first_n_columns_to_extract_ < 0 →
      resolve k ⟨[], []⟩ record_defaults fi = .next (k1, c0) →
      k.out_type_.length = record_defaults.length →
      (∀ x ∈ fi, x < 2 ^ 31) → record_defaults.length < 2 ^ 31 →
      (∀ (fields : List (List Char)) (f : Nat),
        fields.length = toSizeT k1.num_first_n_columns_to_extract_ →
        f < k1.out_type_.length →
        ∃ dtype src str dflt, k1.out_type_[f]? = some dtype ∧
          k1.field_indices_vec_[f]? = some src ∧
          fields[toSizeT src]? = some str ∧ record_defaults[f]? = some dflt) ∧
      Compute P k records record_defaults fi ≠ .undefined) := by
  constructor
  · intro input d bound
    refine ⟨?_, fun fuel idx field =>
      ⟨unquotedLoop_reads input d fuel idx field, quotedLoop_reads input d fuel idx field⟩,
      ?_, mainLoop_reads input d bound⟩
    · rcases ExtractFields_total input d bound with ⟨i, f, h, _⟩ | ⟨e, f, h, _⟩ <;>
        rw [h] <;> simp
    · intro idx
      obtain ⟨b, hb, _⟩ := closingQuote_total input d idx
      rw [hb]
      simp
  · intro P k k1 c0 records record_defaults fi hk hres hlen hrange hM
    have hlook := fun fields f => conversion_lookups k k1 _ c0 record_defaults fi hk hres hlen
      hrange hM fields f
    refine ⟨hlook, ?_⟩
    rw [Compute_resolved P k k1 c0 records record_defaults fi hres]
    have hloop : forLoop (recordBody P k1 records record_defaults) records.length 0
        (allocate k1 records c0) ≠ .undefined := by
      refine forLoop_defined (recordBody P k1 records record_defaults)
        (fun s => Shape s k1.out_type_.length records.length) records.length 0 _
        (allocate_shape k1 records c0) ?_
      intro j t _ hj ht
      refine ⟨?_, fun t' hb => recordBody_shape P k1 records record_defaults j t t' _ _ hb ht⟩
      have hcols : ∀ (fields : List (List Char)) (u : Context),
          Shape u k1.out_type_.length records.length →
          checkAndConvert P k1 record_defaults fields j u ≠ .undefined := by
        intro fields u hu
        unfold checkAndConvert
        by_cases hn : fields.length = toSizeT k1.num_first_n_columns_to_extract_
        · rw [if_pos hn]
          refine forLoop_defined (fieldBody P k1 record_defaults fields j)
            (fun s => Shape s k1.out_type_.length records.length) _ 0 u hu ?_
          intro f v _ hf hv
          obtain ⟨dtype, src, str, dflt, h1, h2, h3, h4⟩ := hlook fields f hn (by omega)
          constructor
          · rw [fieldBody_at P k1 record_defaults fields j f v dtype src str h1 h2 h3]
            exact convertField_defined P record_defaults dtype str f j v ⟨dflt, h4⟩
              (shape_slot v _ _ f j hv (by omega) (by omega))
          · intro v' hb
            obtain ⟨x, _, hw⟩ := fieldBody_next_write P k1 record_defaults fields j f v v' hb
            exact writeOutput_shape v v' f j x _ _ hw hv
        · rw [if_neg hn]
          simp
      unfold recordBody
      rw [List.getElem?_eq_getElem (by omega : j < records.length)]
      simp only
      rcases ExtractFields_total records[j] k1.delim_
          (toSizeT k1.num_first_n_columns_to_extract_) with ⟨i, f, h, _⟩ | ⟨e, f, h, _⟩
      · rw [h]
        exact hcols f t ht
      · rw [h]
        exact hcols f (CtxFailure t e) ht
    cases hl : forLoop (recordBody P k1 records record_defaults) records.length 0
        (allocate k1 records c0) with
    | next c => simp
    | ret c => simp
    | undefined => exact absurd hl hloop

theorem index_safety_witness :
    (∀ (fields : List (List Char)) (f : Nat),
      fields.length = toSizeT 3 → f < [DataType.DT_INT32, DataType.DT_STRING].length →
      ∃ dtype src str dflt,
        [DataType.DT_INT32, DataType.DT_STRING][f]? = some dtype ∧
        ([2, 0] : List Int)[f]? = some src ∧
        fields[toSizeT src]? = some str ∧
        ([[], [.string "x".data]] : List (List Scalar))[f]? = some dflt) ∧
    Compute digitNumbers ⟨[.DT_INT32, .DT_STRING], ',', [], -1⟩ ["a,b".data]
      [[], [.string "x".data]] [2, 0] ≠ .undefined :=
  index_safety.2 digitNumbers ⟨[.DT_INT32, .DT_STRING], ',', [], -1⟩
    ⟨[.DT_INT32, .DT_STRING], ',', [2, 0], 3⟩ ⟨[], []⟩ ["a,b".data]
    [[], [.string "x".data]] [2, 0] (by decide) (by decide) (by decide) (by decide)
    (by decide)

end DecodeCSV
